import Mathlib

set_option maxRecDepth 8192

/-!
Shallow embedding of the Longhair Cauchy Reed-Solomon codec core
(`src/cauchy_256.cpp`) and proofs about the claims of its specification.

Byte buffers are `List Nat` of byte values; machine 64-bit words are `Nat`
reduced modulo `2^64` where the C code relies on wraparound.  Statuses are
`Int` (`0` success, `-1` failure) as in the C API.
-/

namespace Longhair

/-- Log table for GF(256) with polynomial 0x187, copied from
`GFC256_LOG_TABLE` in `src/cauchy_256.cpp` (entries are `u16`). -/
def GFC256_LOG_TABLE : List Nat := [
  512,255,1,99,2,198,100,106,3,205,199,188,101,126,107,42,4,141,206,78,
  200,212,189,225,102,221,127,49,108,32,43,243,5,87,142,232,207,172,79,131,
  201,217,213,65,190,148,226,180,103,39,222,240,128,177,50,53,109,69,33,18,
  44,13,244,56,6,155,88,26,143,121,233,112,208,194,173,168,80,117,132,72,
  202,252,218,138,214,84,66,36,191,152,149,249,227,94,181,21,104,97,40,186,
  223,76,241,47,129,230,178,63,51,238,54,16,110,24,70,166,34,136,19,247,
  45,184,14,61,245,164,57,59,7,158,156,157,89,159,27,8,144,9,122,28,
  234,160,113,90,209,29,195,123,174,10,169,145,81,91,118,114,133,161,73,235,
  203,124,253,196,219,30,139,210,215,146,85,170,67,11,37,175,192,115,153,119,
  150,92,250,82,228,236,95,74,182,162,22,134,105,197,98,254,41,125,187,204,
  224,211,77,140,242,31,48,220,130,171,231,86,179,147,64,216,52,176,239,38,
  55,12,17,68,111,120,25,154,71,116,167,193,35,83,137,251,20,93,248,151,
  46,75,185,96,15,237,62,229,246,135,165,23,58,163,60,183]

/-- Exponential table for GF(256), copied from `GFC256_EXP_TABLE` in
`src/cauchy_256.cpp` (512*2+1 entries with wrap-around then zero padding). -/
def GFC256_EXP_TABLE : List Nat := [
  1,2,4,8,16,32,64,128,135,137,149,173,221,61,122,244,111,222,59,118,
  236,95,190,251,113,226,67,134,139,145,165,205,29,58,116,232,87,174,219,49,
  98,196,15,30,60,120,240,103,206,27,54,108,216,55,110,220,63,126,252,127,
  254,123,246,107,214,43,86,172,223,57,114,228,79,158,187,241,101,202,19,38,
  76,152,183,233,85,170,211,33,66,132,143,153,181,237,93,186,243,97,194,3,
  6,12,24,48,96,192,7,14,28,56,112,224,71,142,155,177,229,77,154,179,
  225,69,138,147,161,197,13,26,52,104,208,39,78,156,191,249,117,234,83,166,
  203,17,34,68,136,151,169,213,45,90,180,239,89,178,227,65,130,131,129,133,
  141,157,189,253,125,250,115,230,75,150,171,209,37,74,148,175,217,53,106,212,
  47,94,188,255,121,242,99,198,11,22,44,88,176,231,73,146,163,193,5,10,
  20,40,80,160,199,9,18,36,72,144,167,201,21,42,84,168,215,41,82,164,
  207,25,50,100,200,23,46,92,184,247,105,210,35,70,140,159,185,245,109,218,
  51,102,204,31,62,124,248,119,238,91,182,235,81,162,195,1,2,4,8,16,
  32,64,128,135,137,149,173,221,61,122,244,111,222,59,118,236,95,190,251,113,
  226,67,134,139,145,165,205,29,58,116,232,87,174,219,49,98,196,15,30,60,
  120,240,103,206,27,54,108,216,55,110,220,63,126,252,127,254,123,246,107,214,
  43,86,172,223,57,114,228,79,158,187,241,101,202,19,38,76,152,183,233,85,
  170,211,33,66,132,143,153,181,237,93,186,243,97,194,3,6,12,24,48,96,
  192,7,14,28,56,112,224,71,142,155,177,229,77,154,179,225,69,138,147,161,
  197,13,26,52,104,208,39,78,156,191,249,117,234,83,166,203,17,34,68,136,
  151,169,213,45,90,180,239,89,178,227,65,130,131,129,133,141,157,189,253,125,
  250,115,230,75,150,171,209,37,74,148,175,217,53,106,212,47,94,188,255,121,
  242,99,198,11,22,44,88,176,231,73,146,163,193,5,10,20,40,80,160,199,
  9,18,36,72,144,167,201,21,42,84,168,215,41,82,164,207,25,50,100,200,
  23,46,92,184,247,105,210,35,70,140,159,185,245,109,218,51,102,204,31,62,
  124,248,119,238,91,182,235,81,162,195,1,0,0,0,0,0,0,0,0,0,
  0,0,0,0,0,0,0,0,0,0,0,0,0,0,0,0,0,0,0,0,
  0,0,0,0,0,0,0,0,0,0,0,0,0,0,0,0,0,0,0,0,
  0,0,0,0,0,0,0,0,0,0,0,0,0,0,0,0,0,0,0,0,
  0,0,0,0,0,0,0,0,0,0,0,0,0,0,0,0,0,0,0,0,
  0,0,0,0,0,0,0,0,0,0,0,0,0,0,0,0,0,0,0,0,
  0,0,0,0,0,0,0,0,0,0,0,0,0,0,0,0,0,0,0,0,
  0,0,0,0,0,0,0,0,0,0,0,0,0,0,0,0,0,0,0,0,
  0,0,0,0,0,0,0,0,0,0,0,0,0,0,0,0,0,0,0,0,
  0,0,0,0,0,0,0,0,0,0,0,0,0,0,0,0,0,0,0,0,
  0,0,0,0,0,0,0,0,0,0,0,0,0,0,0,0,0,0,0,0,
  0,0,0,0,0,0,0,0,0,0,0,0,0,0,0,0,0,0,0,0,
  0,0,0,0,0,0,0,0,0,0,0,0,0,0,0,0,0,0,0,0,
  0,0,0,0,0,0,0,0,0,0,0,0,0,0,0,0,0,0,0,0,
  0,0,0,0,0,0,0,0,0,0,0,0,0,0,0,0,0,0,0,0,
  0,0,0,0,0,0,0,0,0,0,0,0,0,0,0,0,0,0,0,0,
  0,0,0,0,0,0,0,0,0,0,0,0,0,0,0,0,0,0,0,0,
  0,0,0,0,0,0,0,0,0,0,0,0,0,0,0,0,0,0,0,0,
  0,0,0,0,0,0,0,0,0,0,0,0,0,0,0,0,0,0,0,0,
  0,0,0,0,0,0,0,0,0,0,0,0,0,0,0,0,0,0,0,0,
  0,0,0,0,0,0,0,0,0,0,0,0,0,0,0,0,0,0,0,0,
  0,0,0,0,0,0,0,0,0,0,0,0,0,0,0,0,0,0,0,0,
  0,0,0,0,0,0,0,0,0,0,0,0,0,0,0,0,0,0,0,0,
  0,0,0,0,0,0,0,0,0,0,0,0,0,0,0,0,0,0,0,0,
  0,0,0,0,0,0,0,0,0,0,0,0,0,0,0,0,0,0,0,0,
  0,0,0,0,0,0,0,0,0,0,0,0,0,0,0,0,0,0,0,0,
  0,0,0,0,0]

/-- Inverse table for GF(256), copied from `GFC256_INV_TABLE` in
`src/cauchy_256.cpp`. -/
def GFC256_INV_TABLE : List Nat := [
  0,1,195,130,162,126,65,90,81,54,63,172,227,104,45,42,235,155,27,53,
  220,30,86,165,178,116,52,18,213,100,21,221,182,75,142,251,206,233,217,161,
  110,219,15,44,43,14,145,241,89,215,58,244,26,19,9,80,169,99,50,245,
  201,204,173,10,91,6,230,247,71,191,190,68,103,123,183,33,175,83,147,255,
  55,8,174,77,196,209,22,164,214,48,7,64,139,157,187,140,239,129,168,57,
  29,212,122,72,13,226,202,176,199,222,40,218,151,210,242,132,25,179,185,135,
  167,228,102,73,149,153,5,163,238,97,3,194,115,243,184,119,224,248,156,92,
  95,186,34,250,240,46,254,78,152,124,211,112,148,125,234,17,138,93,188,236,
  216,39,4,127,87,23,229,120,98,56,171,170,11,62,82,76,107,203,24,117,
  192,253,32,74,134,118,141,94,158,237,70,69,180,252,131,2,84,208,223,108,
  205,60,106,177,61,200,36,232,197,85,113,150,101,28,88,49,160,38,111,41,
  20,31,109,198,136,249,105,12,121,166,66,246,207,37,154,16,159,189,128,96,
  144,47,114,133,51,59,231,67,137,225,143,35,193,181,146,79]

/-- Multiplication `x * y` in GF(256).  `GFC256Init` builds
`GFC256_MUL_TABLE[(y<<8)+x] = EXP[LOG[x] + (u8)LOG[y]]` with the `y = 0`
subtable and the `x = 0` entries zeroed; `GFC256Multiply` reads that table.
The `% 256` mirrors the `u8` cast of `LOG[y]` (a no-op for `y >= 1`). -/
def GFC256Multiply (x y : Nat) : Nat :=
  if y = 0 then 0
  else if x = 0 then 0
  else GFC256_EXP_TABLE.getD (GFC256_LOG_TABLE.getD x 0 + GFC256_LOG_TABLE.getD y 0 % 256) 0

/-- Division `x / y` in GF(256).  `GFC256Init` builds
`GFC256_DIV_TABLE[(y<<8)+x] = EXP[LOG[x] + (255 - (u8)LOG[y])]` with row 0 and
the `x = 0` entries zeroed; `GFC256Divide` reads that table. -/
def GFC256Divide (x y : Nat) : Nat :=
  if y = 0 then 0
  else if x = 0 then 0
  else GFC256_EXP_TABLE.getD (GFC256_LOG_TABLE.getD x 0 + (255 - GFC256_LOG_TABLE.getD y 0 % 256)) 0

/-! ## Byte-buffer primitives

The XOR primitives `memxor`, `memxor_set`, `memxor_add` and the byte swap
`memswap` live in `MemXOR.cpp` / `MemSwap.cpp`, which are not under `src/`.
Modelled from the spec (section 4.2): `xor_into(dst, a, n)` sets
`dst[i] ^= a[i]`, `xor_set(dst, a, b, n)` sets `dst[i] = a[i] ^ b[i]`,
`xor_add(dst, a, b, n)` sets `dst[i] ^= a[i] ^ b[i]`, and `swap` is a
byte-for-byte swap, each for all `i < n`.  A destination is a buffer plus a
byte offset (the C pointer); sources are passed as the already-read byte
segment. -/

/-- Byte-wise XOR of two equal-length byte segments. -/
def zipXor (a b : List Nat) : List Nat := List.zipWith Nat.xor a b

/-- Read the `n` bytes of `buf` starting at byte offset `off`
(the rvalue of C pointer `buf + off`). -/
def readSeg (buf : List Nat) (off n : Nat) : List Nat := (buf.drop off).take n

/-- Overwrite the bytes `[off, off + |xs|)` of `buf` with `xs`. -/
def writeSeg (buf : List Nat) (off : Nat) (xs : List Nat) : List Nat :=
  buf.take off ++ xs ++ buf.drop (off + xs.length)

/-- Modelled from the spec: `memxor(dst + dOff, src, n)` (`xor_into`). -/
def memxor (dst : List Nat) (dOff : Nat) (src : List Nat) (n : Nat) : List Nat :=
  writeSeg dst dOff (zipXor (readSeg dst dOff n) (src.take n))

/-- Modelled from the spec: `memxor_set(dst + dOff, a, b, n)` (`xor_set`). -/
def memxor_set (dst : List Nat) (dOff : Nat) (a b : List Nat) (n : Nat) : List Nat :=
  writeSeg dst dOff (zipXor (a.take n) (b.take n))

/-- Modelled from the spec: `memxor_add(dst + dOff, a, b, n)` (`xor_add`). -/
def memxor_add (dst : List Nat) (dOff : Nat) (a b : List Nat) (n : Nat) : List Nat :=
  memxor dst dOff (zipXor (a.take n) (b.take n)) n

/-- Modelled from the spec: `memswap(buf + off1, buf + off2, n)` for two
disjoint ranges inside the same buffer. -/
def memswap (buf : List Nat) (off1 off2 n : Nat) : List Nat :=
  writeSeg (writeSeg buf off1 (readSeg buf off2 n)) off2 (readSeg buf off1 n)

/-! ## Data model -/

/-- A caller block: payload bytes plus the `row` id, mirroring `struct Block`
from `cauchy_256.h`. -/
structure Block where
  data : List Nat
  row : Nat
deriving Repr, DecidableEq

/-- Read a block of the decoder's block array (out of range yields a dummy). -/
def getBlk (bs : List Block) (i : Nat) : Block := bs.getD i ⟨[], 0⟩

/-- Replace the payload of block `i`. -/
def setBlkData (bs : List Block) (i : Nat) (d : List Nat) : List Block :=
  bs.set i { getBlk bs i with data := d }

/-- Replace the row id of block `i`. -/
def setBlkRow (bs : List Block) (i r : Nat) : List Block :=
  bs.set i { getBlk bs i with row := r }

/-- Read sub-block `j` (of `s` bytes) of block `i`. -/
def subRead (bs : List Block) (i j s : Nat) : List Nat :=
  readSeg (getBlk bs i).data (j * s) s

/-! ## Cauchy matrix -/

/-- Modelled from the spec: the auxiliary sequence `CAUCHY_MATRIX_Y` lives in
`cauchy_tables_256.inc`, which is absent from `src/`.  Per sections 3 and 9 of
the spec the stored values are a fixed nonzero sequence (the implicit
`Y[0] = 0` is excluded); they must be distinct and disjoint from the X values
used with them.  We model `Y[j] = j + 2`. -/
def CAUCHY_MATRIX_Y (j : Nat) : Nat := j + 2

/-- Modelled from the spec: the auxiliary sequence `CAUCHY_MATRIX_X` lives in
`cauchy_tables_256.inc`, which is absent from `src/`.  The source indexes a
flat triangular table at offset `n*249 - n*(n+1)/2` for `n = m - 7`, which
selects a per-`m` row of `256 - m` entries; we model that row directly.  Per
sections 3 and 9 the entries are fixed, nonzero, distinct, exclude the
implicit `X[0] = 1` and are disjoint from the Y values used with them; with
`Y[j] = j + 2` (values `2..m` for generating `m` rows) we model
`X[j] = m + 1 + j`.  The final padding slot of the row is never read. -/
def CAUCHY_MATRIX_X (m j : Nat) : Nat := (m + 1 + j) % 256

/-- One generated row of the Cauchy matrix for `m >= 7` (row index `y` in
`1..m-1`), mirroring the row loop of `cauchy_matrix`: the unrolled `x = 0`
entry is `GFC256_INV_TABLE[1 ^ G]` and entry `x >= 1` is
`GFC256Divide(B, B ^ G)` with `B = X[x-1]`, `G = Y[y-1]`. -/
def cauchy_row (k m y : Nat) : List Nat :=
  let G := CAUCHY_MATRIX_Y (y - 1)
  GFC256_INV_TABLE.getD (1 ^^^ G) 0 ::
    (List.range (k - 1)).map (fun x0 =>
      let B := CAUCHY_MATRIX_X m x0
      GFC256Divide B (B ^^^ G))

/-- Modelled from the spec: the precomputed matrices `CAUCHY_MATRIX_2` ..
`CAUCHY_MATRIX_6` live in `cauchy_tables_256.inc`, absent from `src/`.  The
spec fixes only their shape: `m - 1` rows of stride `256 - m` holding
GF(256) elements of an optimized Cauchy generator.  Their exact contents are
optimality-tuned constants; we model them with the same Cauchy construction
as the generated rows, at full width `256 - m`. -/
def CAUCHY_MATRIX_CONST (m : Nat) : List Nat :=
  ((List.range (m - 1)).map (fun y0 =>
    (List.range (256 - m)).map (fun x =>
      if x = 0 then GFC256_INV_TABLE.getD (1 ^^^ CAUCHY_MATRIX_Y y0) 0
      else
        let B := CAUCHY_MATRIX_X m (x - 1)
        GFC256Divide B (B ^^^ CAUCHY_MATRIX_Y y0)))).flatten

/-- Mirrors `cauchy_matrix(k, m, stride, ...)`: returns the matrix bytes and
the row stride.  For `m` in `2..6` a precomputed constant table of stride
`256 - m` is returned; otherwise the `(m-1) x k` matrix is generated from the
X and Y sequences with stride `k`.  (The stack/heap distinction of the source
is memory management only and has no observable effect.) -/
def cauchy_matrix (k m : Nat) : List Nat × Nat :=
  if m = 2 then (CAUCHY_MATRIX_CONST 2, 254)
  else if m = 3 then (CAUCHY_MATRIX_CONST 3, 253)
  else if m = 4 then (CAUCHY_MATRIX_CONST 4, 252)
  else if m = 5 then (CAUCHY_MATRIX_CONST 5, 251)
  else if m = 6 then (CAUCHY_MATRIX_CONST 6, 250)
  else (((List.range (m - 1)).map (fun y0 => cauchy_row k m (y0 + 1))).flatten, k)

/-! ## Encoder -/

/-- Inner `bit_x` loop of the unwindowed encoder (and of
`eliminate_original`): XOR sub-block `bit_x` of `src` into `buf + dOff` for
every bit set in `slice`. -/
def slice_bitx_loop (s : Nat) (src : List Nat) (slice : Nat)
    (buf : List Nat) (dOff : Nat) : List Nat :=
  (List.range 8).foldl (fun b bit_x =>
    if slice &&& (1 <<< bit_x) ≠ 0 then
      memxor b dOff (readSeg src (bit_x * s) s) s
    else b) buf

/-- The `bit_y` loop of the unwindowed encoder: apply the 8x8 submatrix of
`slice0` (rows `slice0 * 2^i`) from source block `src` onto the eight
destination sub-blocks starting at `buf + dOff0`.  The source advances the
destination pointer and doubles the slice between rows. -/
def slice_bity_loop (s : Nat) (src : List Nat) (slice0 : Nat)
    (buf : List Nat) (dOff0 : Nat) : List Nat :=
  ((List.range 8).foldl (fun st bit_y =>
    (slice_bitx_loop s src st.2 st.1 (dOff0 + bit_y * s),
     GFC256Multiply st.2 2)) (buf, slice0)).1

/-- Column loop of the unwindowed encoder for recovery row `y` (1-based):
the destination is the flat recovery buffer at block offset `y * 8 * s`. -/
def encode_col_loop (k s stride : Nat) (data : List (List Nat))
    (matrix : List Nat) (y : Nat) (buf : List Nat) : List Nat :=
  (List.range k).foldl (fun b x =>
    slice_bity_loop s (data.getD x [])
      (matrix.getD ((y - 1) * stride + x) 0) b (y * 8 * s)) buf

/-- Row loop of the unwindowed encoder over rows `y = 1 .. m-1`. -/
def encode_row_loop (k m s stride : Nat) (data : List (List Nat))
    (matrix : List Nat) (buf : List Nat) : List Nat :=
  (List.range (m - 1)).foldl (fun b y0 =>
    encode_col_loop k s stride data matrix (y0 + 1) b) buf

/-! ### Window tables

The window engine keeps two 16-entry pointer tables.  Entries of Hamming
weight 1 (`1,2,4,8`) alias the four sub-blocks of the current source;
the 11 entries of weight >= 2 point into a scratch area (11 sub-blocks per
table).  Entry 0 is a NULL pointer in the source and is never dereferenced
on the paths where slices are nonzero. -/

/-- Scratch slot of a weight->=2 window-table entry: the source assigns
`table[3] -> slot 0`, `table[5] -> 1`, `table[6] -> 2`, `table[7] -> 3` and
`table[jj] -> jj - 5` for `jj = 9..15`. -/
def winSlot (e : Nat) : Nat :=
  if e = 3 then 0 else if e = 5 then 1 else if e = 6 then 2
  else if e = 7 then 3 else e - 5

/-- Read window-table entry `e` of table `t` when entries `1,2,4,8` alias
sub-blocks `4*t .. 4*t+3` of source block `src` (as in `win_encode` and
`win_original`).  Entry 0 models the NULL pointer: it is never dereferenced
on the executed paths and reads as the empty segment. -/
def winRead (s : Nat) (src : List Nat) (scratch : List (List Nat))
    (t e : Nat) : List Nat :=
  if e = 0 then []
  else if e = 1 then readSeg src ((4 * t) * s) s
  else if e = 2 then readSeg src ((4 * t + 1) * s) s
  else if e = 4 then readSeg src ((4 * t + 2) * s) s
  else if e = 8 then readSeg src ((4 * t + 3) * s) s
  else scratch.getD (t * 11 + winSlot e) []

/-- One `memxor_set(table[e], table[a], table[b], subbytes)` during window
table fill: entry `e` always resolves to a scratch slot. -/
def winFillStep (s : Nat) (src : List Nat) (t : Nat)
    (scratch : List (List Nat)) (e a b : Nat) : List (List Nat) :=
  scratch.set (t * 11 + winSlot e)
    (zipXor ((winRead s src scratch t a).take s) ((winRead s src scratch t b).take s))

/-- Fill one window table (`t = 0` low nibble, `t = 1` high nibble) from the
eight sub-blocks of `src`, in the exact `memxor_set` order of the source. -/
def winFillTable (s : Nat) (src : List Nat) (t : Nat)
    (scratch : List (List Nat)) : List (List Nat) :=
  let c1 := winFillStep s src t scratch 3 1 2
  let c2 := winFillStep s src t c1 6 2 4
  let c3 := winFillStep s src t c2 5 1 4
  let c4 := winFillStep s src t c3 7 1 6
  let c5 := winFillStep s src t c4 9 1 8
  let c6 := winFillStep s src t c5 12 4 8
  let c7 := winFillStep s src t c6 10 2 8
  let c8 := winFillStep s src t c7 11 3 8
  let c9 := winFillStep s src t c8 13 1 12
  let c10 := winFillStep s src t c9 14 2 12
  winFillStep s src t c10 15 3 12

/-- Fill both window tables from source block `src`. -/
def winFillTables (s : Nat) (src : List Nat)
    (scratch : List (List Nat)) : List (List Nat) :=
  winFillTable s src 1 (winFillTable s src 0 scratch)

/-- Apply one slice against the two window tables: XOR the low-nibble and
high-nibble combinations into `buf + dOff` (`memxor_add` when both nibbles
are nonzero, `memxor` otherwise, exactly as in the source). -/
def winApplySlice (s : Nat) (src : List Nat) (scratch : List (List Nat))
    (slice : Nat) (buf : List Nat) (dOff : Nat) : List Nat :=
  let low := slice &&& 15
  let high := slice >>> 4
  if low ≠ 0 ∧ high ≠ 0 then
    memxor_add buf dOff (winRead s src scratch 0 low) (winRead s src scratch 1 high) s
  else if low ≠ 0 then
    memxor buf dOff (winRead s src scratch 0 low) s
  else
    memxor buf dOff (winRead s src scratch 1 high) s

/-- The 8-row application loop of `win_encode` for one matrix element
`slice0`, walking the destination pointer one sub-block per row. -/
def winApply8 (s : Nat) (src : List Nat) (scratch : List (List Nat))
    (slice0 : Nat) (buf : List Nat) (dOff0 : Nat) : List Nat :=
  ((List.range 8).foldl (fun st bit_y =>
    (winApplySlice s src scratch st.2 st.1 (dOff0 + bit_y * s),
     GFC256Multiply st.2 2)) (buf, slice0)).1

/-- Row loop of `win_encode` for one source column `x`: apply matrix entries
`matrix[(y-1)*stride + x]` for `y = 1..m-1`; the destination walks the flat
recovery buffer contiguously from offset `8*s` (the second recovery block). -/
def win_encode_rows (m s stride : Nat) (matrix : List Nat) (x : Nat)
    (src : List Nat) (scratch : List (List Nat)) (buf : List Nat) : List Nat :=
  (List.range (m - 1)).foldl (fun b y0 =>
    winApply8 s src scratch (matrix.getD (y0 * stride + x) 0) b
      ((y0 + 1) * 8 * s)) buf

/-- Mirrors `win_encode(k, m, matrix, stride, data, out, subbytes)`: for each
source column fill the two window tables and apply all `m - 1` matrix rows.
`buf` is the flat recovery buffer (the source's `out` points at its second
block, byte offset `8*s`). -/
def win_encode (k m : Nat) (matrix : List Nat) (stride : Nat)
    (data : List (List Nat)) (buf : List Nat) (s : Nat) : List Nat :=
  ((List.range k).foldl (fun (st : List Nat × List (List Nat)) x =>
    let src := data.getD x []
    let scratch := winFillTables s src st.2
    (win_encode_rows m s stride matrix x src scratch st.1, scratch))
    (buf, List.replicate 22 [])).1

/-- Mirrors `cauchy_256_encode(k, m, data, recovery_blocks, block_bytes)`.
`recovery0` is the caller buffer contents at entry (the function returns the
status and the buffer contents at exit). -/
def cauchy_256_encode (k m : Nat) (data : List (List Nat))
    (recovery0 : List Nat) (block_bytes : Nat) : Int × List Nat :=
  if k ≤ 1 then
    (0, (List.range m).foldl (fun b ii =>
      writeSeg b (ii * block_bytes) ((data.getD 0 []).take block_bytes)) recovery0)
  else
    let r1 := memxor_set recovery0 0 (data.getD 0 []) (data.getD 1 []) block_bytes
    let r2 := (List.range k).foldl (fun b x =>
      if 2 ≤ x then memxor b 0 (data.getD x []) block_bytes else b) r1
    if m = 1 then (0, r2)
    else if 256 < k + m ∨ block_bytes % 8 ≠ 0 then (-1, r2)
    else
      let mt := cauchy_matrix k m
      let s := block_bytes >>> 3
      let r3 := writeSeg r2 block_bytes (List.replicate (block_bytes * (m - 1)) 0)
      if 4 < m then
        (0, win_encode k m mt.1 mt.2 data r3 s)
      else
        (0, encode_row_loop k m s mt.2 data mt.1 r3)

/-! ## Decoder -/

/-- XOR sub-block source bytes into sub-block `j` of block `i`
(C: `memxor(block->data + j*s, src, s)`). -/
def blkXorAt (bs : List Block) (i : Nat) (off : Nat) (src : List Nat)
    (n : Nat) : List Block :=
  setBlkData bs i (memxor (getBlk bs i).data off src n)

/-- Step of `cauchy_decode_m1`'s main loop: mark a seen original row and pair
up blocks for `memxor_add` into the erased block `e` (the pending unpaired
block index is the `in` pointer of the source). -/
def m1_step (k e block_bytes : Nat)
    (st : List Block × List Bool × Option Nat) (ii : Nat) :
    List Block × List Bool × Option Nat :=
  if ii = e then st
  else
    let b := getBlk st.1 ii
    let flags := if b.row < k then st.2.1.set b.row true else st.2.1
    match st.2.2 with
    | none => (st.1, flags, some ii)
    | some j =>
      (setBlkData st.1 e
        (memxor_add (getBlk st.1 e).data 0 (getBlk st.1 j).data b.data block_bytes),
       flags, none)

/-- Mirrors `cauchy_decode_m1(k, blocks, block_bytes)`: find the erased
(recovery) block, XOR all other blocks into it pairwise, and set its row to
the one original row id not seen among the others. -/
def cauchy_decode_m1 (k : Nat) (blocks : List Block) (block_bytes : Nat) :
    List Block :=
  match (List.range k).find? (fun ii => k ≤ (getBlk blocks ii).row) with
  | none => blocks
  | some e =>
    let st := (List.range k).foldl (m1_step k e block_bytes)
      (blocks, List.replicate 256 false, none)
    let bs1 := match st.2.2 with
      | some j => setBlkData st.1 e
          (memxor (getBlk st.1 e).data 0 (getBlk st.1 j).data block_bytes)
      | none => st.1
    match (List.range k).find? (fun ii => !(st.2.1.getD ii false)) with
    | some ii => setBlkRow bs1 e ii
    | none => bs1

/-- Mirrors `sort_blocks(k, blocks, ...)`: returns the indices of original
blocks, the indices of recovery blocks (both in input order) and the
`erasures` working array.  In the C code `erasures` first holds seen flags
for rows `< k` and is then overwritten in place with the erased original
positions in ascending order (entries past the ones written last keep their
flag value; indices `>= k` are uninitialized in C and never read, modelled
here as 0).  `sort_cls_step` is the body of its classification loop. -/
def sort_cls_step (k : Nat) (blocks : List Block)
    (st : List Nat × List Nat × List Nat) (ii : Nat) :
    List Nat × List Nat × List Nat :=
  let row := (getBlk blocks ii).row
  if row < k then (st.1 ++ [ii], st.2.1, st.2.2.set row 1)
  else (st.1, st.2.1 ++ [ii], st.2.2)

/-- Step of the in-place erasure scan of `sort_blocks` (the loop over
`ii < 256` guarded by `erasure_count < recovery_count`). -/
def sort_scan_step (rc : Nat) (st : List Nat × Nat) (ii : Nat) : List Nat × Nat :=
  if st.2 < rc then
    if st.1.getD ii 0 = 0 then (st.1.set st.2 ii, st.2 + 1) else st
  else st

def sort_blocks (k : Nat) (blocks : List Block) :
    List Nat × List Nat × List Nat :=
  let cls := (List.range k).foldl (sort_cls_step k blocks)
    ([], [], List.replicate 256 0)
  let scan := (List.range 256).foldl (sort_scan_step cls.2.1.length) (cls.2.2, 0)
  (cls.1, cls.2.1, scan.1)

/-- Mirrors `eliminate_original(original, original_count, recovery,
recovery_count, matrix, stride, subbytes)`: XOR every surviving original
block out of every recovery block.  `row_offset = original_count +
recovery_count + 1`; a matrix row index below zero (the all-ones first
recovery row) or an element equal to 1 is an 8x8 identity submatrix and XORs
the whole block. -/
def eliminate_original (s stride : Nat) (matrix : List Nat)
    (originalIdx recoveryIdx : List Nat) (blocks : List Block) : List Block :=
  let row_offset := originalIdx.length + recoveryIdx.length + 1
  recoveryIdx.foldl (fun bs ri =>
    let rrow := (getBlk bs ri).row
    originalIdx.foldl (fun bs2 oi =>
      let orow := (getBlk bs2 oi).row
      let odata := (getBlk bs2 oi).data
      if rrow < row_offset ∨
          matrix.getD (stride * (rrow - row_offset) + orow) 0 = 1 then
        blkXorAt bs2 ri 0 (odata.take (s * 8)) (s * 8)
      else
        setBlkData bs2 ri
          (slice_bity_loop s odata
            (matrix.getD (stride * (rrow - row_offset) + orow) 0)
            (getBlk bs2 ri).data 0)) bs) blocks

/-- Row loop of `win_original` for one original column: each recovery block
gets either the whole original block XORed in (identity submatrix) or the
windowed application of the matrix element. -/
def win_original_rows (s stride : Nat) (matrix : List Nat)
    (recoveryIdx : List Nat) (row_offset orow : Nat) (odata : List Nat)
    (scratch : List (List Nat)) (blocks : List Block) : List Block :=
  recoveryIdx.foldl (fun bs ri =>
    let rrow := (getBlk bs ri).row
    if rrow < row_offset ∨
        matrix.getD (stride * (rrow - row_offset) + orow) 0 = 1 then
      blkXorAt bs ri 0 (odata.take (s * 8)) (s * 8)
    else
      setBlkData bs ri
        (winApply8 s odata scratch
          (matrix.getD (stride * (rrow - row_offset) + orow) 0)
          (getBlk bs ri).data 0)) blocks

/-- Mirrors `win_original(original, ..., recovery, ..., matrix, stride,
subbytes, tables)`: the windowed version of `eliminate_original`, iterating
columns (originals) outermost and filling the window tables from each
original block. -/
def win_original (s stride : Nat) (matrix : List Nat)
    (originalIdx recoveryIdx : List Nat)
    (blocks : List Block) (scratch : List (List Nat)) :
    List Block × List (List Nat) :=
  let row_offset := originalIdx.length + recoveryIdx.length + 1
  originalIdx.foldl (fun (st : List Block × List (List Nat)) oi =>
    let odata := (getBlk st.1 oi).data
    let orow := (getBlk st.1 oi).row
    let scratch := winFillTables s odata st.2
    (win_original_rows s stride matrix recoveryIdx row_offset orow odata
      scratch st.1, scratch)) (blocks, scratch)

/-- The eight iterated-doubling slices `c, c*2, c*4, ..., c*128` of a matrix
element, as produced by the unrolled loop of `generate_bitmatrix`. -/
def doubling8 (slice : Nat) : List Nat :=
  ((List.range 7).foldl (fun (acc : List Nat × Nat) _ =>
    let n := GFC256Multiply acc.2 2
    (acc.1 ++ [n], n)) ([slice], slice)).1

/-- The eight 64-bit words of one up-to-8-column group of the bitmatrix:
the doubled slices of column `colStart + c` are ORed in at bit shift `8*c`. -/
def gb_group_words (matrix : List Nat) (rowOff : Nat) (erasures : List Nat)
    (colStart limit : Nat) : List Nat :=
  (List.range limit).foldl (fun ws c =>
    let d := doubling8 (matrix.getD (rowOff + erasures.getD (colStart + c) 0) 0)
    (List.range 8).map (fun i => ws.getD i 0 ||| (d.getD i 0 <<< (8 * c))))
    (List.replicate 8 0)

/-- Mirrors `generate_bitmatrix(k, recovery, recovery_count, matrix, stride,
erasures, bitstride)`: build the `(r*8) x (r*8)` bitmatrix (row-major 64-bit
words, `bitstride` words per bit row) and set each recovery block's row id to
its erased original position.  The first recovery row (`row - k = 0`)
produces shifted `0x0101..01` identity patterns. -/
def generate_bitmatrix (k : Nat) (recoveryIdx : List Nat)
    (matrix : List Nat) (stride : Nat) (erasures : List Nat)
    (blocks : List Block) : List Nat × Nat × List Block :=
  let rc := recoveryIdx.length
  let bitstride := (rc * 8 + 63) / 64
  let st := (List.range rc).foldl (fun (st : List Nat × List Block) ii =>
    let ri := recoveryIdx.getD ii 0
    let base := ii * 8 * bitstride
    let recovery_row := (getBlk st.2 ri).row - k
    let bm :=
      if recovery_row = 0 then
        (List.range 8).foldl (fun bm i2 =>
          (List.range bitstride).foldl (fun bm2 x =>
            bm2.set (base + i2 * bitstride + x) (0x0101010101010101 <<< i2))
            bm) st.1
      else
        let rowOff := (recovery_row - 1) * stride
        (List.range bitstride).foldl (fun bm g =>
          let limit := min 8 (rc - g * 8)
          let ws := gb_group_words matrix rowOff erasures (g * 8) limit
          (List.range 8).foldl (fun bm2 i =>
            bm2.set (base + i * bitstride + g) (ws.getD i 0)) bm) st.1
    (bm, setBlkRow st.2 ri (erasures.getD ii 0)))
    (List.replicate (bitstride * rc * 8) 0, blocks)
  (st.1, bitstride, st.2)

/-! ## Gaussian elimination and back-substitution -/

/-- `PRECOMP_TABLE_SIZE` from the source: number of weight->=2 window-table
entries held in scratch. -/
def PRECOMP_TABLE_SIZE : Nat := 11

/-- `PRECOMP_TABLE_THRESH` from the source: minimum recovery-row count to use
the window method (the guard is `recovery_count > PRECOMP_TABLE_THRESH`). -/
def PRECOMP_TABLE_THRESH : Nat := 4

/-- All 64 bits set; used to model `~` on `u64`. -/
def MASK64 : Nat := 2 ^ 64 - 1

/-- Bitwise complement on a 64-bit word. -/
def not64 (x : Nat) : Nat := MASK64 ^^^ x

/-- The pivot mask `1 << (p & 63)` (the source carries it via `CAT_ROL64`,
rotating one position per pivot, which yields the same value). -/
def mask64 (p : Nat) : Nat := 1 <<< (p &&& 63)

/-- The blocks-array index of the recovery block holding bit row `p`
(C: `recovery[p >> 3]`). -/
def pivIdx (recoveryIdx : List Nat) (p : Nat) : Nat := recoveryIdx.getD (p >>> 3) 0

/-- The sub-block within that block (C: `p & 7`). -/
def pivSub (p : Nat) : Nat := p &&& 7

/-- Read bitmatrix word `w` of bit row `r`. -/
def bmW (bm : List Nat) (bitstride r w : Nat) : Nat := bm.getD (r * bitstride + w) 0

/-- XOR a value into bitmatrix word `w` of bit row `r`. -/
def bmXor (bm : List Nat) (bitstride r w v : Nat) : List Nat :=
  bm.set (r * bitstride + w) (bmW bm bitstride r w ^^^ v)

/-- Swap payload sub-blocks for bit rows `p` and `o`
(C: `memswap(src, data, subbytes)` on the two sub-block pointers). -/
def swapSub (bs : List Block) (recoveryIdx : List Nat) (s p o : Nat) : List Block :=
  let a := subRead bs (pivIdx recoveryIdx p) (pivSub p) s
  let b := subRead bs (pivIdx recoveryIdx o) (pivSub o) s
  let bs1 := setBlkData bs (pivIdx recoveryIdx p)
    (writeSeg (getBlk bs (pivIdx recoveryIdx p)).data (pivSub p * s) b)
  setBlkData bs1 (pivIdx recoveryIdx o)
    (writeSeg (getBlk bs1 (pivIdx recoveryIdx o)).data (pivSub o * s) a)

/-- One elimination target of unwindowed `gaussian_elimination`: if row `o2`
has the pivot bit set, XOR the pivot matrix row (from the pivot word on)
into it and XOR the pivot payload sub-block into its payload sub-block. -/
def ge_elim_row (recoveryIdx : List Nat) (s bitstride pivot : Nat)
    (st : List Nat × List Block) (o2 : Nat) : List Nat × List Block :=
  let pivot_word := pivot >>> 6
  if bmW st.1 bitstride o2 pivot_word &&& mask64 pivot ≠ 0 then
    let bm2 := (List.range (bitstride - pivot_word)).foldl (fun bm iiw =>
      bmXor bm bitstride o2 (pivot_word + iiw)
        (bmW bm bitstride pivot (pivot_word + iiw))) st.1
    (bm2, blkXorAt st.2 (pivIdx recoveryIdx o2) (pivSub o2 * s)
      (subRead st.2 (pivIdx recoveryIdx pivot) (pivSub pivot) s) s)
  else st

/-- Mirrors `gaussian_elimination(rows, recovery, bitmatrix, bitstride,
subbytes)`: for each pivot, search the first row at or below it with the
pivot bit set, swap it into place (matrix words from the pivot word on, and
the payload sub-blocks), then eliminate the bit from every later row. -/
def gaussian_elimination (rows : Nat) (recoveryIdx : List Nat)
    (bm0 : List Nat) (bitstride s : Nat) (blocks : List Block) :
    List Nat × List Block :=
  let bit_rows := rows * 8
  (List.range (bit_rows - 1)).foldl (fun st pivot =>
    let pivot_word := pivot >>> 6
    match (List.range' pivot (bit_rows - pivot)).find?
        (fun o => bmW st.1 bitstride o pivot_word &&& mask64 pivot ≠ 0) with
    | none => st
    | some o =>
      let st1 :=
        if o ≠ pivot then
          (memswap st.1 (o * bitstride + pivot_word)
            (pivot * bitstride + pivot_word) (bitstride - pivot_word),
           swapSub st.2 recoveryIdx s pivot o)
        else st
      (List.range' (o + 1) (bit_rows - (o + 1))).foldl
        (ge_elim_row recoveryIdx s bitstride pivot) st1) (bm0, blocks)

/-- Mirrors `back_substitution(rows, recovery, bitmatrix, bitstride,
subbytes)`: from the last pivot down, XOR the pivot payload sub-block into
every earlier row whose bit at the pivot column is set. -/
def back_substitution (rows : Nat) (recoveryIdx : List Nat)
    (bm : List Nat) (bitstride s : Nat) (blocks : List Block) : List Block :=
  (List.range (rows * 8)).reverse.foldl (fun bs pivot =>
    (List.range pivot).reverse.foldl (fun bs2 other_row =>
      if bmW bm bitstride other_row (pivot >>> 6) &&& mask64 pivot ≠ 0 then
        blkXorAt bs2 (pivIdx recoveryIdx other_row) (pivSub other_row * s)
          (subRead bs2 (pivIdx recoveryIdx pivot) (pivSub pivot) s) s
      else bs2) bs) blocks

/-! ### Windowed elimination

State for the decoder's windowed phases: the block array plus the 22
scratch sub-blocks of the precomputation window.  Window-table entries
`1,2,4,8` of a table alias four consecutive sub-blocks (`base .. base+3`) of
a block; weight->=2 entries live in scratch bank `bank` (11 slots each);
entry 0 is a NULL pointer, modelled as the empty segment. -/

/-- Read window-table entry `e` against block `bi` (sub-block base `base`)
and scratch bank `bank`. -/
def wreadB (s : Nat) (bs : List Block) (scratch : List (List Nat))
    (bi bank base e : Nat) : List Nat :=
  if e = 0 then []
  else if e = 1 then subRead bs bi base s
  else if e = 2 then subRead bs bi (base + 1) s
  else if e = 4 then subRead bs bi (base + 2) s
  else if e = 8 then subRead bs bi (base + 3) s
  else scratch.getD (bank * 11 + winSlot e) []

/-- Write window-table entry `e` (same addressing as `wreadB`). -/
def wwriteB (s : Nat) (st : List Block × List (List Nat))
    (bi bank base e : Nat) (v : List Nat) : List Block × List (List Nat) :=
  if e = 1 then (setBlkData st.1 bi (writeSeg (getBlk st.1 bi).data (base * s) (v.take s)), st.2)
  else if e = 2 then (setBlkData st.1 bi (writeSeg (getBlk st.1 bi).data ((base + 1) * s) (v.take s)), st.2)
  else if e = 4 then (setBlkData st.1 bi (writeSeg (getBlk st.1 bi).data ((base + 2) * s) (v.take s)), st.2)
  else if e = 8 then (setBlkData st.1 bi (writeSeg (getBlk st.1 bi).data ((base + 3) * s) (v.take s)), st.2)
  else (st.1, st.2.set (bank * 11 + winSlot e) (v.take s))

/-- `memxor(table[e], table[a], subbytes)` on window-table entries. -/
def wXorTab (s : Nat) (st : List Block × List (List Nat))
    (bi bank base e a : Nat) : List Block × List (List Nat) :=
  wwriteB s st bi bank base e
    (zipXor ((wreadB s st.1 st.2 bi bank base e).take s)
            ((wreadB s st.1 st.2 bi bank base a).take s))

/-- `memxor_set(table[e], table[a], table[b], subbytes)` on window-table
entries (the written entry is always a scratch slot). -/
def wSetTab (s : Nat) (st : List Block × List (List Nat))
    (bi bank base e a b : Nat) : List Block × List (List Nat) :=
  wwriteB s st bi bank base e
    (zipXor ((wreadB s st.1 st.2 bi bank base a).take s)
            ((wreadB s st.1 st.2 bi bank base b).take s))

/-- The 11 `memxor_set` table-generation steps shared by all windowed
routines, in source order. -/
def wGenTable (s : Nat) (st : List Block × List (List Nat))
    (bi bank base : Nat) : List Block × List (List Nat) :=
  let c1 := wSetTab s st bi bank base 3 1 2
  let c2 := wSetTab s c1 bi bank base 6 2 4
  let c3 := wSetTab s c2 bi bank base 5 1 4
  let c4 := wSetTab s c3 bi bank base 7 1 6
  let c5 := wSetTab s c4 bi bank base 9 1 8
  let c6 := wSetTab s c5 bi bank base 12 4 8
  let c7 := wSetTab s c6 bi bank base 10 2 8
  let c8 := wSetTab s c7 bi bank base 11 3 8
  let c9 := wSetTab s c8 bi bank base 13 1 12
  let c10 := wSetTab s c9 bi bank base 14 2 12
  wSetTab s c10 bi bank base 15 3 12

/-- Apply one 8-bit slice against the two window tables, XORing into
sub-block offset `dOff` of block `destBi` (`memxor_add` when both nibbles
are nonzero, `memxor` otherwise; a zero nibble on the final branch reads the
NULL entry, modelled as a no-op). -/
def wApplyNib (s : Nat) (st : List Block × List (List Nat))
    (bi loBank loBase hiBank hiBase slice destBi dOff : Nat) :
    List Block × List (List Nat) :=
  let low := slice &&& 15
  let high := slice >>> 4
  if low ≠ 0 ∧ high ≠ 0 then
    (setBlkData st.1 destBi
      (memxor_add (getBlk st.1 destBi).data dOff
        (wreadB s st.1 st.2 bi loBank loBase low)
        (wreadB s st.1 st.2 bi hiBank hiBase high) s), st.2)
  else if low ≠ 0 then
    (blkXorAt st.1 destBi dOff ((wreadB s st.1 st.2 bi loBank loBase low).take s) s, st.2)
  else
    (blkXorAt st.1 destBi dOff ((wreadB s st.1 st.2 bi hiBank hiBase high).take s) s, st.2)

/-- Pivot-search phase of `win_gaussian_elimination`: identical pivot search
and swaps to the unwindowed version except that matrix-row swaps cover whole
rows, the word containing the pivot is XORed under the mask
`~(mask-1) ^ mask` (keeping bits at and below the pivot), and the payload
XORs are deferred. -/
def win_ge_pivot_phase (bit_rows bitstride s : Nat) (recoveryIdx : List Nat)
    (st0 : List Nat × List Block) : List Nat × List Block :=
  (List.range (bit_rows - 1)).foldl (fun st pivot =>
    let pivot_word := pivot >>> 6
    let mask := mask64 pivot
    match (List.range' pivot (bit_rows - pivot)).find?
        (fun o => bmW st.1 bitstride o pivot_word &&& mask ≠ 0) with
    | none => st
    | some o =>
      let st1 :=
        if o ≠ pivot then
          (memswap st.1 (o * bitstride) (pivot * bitstride) bitstride,
           swapSub st.2 recoveryIdx s pivot o)
        else st
      ((List.range' (o + 1) (bit_rows - (o + 1))).foldl (fun bm o2 =>
        if bmW bm bitstride o2 pivot_word &&& mask ≠ 0 then
          let bm1 := bmXor bm bitstride o2 pivot_word
            (bmW bm bitstride pivot pivot_word &&& (not64 (mask - 1) ^^^ mask))
          (List.range' 1 (bitstride - pivot_word - 1)).foldl (fun b iiw =>
            bmXor b bitstride o2 (pivot_word + iiw)
              (bmW b bitstride pivot (pivot_word + iiw))) bm1
        else bm) st1.1, st1.2)) st0

/-- The clear-triangle steps for one window table of
`win_gaussian_elimination` (bank/base of the table being prepared; rows
`r0, r0+1, r0+2` read at nibble shift `shift`). -/
def win_ge_triangle (s : Nat) (bm : List Nat) (bitstride : Nat)
    (st : List Block × List (List Nat)) (bi bank base r0 w shift : Nat) :
    List Block × List (List Nat) :=
  let w1 := bmW bm bitstride r0 w >>> shift
  let s1 := if w1 &&& 1 ≠ 0 then wXorTab s st bi bank base 2 1 else st
  let w2 := bmW bm bitstride (r0 + 1) w >>> shift
  let s2 := if w2 &&& 1 ≠ 0 then wXorTab s s1 bi bank base 4 1 else s1
  let s3 := if w2 &&& 2 ≠ 0 then wXorTab s s2 bi bank base 4 2 else s2
  let w3 := bmW bm bitstride (r0 + 2) w >>> shift
  let s4 := if w3 &&& 1 ≠ 0 then wXorTab s s3 bi bank base 8 1 else s3
  let s5 := if w3 &&& 2 ≠ 0 then wXorTab s s4 bi bank base 8 2 else s4
  if w3 &&& 4 ≠ 0 then wXorTab s s5 bi bank base 8 4 else s5

/-- The upper-right-square clearing of `win_gaussian_elimination`: for
`ii = 1,2,4,8` (rows `x*8+4 .. x*8+7`), XOR the low-table combination
selected by the row's low nibble into high-table entry `ii`. -/
def win_ge_square (s : Nat) (bm : List Nat) (bitstride : Nat)
    (st : List Block × List (List Nat)) (bi x w shift : Nat) :
    List Block × List (List Nat) :=
  [(0, 1), (1, 2), (2, 4), (3, 8)].foldl (fun st2 p =>
    let wq := (bmW bm bitstride (x * 8 + 4 + p.1) w >>> shift) &&& 15
    if wq ≠ 0 then
      wwriteB s st2 bi 1 4 p.2
        (zipXor ((wreadB s st2.1 st2.2 bi 1 4 p.2).take s)
                ((wreadB s st2.1 st2.2 bi 0 0 wq).take s))
    else st2) st

/-- One column `x` of the windowed bulk phase of
`win_gaussian_elimination`: prepare both window tables from recovery block
`x` (clearing its own triangle and square as dictated by the bitmatrix) and
apply the recorded slices to every later recovery block. -/
def win_ge_column (rows : Nat) (recoveryIdx : List Nat) (bm : List Nat)
    (bitstride s : Nat) (st : List Block × List (List Nat)) (x : Nat) :
    List Block × List (List Nat) :=
  let bi := recoveryIdx.getD x 0
  let w := x / 8
  let shift := (x % 8) * 8
  let t0 := win_ge_triangle s bm bitstride st bi 0 0 (x * 8 + 1) w shift
  let g0 := wGenTable s t0 bi 0 0
  let sq := win_ge_square s bm bitstride g0 bi x w shift
  let t1 := win_ge_triangle s bm bitstride sq bi 1 4 (x * 8 + 5) w (shift + 4)
  let g1 := wGenTable s t1 bi 1 4
  (List.range' (x + 1) (rows - (x + 1))).foldl (fun stY y =>
    (List.range 8).foldl (fun stJ jj =>
      let slice := (bmW bm bitstride (y * 8 + jj) w >>> shift) &&& 255
      wApplyNib s stJ bi 0 0 1 4 slice (recoveryIdx.getD y 0) (jj * s)) stY) g1

/-- Mirrors `win_gaussian_elimination(rows, recovery, bitmatrix, bitstride,
subbytes, tables)`: find all pivots with deferred payload XORs, run the
windowed bulk application for columns `0 .. rows-4`, then clear the final
three columns without windowing. -/
def win_gaussian_elimination (rows : Nat) (recoveryIdx : List Nat)
    (bm0 : List Nat) (bitstride s : Nat)
    (st0 : List Block × List (List Nat)) :
    List Nat × (List Block × List (List Nat)) :=
  let bit_rows := rows * 8
  let ph1 := win_ge_pivot_phase bit_rows bitstride s recoveryIdx (bm0, st0.1)
  let bm := ph1.1
  let ph2 := (List.range (rows - 3)).foldl
    (win_ge_column rows recoveryIdx bm bitstride s) (ph1.2, st0.2)
  let ph3 := (List.range' (bit_rows - 3 * 8) 23).foldl (fun st pivot =>
    (List.range' (pivot + 1) (bit_rows - (pivot + 1))).foldl (fun st2 other_row =>
      if bmW bm bitstride other_row (pivot >>> 6) &&& mask64 pivot ≠ 0 then
        (blkXorAt st2.1 (pivIdx recoveryIdx other_row) (pivSub other_row * s)
          (subRead st2.1 (pivIdx recoveryIdx pivot) (pivSub pivot) s) s, st2.2)
      else st2) st) ph2
  (bm, ph3)

/-- The reversed clear-triangle steps for one window table of
`win_back_substitution` (rows `r0, r0-1, r0-2` read at nibble shift
`shift`). -/
def win_bs_triangle (s : Nat) (bm : List Nat) (bitstride : Nat)
    (st : List Block × List (List Nat)) (bi bank base r0 w shift : Nat) :
    List Block × List (List Nat) :=
  let w1 := bmW bm bitstride r0 w >>> shift
  let s1 := if w1 &&& 8 ≠ 0 then wXorTab s st bi bank base 4 8 else st
  let w2 := bmW bm bitstride (r0 - 1) w >>> shift
  let s2 := if w2 &&& 8 ≠ 0 then wXorTab s s1 bi bank base 2 8 else s1
  let s3 := if w2 &&& 4 ≠ 0 then wXorTab s s2 bi bank base 2 4 else s2
  let w3 := bmW bm bitstride (r0 - 2) w >>> shift
  let s4 := if w3 &&& 8 ≠ 0 then wXorTab s s3 bi bank base 1 8 else s3
  let s5 := if w3 &&& 4 ≠ 0 then wXorTab s s4 bi bank base 1 4 else s4
  if w3 &&& 2 ≠ 0 then wXorTab s s5 bi bank base 1 2 else s5

/-- The square clearing of `win_back_substitution`: for `ii = 8,4,2,1`
(rows `x*8+3` down to `x*8`), XOR the high-table combination selected by the
row's nibble into low-table entry `ii` (in back-substitution the low table is
`tables[1]`, aliasing sub-blocks 0..3). -/
def win_bs_square (s : Nat) (bm : List Nat) (bitstride : Nat)
    (st : List Block × List (List Nat)) (bi x w shift : Nat) :
    List Block × List (List Nat) :=
  [(3, 8), (2, 4), (1, 2), (0, 1)].foldl (fun st2 p =>
    let wq := (bmW bm bitstride (x * 8 + p.1) w >>> shift) &&& 15
    if wq ≠ 0 then
      wwriteB s st2 bi 1 0 p.2
        (zipXor ((wreadB s st2.1 st2.2 bi 1 0 p.2).take s)
                ((wreadB s st2.1 st2.2 bi 0 4 wq).take s))
    else st2) st

/-- One column `x` of the windowed phase of `win_back_substitution`
(columns `rows-1` down to `3`): table `tables[0]` aliases sub-blocks 4..7 and
`tables[1]` sub-blocks 0..3, and the recorded slices are applied to every
earlier recovery block, destination sub-blocks walking from 7 down to 0. -/
def win_bs_column (recoveryIdx : List Nat) (bm : List Nat)
    (bitstride s : Nat) (st : List Block × List (List Nat)) (x : Nat) :
    List Block × List (List Nat) :=
  let bi := recoveryIdx.getD x 0
  let w := x / 8
  let shift := (x % 8) * 8 + 4
  let t0 := win_bs_triangle s bm bitstride st bi 0 4 (x * 8 + 6) w shift
  let g0 := wGenTable s t0 bi 0 4
  let sq := win_bs_square s bm bitstride g0 bi x w shift
  let t1 := win_bs_triangle s bm bitstride sq bi 1 0 (x * 8 + 2) w (shift - 4)
  let g1 := wGenTable s t1 bi 1 0
  (List.range x).reverse.foldl (fun stY y =>
    (List.range 8).foldl (fun stJ jj =>
      let slice := (bmW bm bitstride (y * 8 + (7 - jj)) w >>> (shift - 4)) &&& 255
      wApplyNib s stJ bi 1 0 0 4 slice (recoveryIdx.getD y 0) ((7 - jj) * s)) stY) g1

/-- Mirrors `win_back_substitution(rows, recovery, bitmatrix, bitstride,
subbytes, tables)`: windowed back-substitution for columns `rows-1 .. 3`,
then the final three columns without windowing (pivots 23 down to 1). -/
def win_back_substitution (rows : Nat) (recoveryIdx : List Nat)
    (bm : List Nat) (bitstride s : Nat)
    (st0 : List Block × List (List Nat)) :
    List Block × List (List Nat) :=
  let ph1 := (List.range' 3 (rows - 3)).reverse.foldl
    (win_bs_column recoveryIdx bm bitstride s) st0
  (List.range' 1 23).reverse.foldl (fun st pivot =>
    (List.range pivot).reverse.foldl (fun st2 other_row =>
      if bmW bm bitstride other_row (pivot >>> 6) &&& mask64 pivot ≠ 0 then
        (blkXorAt st2.1 (pivIdx recoveryIdx other_row) (pivSub other_row * s)
          (subRead st2.1 (pivIdx recoveryIdx pivot) (pivSub pivot) s) s, st2.2)
      else st2) st) ph1

/-- The decoder's window guard: true exactly when the code takes the
windowed paths (`recovery_count > PRECOMP_TABLE_THRESH`). -/
def decodeUsesWindow (recovery_count : Nat) : Bool :=
  PRECOMP_TABLE_THRESH < recovery_count

/-- The encoder's window guard (`m > 4` in `cauchy_256_encode`). -/
def encodeUsesWindow (m : Nat) : Bool := 4 < m

/-- The windowed decoder pipeline (the code paths `cauchy_256_decode` takes
when `decodeUsesWindow` holds): `win_original` elimination (when originals
exist), bitmatrix generation, `win_gaussian_elimination` and
`win_back_substitution`. -/
def decode_win_path (k s stride : Nat) (matrix : List Nat)
    (originalIdx recoveryIdx erasures : List Nat)
    (blocks : List Block) : List Block :=
  let scratch0 : List (List Nat) := List.replicate 22 []
  let st1 :=
    if originalIdx.length ≠ 0 then
      win_original s stride matrix originalIdx recoveryIdx blocks scratch0
    else (blocks, scratch0)
  let gb := generate_bitmatrix k recoveryIdx matrix stride erasures st1.1
  let ge := win_gaussian_elimination recoveryIdx.length recoveryIdx
    gb.1 gb.2.1 s (gb.2.2, st1.2)
  (win_back_substitution recoveryIdx.length recoveryIdx
    ge.1 gb.2.1 s ge.2).1

/-- The unwindowed decoder pipeline (the code paths `cauchy_256_decode`
takes when `decodeUsesWindow` fails): `eliminate_original` (when originals
exist), bitmatrix generation, `gaussian_elimination` and
`back_substitution`. -/
def decode_plain_path (k s stride : Nat) (matrix : List Nat)
    (originalIdx recoveryIdx erasures : List Nat)
    (blocks : List Block) : List Block :=
  let st1 :=
    if originalIdx.length ≠ 0 then
      eliminate_original s stride matrix originalIdx recoveryIdx blocks
    else blocks
  let gb := generate_bitmatrix k recoveryIdx matrix stride erasures st1
  let ge := gaussian_elimination recoveryIdx.length recoveryIdx
    gb.1 gb.2.1 s gb.2.2
  back_substitution recoveryIdx.length recoveryIdx ge.1 gb.2.1 s ge.2

/-- Mirrors `cauchy_256_decode(k, m, blocks, block_bytes)`: trivial paths for
`k <= 1` and `m = 1`; classification; empty-recovery early success;
parameter validation; then the elimination, bitmatrix, Gaussian-elimination
and back-substitution phases, windowed exactly under `decodeUsesWindow`
(the source tests the same guard before the elimination phase and before
the solving phase; the two pipelines are factored out here). -/
def cauchy_256_decode (k m : Nat) (blocks : List Block) (block_bytes : Nat) :
    Int × List Block :=
  if k ≤ 1 then (0, setBlkRow blocks 0 0)
  else if m = 1 then (0, cauchy_decode_m1 k blocks block_bytes)
  else
    let sb := sort_blocks k blocks
    if sb.2.1.length = 0 then (0, blocks)
    else if 256 < k + m ∨ block_bytes % 8 ≠ 0 then (-1, blocks)
    else
      let s := block_bytes / 8
      let mt := cauchy_matrix k m
      if decodeUsesWindow sb.2.1.length then
        (0, decode_win_path k s mt.2 mt.1 sb.1 sb.2.1 sb.2.2 blocks)
      else
        (0, decode_plain_path k s mt.2 mt.1 sb.1 sb.2.1 sb.2.2 blocks)

/-! ## Specification-side definitions used in theorem statements -/

/-- Byte-wise XOR of a list of equal-length blocks, left to right
(the spec's `d_0 ⊕ d_1 ⊕ … ⊕ d_{k-1}`). -/
def xorBlocks (data : List (List Nat)) : List Nat :=
  match data with
  | [] => []
  | d :: rest => rest.foldl zipXor d

/-- The original positions in `[0, k)` absent from `rows`, in ascending
order. -/
def erasedPositions (k : Nat) (rows : List Nat) : List Nat :=
  (List.range k).filter (fun r => !(rows.contains r))

/-- Positions (in input-descriptor order, among the `k` supplied blocks) of
the blocks carrying a recovery row id. -/
def recovery_positions (k : Nat) (blocks : List Block) : List Nat :=
  (List.range k).filter (fun j => k ≤ (getBlk blocks j).row)

/-- Frame predicate for the decode phases: relative to a base state `bs0`,
the row ids are all unchanged and every block outside the recovery-index
list `R` is completely unchanged. -/
def FrameOK (R : List Nat) (bs0 bs : List Block) : Prop :=
  bs.map Block.row = bs0.map Block.row ∧
  ∀ j, j ∉ R → getBlk bs j = getBlk bs0 j

/-! ## Generic buffer lemmas -/

theorem length_zipXor (a b : List Nat) :
    (zipXor a b).length = min a.length b.length := by
  simp [zipXor]

theorem zipXor_nil_right (a : List Nat) : zipXor a [] = [] := by
  simp [zipXor]

theorem zipXor_nil_left (a : List Nat) : zipXor [] a = [] := by
  simp [zipXor]

theorem take_zipXor (a b : List Nat) (n : Nat) :
    (zipXor a b).take n = zipXor (a.take n) (b.take n) := by
  simp [zipXor, List.take_zipWith]

theorem drop_zipXor (a b : List Nat) (n : Nat) :
    (zipXor a b).drop n = zipXor (a.drop n) (b.drop n) := by
  simp [zipXor, List.drop_zipWith]

theorem length_writeSeg (buf xs : List Nat) (off : Nat)
    (h : off + xs.length ≤ buf.length) :
    (writeSeg buf off xs).length = buf.length := by
  simp [writeSeg]
  omega

theorem length_readSeg (buf : List Nat) (off n : Nat) :
    (readSeg buf off n).length = min n (buf.length - off) := by
  simp [readSeg]

theorem take_writeSeg_of_le (buf xs : List Nat) (off B : Nat) (h1 : B ≤ off)
    (h2 : B ≤ buf.length) : (writeSeg buf off xs).take B = buf.take B := by
  have hmin : B ≤ (buf.take off).length := by
    simp [List.length_take]
    omega
  unfold writeSeg
  rw [List.append_assoc, List.take_append_eq_append_take,
    Nat.sub_eq_zero_of_le hmin]
  simp [List.take_take, Nat.min_def, h1]

theorem writeSeg_zero (buf xs : List Nat) :
    writeSeg buf 0 xs = xs ++ buf.drop xs.length := by
  simp [writeSeg]

theorem take_writeSeg_zero (buf xs : List Nat) :
    (writeSeg buf 0 xs).take xs.length = xs := by
  rw [writeSeg_zero, List.take_append_eq_append_take]
  simp

theorem drop_writeSeg_zero (buf xs : List Nat) (D : Nat) (h : xs.length ≤ D) :
    (writeSeg buf 0 xs).drop D = buf.drop D := by
  rw [writeSeg_zero, List.drop_append_eq_append_drop, List.drop_eq_nil_of_le h,
    List.nil_append, List.drop_drop]
  congr 1
  omega

theorem length_memxor (dst src : List Nat) (dOff n : Nat)
    (h : dOff + n ≤ dst.length) : (memxor dst dOff src n).length = dst.length := by
  apply length_writeSeg
  have h1 : (zipXor (readSeg dst dOff n) (src.take n)).length ≤ n := by
    rw [length_zipXor, length_readSeg]
    simp
  omega

theorem take_memxor_of_le (dst src : List Nat) (dOff n B : Nat) (h1 : B ≤ dOff)
    (h2 : B ≤ dst.length) : (memxor dst dOff src n).take B = dst.take B :=
  take_writeSeg_of_le _ _ _ _ h1 h2

theorem take_memxor_zero (dst src : List Nat) (n : Nat)
    (h1 : n ≤ dst.length) (h2 : n ≤ src.length) :
    (memxor dst 0 src n).take n = zipXor (dst.take n) (src.take n) := by
  have hlen : (zipXor (readSeg dst 0 n) (src.take n)).length = n := by
    rw [length_zipXor, length_readSeg]
    simp
    omega
  unfold memxor
  have := take_writeSeg_zero dst (zipXor (readSeg dst 0 n) (src.take n))
  rw [hlen] at this
  rw [this]
  simp [readSeg]

theorem drop_memxor_zero (dst src : List Nat) (n D : Nat) (h : n ≤ D) :
    (memxor dst 0 src n).drop D = dst.drop D := by
  apply drop_writeSeg_zero
  rw [length_zipXor, length_readSeg]
  simp
  omega

/-! ## Classification lemmas for sort_blocks -/

theorem sort_cls_fst (k : Nat) (blocks : List Block) :
    ∀ (l : List Nat) (o r F : List Nat),
    (l.foldl (sort_cls_step k blocks) (o, r, F)).1
      = o ++ l.filter (fun ii => (getBlk blocks ii).row < k) := by
  intro l
  induction l with
  | nil => intro o r F; simp
  | cons a t ih =>
    intro o r F
    by_cases h : (getBlk blocks a).row < k
    · simp [sort_cls_step, h, ih, List.filter_cons]
    · simp [sort_cls_step, h, ih, List.filter_cons]

theorem sort_cls_snd (k : Nat) (blocks : List Block) :
    ∀ (l : List Nat) (o r F : List Nat),
    (l.foldl (sort_cls_step k blocks) (o, r, F)).2.1
      = r ++ l.filter (fun ii => k ≤ (getBlk blocks ii).row) := by
  intro l
  induction l with
  | nil => intro o r F; simp
  | cons a t ih =>
    intro o r F
    by_cases h : (getBlk blocks a).row < k
    · have h2 : ¬ (k ≤ (getBlk blocks a).row) := by omega
      simp [sort_cls_step, h, h2, ih, List.filter_cons]
    · have h2 : k ≤ (getBlk blocks a).row := by omega
      simp [sort_cls_step, h, h2, ih, List.filter_cons]

theorem sort_cls_flags_len (k : Nat) (blocks : List Block) :
    ∀ (l : List Nat) (o r F : List Nat),
    (l.foldl (sort_cls_step k blocks) (o, r, F)).2.2.length = F.length := by
  intro l
  induction l with
  | nil => intro o r F; simp
  | cons a t ih =>
    intro o r F
    by_cases h : (getBlk blocks a).row < k
    · simp [sort_cls_step, h, ih]
    · simp [sort_cls_step, h, ih]

theorem getD_set_self (l : List Nat) (i v : Nat) (h : i < l.length) :
    (l.set i v).getD i 0 = v := by
  simp [List.getD_eq_getElem?_getD, List.getElem?_set_self, h]

theorem getD_set_ne (l : List Nat) (i j v : Nat) (h : i ≠ j) :
    (l.set i v).getD j 0 = l.getD j 0 := by
  simp [List.getD_eq_getElem?_getD, List.getElem?_set_ne, h]

theorem sort_cls_flags (k : Nat) (blocks : List Block) (hk : k ≤ 256) :
    ∀ (l : List Nat) (o r F : List Nat) (r0 : Nat), F.length = 256 →
    (l.foldl (sort_cls_step k blocks) (o, r, F)).2.2.getD r0 0
      = if (∃ a ∈ l, (getBlk blocks a).row = r0 ∧ r0 < k) then 1
        else F.getD r0 0 := by
  intro l
  induction l with
  | nil => intro o r F r0 hF; simp
  | cons a t ih =>
    intro o r F r0 hF
    rw [List.foldl_cons]
    by_cases h : (getBlk blocks a).row < k
    · have hstep : sort_cls_step k blocks (o, r, F) a
          = (o ++ [a], r, F.set (getBlk blocks a).row 1) := by
        simp [sort_cls_step, h]
      rw [hstep, ih _ _ _ _ (by simp [hF])]
      by_cases ht : ∃ b ∈ t, (getBlk blocks b).row = r0 ∧ r0 < k
      · have hcons : ∃ b ∈ a :: t, (getBlk blocks b).row = r0 ∧ r0 < k := by
          obtain ⟨b, hb, hb2⟩ := ht
          exact ⟨b, List.mem_cons_of_mem _ hb, hb2⟩
        rw [if_pos ht, if_pos hcons]
      · by_cases he : (getBlk blocks a).row = r0
        · have hr0 : r0 < k := he ▸ h
          have hcons : ∃ b ∈ a :: t, (getBlk blocks b).row = r0 ∧ r0 < k :=
            ⟨a, List.mem_cons_self _ _, he, hr0⟩
          rw [if_neg ht, if_pos hcons, he]
          exact getD_set_self F r0 1 (by omega)
        · have hx : ¬ ∃ b ∈ a :: t, (getBlk blocks b).row = r0 ∧ r0 < k := by
            intro ⟨b, hb, hb2, hb3⟩
            rcases List.mem_cons.mp hb with h1 | h1
            · exact he (h1 ▸ hb2)
            · exact ht ⟨b, h1, hb2, hb3⟩
          rw [if_neg ht, if_neg hx]
          exact getD_set_ne F _ r0 1 he
    · have hstep : sort_cls_step k blocks (o, r, F) a = (o, r ++ [a], F) := by
        simp [sort_cls_step, h]
      rw [hstep, ih _ _ _ _ hF]
      by_cases ht : ∃ b ∈ t, (getBlk blocks b).row = r0 ∧ r0 < k
      · have hcons : ∃ b ∈ a :: t, (getBlk blocks b).row = r0 ∧ r0 < k := by
          obtain ⟨b, hb, hb2⟩ := ht
          exact ⟨b, List.mem_cons_of_mem _ hb, hb2⟩
        rw [if_pos ht, if_pos hcons]
      · have hx : ¬ ∃ b ∈ a :: t, (getBlk blocks b).row = r0 ∧ r0 < k := by
          intro ⟨b, hb, hb2, hb3⟩
          rcases List.mem_cons.mp hb with h1 | h1
          · exact h (by rw [← h1, hb2]; exact hb3)
          · exact ht ⟨b, h1, hb2, hb3⟩
        rw [if_neg ht, if_neg hx]

theorem getD_append_left (l1 l2 : List Nat) (i : Nat) (h : i < l1.length) :
    (l1 ++ l2).getD i 0 = l1.getD i 0 := by
  simp [List.getD_eq_getElem?_getD, List.getElem?_append_left h]

theorem getD_append_right (l1 l2 : List Nat) (i : Nat) (h : l1.length ≤ i) :
    (l1 ++ l2).getD i 0 = l2.getD (i - l1.length) 0 := by
  simp [List.getD_eq_getElem?_getD, List.getElem?_append_right h]

/-- Invariant preservation for the in-place erasure scan of `sort_blocks`:
although the scan overwrites the seen-flag array while reading it, every
write lands strictly below the read position, so the scan behaves as if it
read the original flags throughout. -/
theorem sort_scan_aux (F : List Nat) (rc : Nat) (hF : F.length = 256) :
    ∀ (n a : Nat) (st : List Nat × Nat), a + n = 256 →
    st.2 = min rc ((List.range a).filter (fun r0 => F.getD r0 0 == 0)).length →
    st.1.length = 256 →
    (∀ j, a ≤ j → st.1.getD j 0 = F.getD j 0) →
    (∀ t, t < st.2 → st.1.getD t 0
       = ((List.range 256).filter (fun r0 => F.getD r0 0 == 0)).getD t 0) →
    ((List.range' a n).foldl (sort_scan_step rc) st).2
        = min rc ((List.range 256).filter (fun r0 => F.getD r0 0 == 0)).length ∧
    ((List.range' a n).foldl (sort_scan_step rc) st).1.length = 256 ∧
    (∀ t, t < ((List.range' a n).foldl (sort_scan_step rc) st).2 →
      ((List.range' a n).foldl (sort_scan_step rc) st).1.getD t 0
       = ((List.range 256).filter (fun r0 => F.getD r0 0 == 0)).getD t 0) := by
  intro n
  induction n with
  | zero =>
    intro a st ha h1 h2 h3 h4
    have : a = 256 := by omega
    subst this
    exact ⟨h1, h2, h4⟩
  | succ n ih =>
    intro a st ha h1 h2 h3 h4
    have ha' : a < 256 := by omega
    rw [List.range'_succ, List.foldl_cons]
    set cA := ((List.range a).filter (fun r0 => F.getD r0 0 == 0)).length with hcA
    have hcAa : cA ≤ a := by
      calc cA ≤ (List.range a).length := List.length_filter_le _ _
        _ = a := List.length_range a
    have hUsucc : (List.range (a + 1)).filter (fun r0 => F.getD r0 0 == 0)
        = (List.range a).filter (fun r0 => F.getD r0 0 == 0)
          ++ (if F.getD a 0 = 0 then [a] else []) := by
      rw [List.range_succ, List.filter_append]
      congr 1
      by_cases hz : F.getD a 0 = 0
      · simp [List.filter_cons, hz]
      · simp [List.filter_cons, hz]
    have hreada : st.1.getD a 0 = F.getD a 0 := h3 a (Nat.le_refl a)
    by_cases hc : st.2 < rc
    · by_cases hz : F.getD a 0 = 0
      · -- unseen position found: write it at index st.2 and advance
        have hval : st.1.getD a 0 = 0 := by rw [hreada, hz]
        have hstep : sort_scan_step rc st a = (st.1.set st.2 a, st.2 + 1) := by
          unfold sort_scan_step
          rw [if_pos hc, if_pos hval]
        have hcArc : cA < rc ∧ st.2 = cA := by
          rcases Nat.lt_or_ge cA rc with h | h
          · constructor
            · exact h
            · rw [h1]; omega
          · exfalso
            rw [h1] at hc
            omega
        obtain ⟨hcArc1, hst2⟩ := hcArc
        have hlen1 : ((List.range (a + 1)).filter
            (fun r0 => F.getD r0 0 == 0)).length = cA + 1 := by
          rw [hUsucc, List.length_append, if_pos hz, hcA]
          simp
        rw [hstep]
        apply ih (a + 1) (st.1.set st.2 a, st.2 + 1) (by omega)
        · show st.2 + 1 = min rc ((List.range (a + 1)).filter
            (fun r0 => F.getD r0 0 == 0)).length
          rw [hlen1, hst2]
          omega
        · simp [h2]
        · intro j hj
          rw [getD_set_ne _ _ _ _ (by omega)]
          exact h3 j (by omega)
        · intro t ht
          simp only at ht
          by_cases htlt : t < st.2
          · rw [getD_set_ne _ _ _ _ (by omega)]
            exact h4 t htlt
          · have hteq : t = st.2 := by omega
            subst hteq
            rw [getD_set_self _ _ _ (by omega)]
            -- the value written is exactly the next erased position
            have hsplit : List.range 256
                = List.range (a + 1) ++ List.range' (a + 1) (255 - a) := by
              rw [List.range_eq_range', List.range_eq_range']
              have h2 := List.range'_append 0 (a + 1) (255 - a) 1
              simp at h2
              rw [h2]
              congr 1
              omega
            rw [hsplit, List.filter_append]
            rw [getD_append_left _ _ _ (show st.2 < ((List.range (a + 1)).filter
              (fun r0 => F.getD r0 0 == 0)).length by rw [hlen1]; omega)]
            have hU2 : (List.range (a + 1)).filter (fun r0 => F.getD r0 0 == 0)
                = (List.range a).filter (fun r0 => F.getD r0 0 == 0) ++ [a] := by
              rw [hUsucc, if_pos hz]
            rw [hU2]
            rw [getD_append_right _ _ _ (show ((List.range a).filter
              (fun r0 => F.getD r0 0 == 0)).length ≤ st.2 by
                rw [hst2])]
            have hzz : st.2 - ((List.range a).filter
                (fun r0 => F.getD r0 0 == 0)).length = 0 := by
              rw [hst2, hcA]
              omega
            rw [hzz]
            simp
      · -- seen position: state unchanged
        have hval : ¬ st.1.getD a 0 = 0 := by rw [hreada]; exact hz
        have hstep : sort_scan_step rc st a = st := by
          unfold sort_scan_step
          rw [if_pos hc, if_neg hval]
        have hlen1 : ((List.range (a + 1)).filter
            (fun r0 => F.getD r0 0 == 0)).length = cA := by
          rw [hUsucc, List.length_append, if_neg hz, hcA]
          simp
        rw [hstep]
        apply ih (a + 1) _ (by omega)
        · rw [hlen1, h1]
        · exact h2
        · intro j hj
          exact h3 j (by omega)
        · intro t ht
          exact h4 t ht
    · -- quota already reached: state unchanged and stays full
      have hstep : sort_scan_step rc st a = st := by
        unfold sort_scan_step
        rw [if_neg hc]
      have hrcle : rc ≤ cA := by
        rw [h1] at hc
        omega
      have hmono : cA ≤ ((List.range (a + 1)).filter
          (fun r0 => F.getD r0 0 == 0)).length := by
        rw [hUsucc, List.length_append]
        omega
      rw [hstep]
      apply ih (a + 1) _ (by omega)
      · rw [h1]
        have h5 : min rc cA = rc := by omega
        have h6 : min rc ((List.range (a+1)).filter
            (fun r0 => F.getD r0 0 == 0)).length = rc := by omega
        rw [h5, h6]
      · exact h2
      · intro j hj
        exact h3 j (by omega)
      · intro t ht
        exact h4 t ht

/-- The erasure scan of `sort_blocks`: provided at least `rc` flag entries
are zero, the first `rc` entries of the scanned array are the zero-flag
positions in ascending order. -/
theorem sort_scan_spec (F : List Nat) (rc : Nat) (hF : F.length = 256)
    (hcount : rc ≤ ((List.range 256).filter (fun r0 => F.getD r0 0 == 0)).length) :
    ∀ t, t < rc →
    ((List.range 256).foldl (sort_scan_step rc) (F, 0)).1.getD t 0
      = ((List.range 256).filter (fun r0 => F.getD r0 0 == 0)).getD t 0 := by
  intro t ht
  have h := sort_scan_aux F rc hF 256 0 (F, 0) (by omega)
    (by simp) hF (fun j _ => rfl) (by intro t ht; omega)
  nth_rewrite 1 [List.range_eq_range']
  apply h.2.2
  rw [h.1]
  omega

theorem length_filter_add_not (p : Nat → Bool) (l : List Nat) :
    (l.filter p).length + (l.filter (fun x => !(p x))).length = l.length := by
  induction l with
  | nil => simp
  | cons a t ih =>
    by_cases h : p a
    · simp [List.filter_cons, h]
      omega
    · simp [List.filter_cons, h]
      omega

theorem map_getBlk_range (blocks : List Block) :
    (List.range blocks.length).map (fun i => getBlk blocks i) = blocks := by
  induction blocks with
  | nil => simp
  | cons b t ih =>
    rw [List.length_cons, List.range_succ_eq_map, List.map_cons, List.map_map]
    have h0 : getBlk (b :: t) 0 = b := rfl
    have hcomp : ((fun i => getBlk (b :: t) i) ∘ Nat.succ)
        = fun i => getBlk t i := by
      funext i
      simp [getBlk]
    rw [h0, hcomp, ih]

theorem rows_eq_map_range (blocks : List Block) :
    blocks.map Block.row
      = (List.range blocks.length).map (fun i => (getBlk blocks i).row) := by
  conv_lhs => rw [← map_getBlk_range blocks]
  rw [List.map_map]
  rfl

theorem mem_rows_iff (k : Nat) (blocks : List Block)
    (hlen : blocks.length = k) (r0 : Nat) :
    r0 ∈ blocks.map Block.row
      ↔ ∃ a ∈ List.range k, (getBlk blocks a).row = r0 := by
  rw [rows_eq_map_range, hlen]
  constructor
  · intro h
    obtain ⟨a, ha, ha2⟩ := List.mem_map.mp h
    exact ⟨a, ha, ha2⟩
  · intro ⟨a, ha, ha2⟩
    exact List.mem_map.mpr ⟨a, ha, ha2⟩

/-- Counting bound used by the erasure scan: the number of erased original
positions is at least the number of recovery blocks. -/
theorem erasedPositions_count (k : Nat) (blocks : List Block)
    (hlen : blocks.length = k) :
    ((List.range k).filter (fun ii => k ≤ (getBlk blocks ii).row)).length
      ≤ (erasedPositions k (blocks.map Block.row)).length := by
  set rows := blocks.map Block.row with hrows
  -- the seen positions of [0,k) form a nodup list included in the rows < k
  have hsub : (List.range k).filter (fun r => rows.contains r)
      ⊆ rows.filter (fun v => v < k) := by
    intro r hr
    have h1 := (List.mem_filter.mp hr).1
    have h2 := (List.mem_filter.mp hr).2
    apply List.mem_filter.mpr
    constructor
    · exact List.elem_iff.mp h2
    · simpa using List.mem_range.mp h1
  have hnd : ((List.range k).filter (fun r => rows.contains r)).Nodup :=
    (List.nodup_range k).filter _
  have hle1 : ((List.range k).filter (fun r => rows.contains r)).length
      ≤ (rows.filter (fun v => v < k)).length :=
    (hnd.subperm hsub).length_le
  -- rows < k correspond exactly to the original positions
  have hle2 : (rows.filter (fun v => v < k)).length
      = ((List.range k).filter (fun ii => (getBlk blocks ii).row < k)).length := by
    rw [hrows, rows_eq_map_range, hlen]
    rw [← List.countP_eq_length_filter, ← List.countP_eq_length_filter]
    rw [List.countP_map]
    rfl
  -- partition [0,k) by presence among the rows
  have hpart := length_filter_add_not (fun r => rows.contains r) (List.range k)
  have hpart2 := length_filter_add_not
    (fun ii => decide ((getBlk blocks ii).row < k)) (List.range k)
  have hcompl : ((List.range k).filter
      (fun ii => !(decide ((getBlk blocks ii).row < k)))).length
      = ((List.range k).filter (fun ii => k ≤ (getBlk blocks ii).row)).length := by
    congr 1
    apply List.filter_congr
    intro x _
    by_cases h : (getBlk blocks x).row < k
    · simp [h]
    · simp [h]
      omega
  have hepos : (erasedPositions k rows).length
      = ((List.range k).filter (fun r => !(rows.contains r))).length := rfl
  rw [hepos]
  simp only [List.length_range] at hpart hpart2
  omega

theorem range_split (a b : Nat) (h : a ≤ b) :
    List.range b = List.range a ++ List.range' a (b - a) := by
  rw [List.range_eq_range', List.range_eq_range']
  have h2 := List.range'_append 0 a (b - a) 1
  simp at h2
  rw [h2]
  congr 1
  omega

/-- Behaviour of `sort_blocks`: the first component lists the original
positions, the second the recovery positions (both in input order), and the
first `r` entries of the third are the erased original positions in
ascending order. -/
theorem sort_blocks_spec (k : Nat) (blocks : List Block)
    (hk : k ≤ 256) (hlen : blocks.length = k) :
    (sort_blocks k blocks).1
      = (List.range k).filter (fun ii => (getBlk blocks ii).row < k) ∧
    (sort_blocks k blocks).2.1 = recovery_positions k blocks ∧
    ∀ t, t < (recovery_positions k blocks).length →
      (sort_blocks k blocks).2.2.getD t 0
        = (erasedPositions k (blocks.map Block.row)).getD t 0 := by
  have hfst := sort_cls_fst k blocks (List.range k) [] [] (List.replicate 256 0)
  have hsnd := sort_cls_snd k blocks (List.range k) [] [] (List.replicate 256 0)
  have hflen := sort_cls_flags_len k blocks (List.range k) [] []
    (List.replicate 256 0)
  simp only [List.nil_append] at hfst hsnd
  constructor
  · exact hfst
  constructor
  · exact hsnd
  -- the scan part
  intro t ht
  set cls := (List.range k).foldl (sort_cls_step k blocks)
    ([], [], List.replicate 256 0) with hcls
  have hF1len : cls.2.2.length = 256 := by
    rw [hflen]
    simp
  have hF1getD : ∀ r0, cls.2.2.getD r0 0
      = if (∃ a ∈ List.range k, (getBlk blocks a).row = r0 ∧ r0 < k)
        then 1 else 0 := by
    intro r0
    rw [sort_cls_flags k blocks hk (List.range k) [] [] (List.replicate 256 0)
      r0 (by simp)]
    congr 1
    rw [List.getD_eq_getElem?_getD, List.getElem?_replicate]
    rcases Nat.lt_or_ge r0 256 with h | h
    · rw [if_pos h]
      rfl
    · rw [if_neg (by omega)]
      rfl
  -- relate the zero-flag list to the erased positions
  have hUeq : (List.range 256).filter (fun r0 => cls.2.2.getD r0 0 == 0)
      = erasedPositions k (blocks.map Block.row)
        ++ (List.range' k (256 - k)).filter
          (fun r0 => cls.2.2.getD r0 0 == 0) := by
    rw [range_split k 256 hk, List.filter_append]
    congr 1
    apply List.filter_congr
    intro r0 hr0
    have hr0k : r0 < k := List.mem_range.mp hr0
    rw [hF1getD r0]
    by_cases hmem : r0 ∈ blocks.map Block.row
    · have hex : ∃ a ∈ List.range k, (getBlk blocks a).row = r0 ∧ r0 < k := by
        obtain ⟨a, ha, ha2⟩ := (mem_rows_iff k blocks hlen r0).mp hmem
        exact ⟨a, ha, ha2, hr0k⟩
      rw [if_pos hex]
      have hcont : (blocks.map Block.row).contains r0 = true :=
        List.elem_iff.mpr hmem
      rw [hcont]
      rfl
    · have hex : ¬ ∃ a ∈ List.range k, (getBlk blocks a).row = r0 ∧ r0 < k := by
        intro ⟨a, ha, ha2, _⟩
        exact hmem ((mem_rows_iff k blocks hlen r0).mpr ⟨a, ha, ha2⟩)
      rw [if_neg hex]
      have hcont : (blocks.map Block.row).contains r0 = false := by
        cases hcase : (blocks.map Block.row).contains r0
        · rfl
        · exact absurd (List.elem_iff.mp hcase) hmem
      rw [hcont]
      rfl
  have hrcbound : (recovery_positions k blocks).length
      ≤ (erasedPositions k (blocks.map Block.row)).length :=
    erasedPositions_count k blocks hlen
  have hcount : cls.2.1.length
      ≤ ((List.range 256).filter (fun r0 => cls.2.2.getD r0 0 == 0)).length := by
    rw [hUeq, List.length_append, hsnd]
    calc (recovery_positions k blocks).length
        ≤ (erasedPositions k (blocks.map Block.row)).length := hrcbound
      _ ≤ _ := Nat.le_add_right _ _
  have hscan := sort_scan_spec cls.2.2 cls.2.1.length hF1len hcount t
    (by rw [hsnd]; exact ht)
  show ((List.range 256).foldl (sort_scan_step cls.2.1.length)
    (cls.2.2, 0)).1.getD t 0 = _
  rw [hscan, hUeq]
  exact getD_append_left _ _ _ (by omega)

theorem getBlk_mem (blocks : List Block) (i : Nat) (h : i < blocks.length) :
    getBlk blocks i ∈ blocks := by
  unfold getBlk
  rw [List.getD_eq_getElem?_getD, List.getElem?_eq_getElem h]
  exact List.getElem_mem h

/-! ## Claim theorems: C10, C7, C4 -/

/-- C10: a decode call with `k >= 2`, `m >= 2` in which every supplied block
carries an original row id returns 0 and modifies nothing — even when
`k + m > 256` or `block_bytes` is not a multiple of 8, because the
empty-recovery early return precedes parameter validation. -/
theorem C10_empty_recovery_early_return (k m : Nat) (blocks : List Block)
    (block_bytes : Nat) (hk : 2 ≤ k) (hm : 2 ≤ m)
    (hlen : blocks.length = k)
    (hor : ∀ b ∈ blocks, b.row < k) :
    cauchy_256_decode k m blocks block_bytes = (0, blocks) := by
  have hrec : (sort_blocks k blocks).2.1 = [] := by
    show ((List.range k).foldl (sort_cls_step k blocks)
      ([], [], List.replicate 256 0)).2.1 = []
    rw [sort_cls_snd k blocks (List.range k) [] [] (List.replicate 256 0)]
    rw [List.nil_append]
    apply List.filter_eq_nil_iff.mpr
    intro a ha
    have hak : a < k := List.mem_range.mp ha
    have : (getBlk blocks a).row < k := hor _ (getBlk_mem blocks a (by omega))
    simp
    omega
  unfold cauchy_256_decode
  rw [if_neg (by omega), if_neg (by omega)]
  simp [hrec]

/-- C10 witness: an all-original decode with `k + m = 257 > 256` and a block
size that is not a multiple of 8 still returns 0 and leaves the blocks
untouched. -/
theorem C10_witness :
    (∀ b ∈ [Block.mk [1, 2, 3] 0, Block.mk [4, 5, 6] 1], b.row < 2) ∧
    cauchy_256_decode 2 255 [Block.mk [1, 2, 3] 0, Block.mk [4, 5, 6] 1] 3
      = (0, [Block.mk [1, 2, 3] 0, Block.mk [4, 5, 6] 1]) :=
  ⟨by decide,
   C10_empty_recovery_early_return 2 255
     [Block.mk [1, 2, 3] 0, Block.mk [4, 5, 6] 1] 3
     (by decide) (by decide) (by decide) (by decide)⟩

theorem getD_map_range (n : Nat) (f : Nat → Nat) (i : Nat) (h : i < n) :
    ((List.range n).map f).getD i 0 = f i := by
  rw [List.getD_eq_getElem?_getD,
    List.getElem?_eq_getElem (by simp; omega)]
  simp

theorem cauchy_row_length (k m y : Nat) (hk : 1 ≤ k) :
    (cauchy_row k m y).length = k := by
  simp [cauchy_row]
  omega

theorem length_flatten_uniform (w : Nat) :
    ∀ (rows : List (List Nat)), (∀ r ∈ rows, r.length = w) →
    rows.flatten.length = rows.length * w := by
  intro rows
  induction rows with
  | nil => intro _; simp
  | cons r rest ih =>
    intro hw
    rw [List.flatten_cons, List.length_append, List.length_cons,
      ih (fun r2 hr2 => hw r2 (List.mem_cons_of_mem _ hr2)),
      hw r (List.mem_cons_self _ _)]
    ring

theorem getD_flatten_uniform (w : Nat) :
    ∀ (rows : List (List Nat)) (i j : Nat), (∀ r ∈ rows, r.length = w) →
    i < rows.length → j < w →
    rows.flatten.getD (i * w + j) 0 = (rows.getD i []).getD j 0 := by
  intro rows
  induction rows with
  | nil => intro i j _ hi _; simp at hi
  | cons r rest ih =>
    intro i j hw hi hj
    rw [List.flatten_cons]
    cases i with
    | zero =>
      have hr : r.length = w := hw r (List.mem_cons_self _ _)
      rw [Nat.zero_mul, Nat.zero_add]
      rw [getD_append_left _ _ _ (by omega)]
      rfl
    | succ i2 =>
      have hr : r.length = w := hw r (List.mem_cons_self _ _)
      have hoff : (i2 + 1) * w + j = r.length + (i2 * w + j) := by
        rw [hr]
        ring
      rw [hoff, getD_append_right _ _ _ (by omega)]
      rw [Nat.add_sub_cancel_left]
      rw [ih i2 j (fun r2 hr2 => hw r2 (List.mem_cons_of_mem _ hr2))
        (by simpa using hi) hj]
      rfl

/-- C7 (amended): for `m >= 7` the generated matrix has stride `k` and
`(m-1)*k` entries; entry `(y-1, 0)` is `INV[1 ^ Y[y-1]]` and entry
`(y-1, x)` for `x >= 1` is `X[x-1] / (X[x-1] ^ Y[y-1])` — the GF(256)
division of the sources, not the plain inverse; for `m` in `2..6` the
precomputed matrix has stride `256 - m`. -/
theorem C7_amended (k m : Nat) (hm : 7 ≤ m) (hk : 1 ≤ k) :
    (cauchy_matrix k m).2 = k ∧
    (cauchy_matrix k m).1.length = (m - 1) * k ∧
    (∀ y, 1 ≤ y → y < m →
      (cauchy_matrix k m).1.getD ((y - 1) * k) 0
        = GFC256_INV_TABLE.getD (1 ^^^ CAUCHY_MATRIX_Y (y - 1)) 0 ∧
      ∀ x, 1 ≤ x → x < k →
        (cauchy_matrix k m).1.getD ((y - 1) * k + x) 0
          = GFC256Divide (CAUCHY_MATRIX_X m (x - 1))
              (CAUCHY_MATRIX_X m (x - 1) ^^^ CAUCHY_MATRIX_Y (y - 1))) ∧
    (∀ m2, 2 ≤ m2 → m2 ≤ 6 → (cauchy_matrix k m2).2 = 256 - m2) := by
  have hcm : cauchy_matrix k m
      = (((List.range (m - 1)).map (fun y0 => cauchy_row k m (y0 + 1))).flatten, k) := by
    unfold cauchy_matrix
    rw [if_neg (by omega), if_neg (by omega), if_neg (by omega),
      if_neg (by omega), if_neg (by omega)]
  have huni : ∀ r ∈ (List.range (m - 1)).map (fun y0 => cauchy_row k m (y0 + 1)),
      r.length = k := by
    intro r hr
    obtain ⟨y0, _, hy2⟩ := List.mem_map.mp hr
    rw [← hy2]
    exact cauchy_row_length k m (y0 + 1) hk
  have hentry : ∀ y j, 1 ≤ y → y < m → j < k →
      (cauchy_matrix k m).1.getD ((y - 1) * k + j) 0
        = (cauchy_row k m y).getD j 0 := by
    intro y j hy1 hy2 hj
    rw [hcm]
    show (((List.range (m - 1)).map (fun y0 => cauchy_row k m (y0 + 1))).flatten).getD
      ((y - 1) * k + j) 0 = _
    rw [getD_flatten_uniform k _ (y - 1) j huni (by simp; omega) hj]
    have : ((List.range (m - 1)).map (fun y0 => cauchy_row k m (y0 + 1))).getD
        (y - 1) [] = cauchy_row k m y := by
      have h2 : ∀ i, i < m - 1 →
          ((List.range (m - 1)).map (fun y0 => cauchy_row k m (y0 + 1))).getD i []
            = cauchy_row k m (i + 1) := by
        intro i hi
        rw [List.getD_eq_getElem?_getD, List.getElem?_eq_getElem (by simp; omega)]
        simp
      rw [h2 (y - 1) (by omega)]
      congr 1
      omega
    rw [this]
  refine ⟨by rw [hcm], ?_, ?_, ?_⟩
  · rw [hcm]
    show (((List.range (m - 1)).map (fun y0 => cauchy_row k m (y0 + 1))).flatten).length
      = (m - 1) * k
    rw [length_flatten_uniform k _ huni]
    simp
  · intro y hy1 hy2
    constructor
    · have := hentry y 0 hy1 hy2 (by omega)
      rw [Nat.add_zero] at this
      rw [this]
      rfl
    · intro x hx1 hx2
      rw [hentry y x hy1 hy2 hx2]
      unfold cauchy_row
      show (GFC256_INV_TABLE.getD (1 ^^^ CAUCHY_MATRIX_Y (y - 1)) 0 ::
        (List.range (k - 1)).map _).getD x 0 = _
      cases x with
      | zero => omega
      | succ x2 =>
        rw [List.getD_cons_succ]
        rw [getD_map_range (k - 1) _ x2 (by omega)]
        rfl
  · intro m2 h2 h6
    interval_cases m2 <;> rfl

/-- C7 counterexample: with the spec-modelled X and Y sequences, the entry
at row 0, column 1 of the generated matrix for `k = 2, m = 7` is
`X[0]/(X[0] ^ Y[0])` (value 127), not the claimed plain inverse
`1/(X[0] ^ Y[0])` (value 63). -/
theorem C7_counterexample :
    (cauchy_matrix 2 7).1.getD 1 0
      ≠ GFC256_INV_TABLE.getD (CAUCHY_MATRIX_X 7 0 ^^^ CAUCHY_MATRIX_Y 0) 0 := by
  decide

/-- C7 witness: the amended entry description holds at `k = 2, m = 7`. -/
theorem C7_amended_witness :
    (7 ≤ 7 ∧ 1 ≤ 2) ∧ (cauchy_matrix 2 7).2 = 2 :=
  ⟨⟨by decide, by decide⟩, (C7_amended 2 7 (by decide) (by decide)).1⟩

/-- C4 (amended): a decode call that reaches the elimination and solving
phases takes the windowed paths (`decode_win_path`, i.e. `win_original`,
`win_gaussian_elimination`, `win_back_substitution`) exactly when the
recovery count exceeds `PRECOMP_TABLE_THRESH = 4` — that is, when `r > 4`,
not `r > 3`; the encoder uses `win_encode` exactly when `m > 4`. -/
theorem C4_amended (k m : Nat) (blocks : List Block) (B : Nat)
    (hk : 2 ≤ k) (hm : m ≠ 1)
    (hrc : (sort_blocks k blocks).2.1.length ≠ 0)
    (hkm : k + m ≤ 256) (hB : B % 8 = 0) :
    (decodeUsesWindow (sort_blocks k blocks).2.1.length = true
      ↔ 4 < (sort_blocks k blocks).2.1.length) ∧
    (∀ m2, encodeUsesWindow m2 = true ↔ 4 < m2) ∧
    cauchy_256_decode k m blocks B
      = (0, if decodeUsesWindow (sort_blocks k blocks).2.1.length then
          decode_win_path k (B / 8) (cauchy_matrix k m).2 (cauchy_matrix k m).1
            (sort_blocks k blocks).1 (sort_blocks k blocks).2.1
            (sort_blocks k blocks).2.2 blocks
        else
          decode_plain_path k (B / 8) (cauchy_matrix k m).2 (cauchy_matrix k m).1
            (sort_blocks k blocks).1 (sort_blocks k blocks).2.1
            (sort_blocks k blocks).2.2 blocks) := by
  refine ⟨?_, ?_, ?_⟩
  · simp [decodeUsesWindow, PRECOMP_TABLE_THRESH]
  · intro m2
    simp [encodeUsesWindow]
  · have hval : ¬ (256 < k + m ∨ B % 8 ≠ 0) := by
      intro hcon
      rcases hcon with h | h
      · omega
      · exact h hB
    unfold cauchy_256_decode
    rw [if_neg (by omega), if_neg hm]
    by_cases hw : decodeUsesWindow (sort_blocks k blocks).2.1.length
    · simp [hrc, hval, hw]
    · simp [hrc, hval, hw]

/-- C4 counterexample: a decode call with four recovery blocks reaches the
elimination and Gaussian-elimination phases (`k = 6, m = 4`, valid
parameters, `r = 4 > 3`), yet the window guard is false — the claimed
threshold `r > 3` does not match the code's `r > PRECOMP_TABLE_THRESH = 4`. -/
theorem C4_counterexample :
    decodeUsesWindow (sort_blocks 6 [Block.mk (List.replicate 8 0) 0,
      Block.mk (List.replicate 8 0) 3, Block.mk (List.replicate 8 0) 6,
      Block.mk (List.replicate 8 0) 7, Block.mk (List.replicate 8 0) 8,
      Block.mk (List.replicate 8 0) 9]).2.1.length = false ∧
    3 < (sort_blocks 6 [Block.mk (List.replicate 8 0) 0,
      Block.mk (List.replicate 8 0) 3, Block.mk (List.replicate 8 0) 6,
      Block.mk (List.replicate 8 0) 7, Block.mk (List.replicate 8 0) 8,
      Block.mk (List.replicate 8 0) 9]).2.1.length ∧
    (2 ≤ 6 ∧ (4 : Nat) ≠ 1 ∧
     (sort_blocks 6 [Block.mk (List.replicate 8 0) 0,
       Block.mk (List.replicate 8 0) 3, Block.mk (List.replicate 8 0) 6,
       Block.mk (List.replicate 8 0) 7, Block.mk (List.replicate 8 0) 8,
       Block.mk (List.replicate 8 0) 9]).2.1.length ≠ 0 ∧
     6 + 4 ≤ 256 ∧ 8 % 8 = 0) := by
  decide

/-- C4 witness: the amended threshold statement at a concrete call with five
recovery blocks (`k = 6, m = 5`), where the windowed path is taken. -/
theorem C4_amended_witness :
    (2 ≤ 6 ∧ (5 : Nat) ≠ 1 ∧
     (sort_blocks 6 [Block.mk (List.replicate 8 1) 0,
       Block.mk (List.replicate 8 1) 6, Block.mk (List.replicate 8 1) 7,
       Block.mk (List.replicate 8 1) 8, Block.mk (List.replicate 8 1) 9,
       Block.mk (List.replicate 8 1) 10]).2.1.length ≠ 0 ∧
     6 + 5 ≤ 256 ∧ 8 % 8 = 0) ∧
    (decodeUsesWindow (sort_blocks 6 [Block.mk (List.replicate 8 1) 0,
       Block.mk (List.replicate 8 1) 6, Block.mk (List.replicate 8 1) 7,
       Block.mk (List.replicate 8 1) 8, Block.mk (List.replicate 8 1) 9,
       Block.mk (List.replicate 8 1) 10]).2.1.length = true
      ↔ 4 < (sort_blocks 6 [Block.mk (List.replicate 8 1) 0,
       Block.mk (List.replicate 8 1) 6, Block.mk (List.replicate 8 1) 7,
       Block.mk (List.replicate 8 1) 8, Block.mk (List.replicate 8 1) 9,
       Block.mk (List.replicate 8 1) 10]).2.1.length) :=
  ⟨⟨by decide, by decide, by decide, by decide, by decide⟩,
   (C4_amended 6 5 [Block.mk (List.replicate 8 1) 0,
      Block.mk (List.replicate 8 1) 6, Block.mk (List.replicate 8 1) 7,
      Block.mk (List.replicate 8 1) 8, Block.mk (List.replicate 8 1) 9,
      Block.mk (List.replicate 8 1) 10] 8
      (by decide) (by decide) (by decide) (by decide) (by decide)).1⟩

/-! ## Encoder lemmas: the first recovery block -/

theorem foldl_preserves {α β : Type} (P : α → Prop) (f : α → β → α)
    (l : List β) (h : ∀ a x, x ∈ l → P a → P (f a x)) :
    ∀ a, P a → P (l.foldl f a) := by
  induction l with
  | nil => intro a ha; exact ha
  | cons x t ih =>
    intro a ha
    rw [List.foldl_cons]
    exact ih (fun a2 x2 hx2 => h a2 x2 (List.mem_cons_of_mem _ hx2)) _
      (h a x (List.mem_cons_self _ _) ha)

theorem foldl_congr_mem {α β : Type} (l : List β) (f g : α → β → α)
    (h : ∀ a x, x ∈ l → f a x = g a x) : ∀ a, l.foldl f a = l.foldl g a := by
  induction l with
  | nil => intro a; rfl
  | cons x t ih =>
    intro a
    rw [List.foldl_cons, List.foldl_cons, h a x (List.mem_cons_self _ _)]
    exact ih (fun a2 x2 hx2 => h a2 x2 (List.mem_cons_of_mem _ hx2)) _

/-- Prefix stability of a single out-of-prefix write. -/
theorem writeSeg_pres (B off : Nat) (buf xs : List Nat) (h1 : B ≤ off)
    (h2 : B ≤ buf.length) :
    (writeSeg buf off xs).take B = buf.take B ∧
    B ≤ (writeSeg buf off xs).length := by
  refine ⟨take_writeSeg_of_le buf xs off B h1 h2, ?_⟩
  have := List.length_take off buf
  simp [writeSeg]
  omega

theorem memxor_pres (B dOff n : Nat) (dst src : List Nat) (h1 : B ≤ dOff)
    (h2 : B ≤ dst.length) :
    (memxor dst dOff src n).take B = dst.take B ∧
    B ≤ (memxor dst dOff src n).length :=
  writeSeg_pres B dOff dst _ h1 h2

/-- The pairwise XOR phase of `cauchy_256_encode` computes the left fold of
byte-wise XOR over a segment of the data blocks, leaves the buffer length
unchanged and does not touch bytes past the block. -/
theorem encode_xor_fold (B : Nat) (data : List (List Nat))
    (hB : ∀ d ∈ data, d.length = B) :
    ∀ (n j : Nat) (b : List Nat), j + n ≤ data.length → B ≤ b.length →
    (((List.range' j n).foldl (fun b2 x => memxor b2 0 (data.getD x []) B) b).take B
        = ((data.drop j).take n).foldl zipXor (b.take B)) ∧
    ((List.range' j n).foldl (fun b2 x => memxor b2 0 (data.getD x []) B) b).length
        = b.length ∧
    ((List.range' j n).foldl (fun b2 x => memxor b2 0 (data.getD x []) B) b).drop B
        = b.drop B := by
  intro n
  induction n with
  | zero => intro j b _ _; simp
  | succ n ih =>
    intro j b hj hb
    have hjlen : j < data.length := by omega
    have hdj : (data.getD j []).length = B := by
      have : data.getD j [] ∈ data := by
        rw [List.getD_eq_getElem?_getD, List.getElem?_eq_getElem hjlen]
        exact List.getElem_mem hjlen
      exact hB _ this
    have hdrop : data.drop j = data.getD j [] :: data.drop (j + 1) := by
      rw [List.getD_eq_getElem?_getD, List.getElem?_eq_getElem hjlen]
      exact List.drop_eq_getElem_cons hjlen
    have hstep_take : (memxor b 0 (data.getD j []) B).take B
        = zipXor (b.take B) (data.getD j []) := by
      rw [take_memxor_zero b (data.getD j []) B hb (by omega)]
      congr 1
      exact List.take_of_length_le (by omega)
    have hstep_len : (memxor b 0 (data.getD j []) B).length = b.length :=
      length_memxor b _ 0 B (by omega)
    have hstep_drop : (memxor b 0 (data.getD j []) B).drop B = b.drop B :=
      drop_memxor_zero b _ B B (Nat.le_refl B)
    rw [List.range'_succ, List.foldl_cons]
    have := ih (j + 1) (memxor b 0 (data.getD j []) B) (by omega)
      (by omega)
    refine ⟨?_, ?_, ?_⟩
    · rw [this.1, hdrop, List.take_succ_cons, List.foldl_cons, hstep_take]
    · rw [this.2.1, hstep_len]
    · rw [this.2.2, hstep_drop]

theorem mem_range'_ge (s n x : Nat) (h : x ∈ List.range' s n) : s ≤ x := by
  rcases List.mem_range'.mp h with ⟨i, _, hi2⟩
  omega

/-- The guarded form of the XOR loop in `cauchy_256_encode` (indices 0 and 1
skipped) equals the plain fold over `2 .. k-1`. -/
theorem encode_guard_fold (k B : Nat) (data : List (List Nat))
    (r1 : List Nat) (hk : 2 ≤ k) :
    (List.range k).foldl (fun b x =>
        if 2 ≤ x then memxor b 0 (data.getD x []) B else b) r1
      = (List.range' 2 (k - 2)).foldl
          (fun b x => memxor b 0 (data.getD x []) B) r1 := by
  rw [range_split 2 k hk, List.foldl_append]
  have h2 : (List.range 2).foldl (fun b x =>
      if 2 ≤ x then memxor b 0 (data.getD x []) B else b) r1 = r1 := rfl
  rw [h2]
  apply foldl_congr_mem
  intro a x hx
  rw [if_pos (mem_range'_ge 2 (k - 2) x hx)]

theorem slice_bitx_pres (B s : Nat) (src : List Nat) (slice : Nat)
    (buf : List Nat) (dOff : Nat) (h1 : B ≤ dOff) (h2 : B ≤ buf.length) :
    (slice_bitx_loop s src slice buf dOff).take B = buf.take B ∧
    B ≤ (slice_bitx_loop s src slice buf dOff).length := by
  unfold slice_bitx_loop
  have := foldl_preserves
    (fun b => b.take B = buf.take B ∧ B ≤ b.length)
    (fun b bit_x => if slice &&& (1 <<< bit_x) ≠ 0 then
      memxor b dOff (readSeg src (bit_x * s) s) s else b)
    (List.range 8) ?_ buf ⟨rfl, h2⟩
  · exact this
  · intro a x _ ha
    dsimp only
    split
    · have hp := memxor_pres B dOff s a (readSeg src (x * s) s) h1 ha.2
      exact ⟨hp.1.trans ha.1, hp.2⟩
    · exact ha

theorem slice_bity_pres (B s : Nat) (src : List Nat) (slice0 : Nat)
    (buf : List Nat) (dOff0 : Nat) (h1 : B ≤ dOff0) (h2 : B ≤ buf.length) :
    (slice_bity_loop s src slice0 buf dOff0).take B = buf.take B ∧
    B ≤ (slice_bity_loop s src slice0 buf dOff0).length := by
  unfold slice_bity_loop
  have := foldl_preserves
    (fun (st : List Nat × Nat) => st.1.take B = buf.take B ∧ B ≤ st.1.length)
    (fun st bit_y => (slice_bitx_loop s src st.2 st.1 (dOff0 + bit_y * s),
      GFC256Multiply st.2 2))
    (List.range 8) ?_ (buf, slice0) ⟨rfl, h2⟩
  · exact this
  · intro a x _ ha
    have hp := slice_bitx_pres B s src a.2 a.1 (dOff0 + x * s) (by omega) ha.2
    exact ⟨hp.1.trans ha.1, hp.2⟩

theorem encode_row_loop_pres (B k m s stride : Nat) (data : List (List Nat))
    (matrix : List Nat) (buf : List Nat) (hBs : B = 8 * s)
    (h2 : B ≤ buf.length) :
    (encode_row_loop k m s stride data matrix buf).take B = buf.take B ∧
    B ≤ (encode_row_loop k m s stride data matrix buf).length := by
  unfold encode_row_loop
  have := foldl_preserves
    (fun b => b.take B = buf.take B ∧ B ≤ b.length)
    (fun b y0 => encode_col_loop k s stride data matrix (y0 + 1) b)
    (List.range (m - 1)) ?_ buf ⟨rfl, h2⟩
  · exact this
  · intro a y0 _ ha
    unfold encode_col_loop
    have := foldl_preserves
      (fun b => b.take B = buf.take B ∧ B ≤ b.length)
      (fun b x => slice_bity_loop s (data.getD x [])
        (matrix.getD (y0 * stride + x) 0) b ((y0 + 1) * 8 * s))
      (List.range k) ?_ a ha
    · exact this
    · intro a2 x _ ha2
      have hp := slice_bity_pres B s (data.getD x [])
        (matrix.getD (y0 * stride + x) 0) a2 ((y0 + 1) * 8 * s)
        (by rw [hBs]; calc 8 * s = 1 * 8 * s := by ring
              _ ≤ (y0 + 1) * 8 * s := by
                apply Nat.mul_le_mul_right
                apply Nat.mul_le_mul_right
                omega) ha2.2
      exact ⟨hp.1.trans ha2.1, hp.2⟩

theorem winApply8_pres (B s : Nat) (src : List Nat)
    (scratch : List (List Nat)) (slice0 : Nat) (buf : List Nat)
    (dOff0 : Nat) (h1 : B ≤ dOff0) (h2 : B ≤ buf.length) :
    (winApply8 s src scratch slice0 buf dOff0).take B = buf.take B ∧
    B ≤ (winApply8 s src scratch slice0 buf dOff0).length := by
  unfold winApply8
  have := foldl_preserves
    (fun (st : List Nat × Nat) => st.1.take B = buf.take B ∧ B ≤ st.1.length)
    (fun st bit_y => (winApplySlice s src scratch st.2 st.1 (dOff0 + bit_y * s),
      GFC256Multiply st.2 2))
    (List.range 8) ?_ (buf, slice0) ⟨rfl, h2⟩
  · exact this
  · intro a x _ ha
    have hoff : B ≤ dOff0 + x * s := by omega
    unfold winApplySlice
    dsimp only
    split
    · unfold memxor_add
      have hp := memxor_pres B (dOff0 + x * s) s a.1
        (zipXor ((winRead s src scratch 0 (a.2 &&& 15)).take s)
                ((winRead s src scratch 1 (a.2 >>> 4)).take s)) hoff ha.2
      exact ⟨hp.1.trans ha.1, hp.2⟩
    · split
      · have hp := memxor_pres B (dOff0 + x * s) s a.1
          (winRead s src scratch 0 (a.2 &&& 15)) hoff ha.2
        exact ⟨hp.1.trans ha.1, hp.2⟩
      · have hp := memxor_pres B (dOff0 + x * s) s a.1
          (winRead s src scratch 1 (a.2 >>> 4)) hoff ha.2
        exact ⟨hp.1.trans ha.1, hp.2⟩

theorem win_encode_pres (B k m s stride : Nat) (matrix : List Nat)
    (data : List (List Nat)) (buf : List Nat) (hBs : B = 8 * s)
    (h2 : B ≤ buf.length) :
    (win_encode k m matrix stride data buf s).take B = buf.take B ∧
    B ≤ (win_encode k m matrix stride data buf s).length := by
  unfold win_encode
  have := foldl_preserves
    (fun (st : List Nat × List (List Nat)) =>
      st.1.take B = buf.take B ∧ B ≤ st.1.length)
    (fun st x =>
      (win_encode_rows m s stride matrix x (data.getD x [])
        (winFillTables s (data.getD x []) st.2) st.1,
       winFillTables s (data.getD x []) st.2))
    (List.range k) ?_ (buf, List.replicate 22 []) ⟨rfl, h2⟩
  · exact this
  · intro a x _ ha
    unfold win_encode_rows
    have := foldl_preserves
      (fun b => b.take B = buf.take B ∧ B ≤ b.length)
      (fun b y0 => winApply8 s (data.getD x [])
        (winFillTables s (data.getD x []) a.2)
        (matrix.getD (y0 * stride + x) 0) b ((y0 + 1) * 8 * s))
      (List.range (m - 1)) ?_ a.1 ha
    · exact this
    · intro a2 y0 _ ha2
      have hp := winApply8_pres B s (data.getD x [])
        (winFillTables s (data.getD x []) a.2)
        (matrix.getD (y0 * stride + x) 0) a2 ((y0 + 1) * 8 * s)
        (by rw [hBs]; calc 8 * s = 1 * 8 * s := by ring
              _ ≤ (y0 + 1) * 8 * s := by
                apply Nat.mul_le_mul_right
                apply Nat.mul_le_mul_right
                omega) ha2.2
      exact ⟨hp.1.trans ha2.1, hp.2⟩

/-- The XOR phase of `cauchy_256_encode` for `k >= 2`: after
`memxor_set` and the guarded loop, the first block region holds the XOR of
all data blocks, and nothing past it has been touched. -/
theorem encode_r2_spec (k B : Nat) (data : List (List Nat)) (r0 : List Nat)
    (hk2 : 2 ≤ k) (hdlen : data.length = k)
    (hdB : ∀ d ∈ data, d.length = B) (hr0 : B ≤ r0.length) :
    ((List.range k).foldl (fun b x =>
        if 2 ≤ x then memxor b 0 (data.getD x []) B else b)
      (memxor_set r0 0 (data.getD 0 []) (data.getD 1 []) B)).take B
        = xorBlocks data ∧
    ((List.range k).foldl (fun b x =>
        if 2 ≤ x then memxor b 0 (data.getD x []) B else b)
      (memxor_set r0 0 (data.getD 0 []) (data.getD 1 []) B)).length
        = r0.length ∧
    ((List.range k).foldl (fun b x =>
        if 2 ≤ x then memxor b 0 (data.getD x []) B else b)
      (memxor_set r0 0 (data.getD 0 []) (data.getD 1 []) B)).drop B
        = r0.drop B := by
  obtain ⟨d0, d1, rest, rfl⟩ : ∃ d0 d1 t, data = d0 :: d1 :: t := by
    cases data with
    | nil => simp at hdlen; omega
    | cons d0 t =>
      cases t with
      | nil => simp at hdlen; omega
      | cons d1 t2 => exact ⟨d0, d1, t2, rfl⟩
  have hd0 : d0.length = B := hdB d0 (by simp)
  have hd1 : d1.length = B := hdB d1 (by simp)
  have hrest : rest.length = k - 2 := by
    have := hdlen
    simp at this
    omega
  set data := d0 :: d1 :: rest with hdata
  have hget0 : data.getD 0 [] = d0 := rfl
  have hget1 : data.getD 1 [] = d1 := rfl
  set r1 := memxor_set r0 0 (data.getD 0 []) (data.getD 1 []) B with hr1
  have hxs : (zipXor ((data.getD 0 []).take B) ((data.getD 1 []).take B))
      = zipXor d0 d1 := by
    rw [hget0, hget1, List.take_of_length_le (by omega),
      List.take_of_length_le (by omega)]
  have hxslen : (zipXor ((data.getD 0 []).take B) ((data.getD 1 []).take B)).length
      = B := by
    rw [hxs, length_zipXor]
    omega
  have hr1len : r1.length = r0.length := by
    rw [hr1]
    unfold memxor_set
    apply length_writeSeg
    omega
  have hr1take : r1.take B = zipXor d0 d1 := by
    rw [hr1]
    unfold memxor_set
    have := take_writeSeg_zero r0
      (zipXor ((data.getD 0 []).take B) ((data.getD 1 []).take B))
    rw [hxslen] at this
    rw [this, hxs]
  have hr1drop : r1.drop B = r0.drop B := by
    rw [hr1]
    unfold memxor_set
    apply drop_writeSeg_zero
    rw [hxslen]
  have hBle : B ≤ r1.length := by omega
  have hfold := encode_xor_fold B data hdB (k - 2) 2 r1 (by
    have : data.length = k := hdlen
    omega) hBle
  have hguard := encode_guard_fold k B data r1 hk2
  have hseg : (data.drop 2).take (k - 2) = rest := by
    show rest.take (k - 2) = rest
    apply List.take_of_length_le
    omega
  refine ⟨?_, ?_, ?_⟩
  · rw [hguard, hfold.1, hr1take, hseg]
    rfl
  · rw [hguard, hfold.2.1, hr1len]
  · rw [hguard, hfold.2.2, hr1drop]

/-- C3: on every successful encode with valid parameters, the first
recovery block is the byte-wise XOR of all `k` data blocks. -/
theorem C3_first_recovery_block_is_xor (k m B : Nat) (data : List (List Nat))
    (r0 : List Nat) (hk : 1 ≤ k) (hm : 1 ≤ m) (hkm : k + m ≤ 256)
    (hB8 : B % 8 = 0) (hdlen : data.length = k)
    (hdB : ∀ d ∈ data, d.length = B) (hr0 : r0.length = m * B) :
    (cauchy_256_encode k m data r0 B).1 = 0 ∧
    (cauchy_256_encode k m data r0 B).2.take B = xorBlocks data := by
  have hs8 : B = 8 * (B >>> 3) := by
    rw [Nat.shiftRight_eq_div_pow]
    omega
  by_cases hk1 : k ≤ 1
  · -- k = 1: every recovery block is a copy of the single data block
    have hk1' : k = 1 := by omega
    obtain ⟨d0, data1, rfl⟩ : ∃ d0 t, data = d0 :: t := by
      cases data with
      | nil => simp at hdlen; omega
      | cons d0 t => exact ⟨d0, t, rfl⟩
    have hd0 : d0.length = B := hdB d0 (List.mem_cons_self _ _)
    have hdata1 : data1 = [] := by
      have hlen2 : data1.length = 0 := by
        have := hdlen
        simp at this
        omega
      exact List.length_eq_zero.mp hlen2
    subst hdata1
    have hxor : xorBlocks [d0] = d0 := rfl
    unfold cauchy_256_encode
    rw [if_pos hk1]
    refine ⟨rfl, ?_⟩
    show ((List.range m).foldl (fun b ii =>
      writeSeg b (ii * B) ((([d0] : List (List Nat)).getD 0 []).take B)) r0).take B
      = xorBlocks [d0]
    have hget : (([d0] : List (List Nat)).getD 0 []).take B = d0 := by
      show (d0.take B) = d0
      exact List.take_of_length_le (by omega)
    rw [hxor]
    have hrange : List.range m = 0 :: List.range' 1 (m - 1) := by
      cases m with
      | zero => exact absurd hm (by omega)
      | succ m2 =>
        rw [List.range_eq_range', List.range'_succ]
        simp
    rw [hrange, List.foldl_cons]
    have hfirst_take : (writeSeg r0 (0 * B) ((([d0] : List (List Nat)).getD 0 []).take B)).take B
        = d0 := by
      rw [Nat.zero_mul, hget]
      have := take_writeSeg_zero r0 d0
      rw [hd0] at this
      exact this
    have hfirst_len : B ≤ (writeSeg r0 (0 * B) ((([d0] : List (List Nat)).getD 0 []).take B)).length := by
      rw [Nat.zero_mul, hget]
      have hmB : 1 * B ≤ m * B := Nat.mul_le_mul_right B hm
      rw [length_writeSeg r0 d0 0 (by omega)]
      omega
    have := foldl_preserves
      (fun b => b.take B = d0 ∧ B ≤ b.length)
      (fun b ii => writeSeg b (ii * B) ((([d0] : List (List Nat)).getD 0 []).take B))
      (List.range' 1 (m - 1)) ?_ _ ⟨hfirst_take, hfirst_len⟩
    · exact this.1
    · intro a x hx ha
      have hx1 : 1 ≤ x := mem_range'_ge 1 (m - 1) x hx
      have hoff : B ≤ x * B := by
        calc B = 1 * B := by ring
          _ ≤ x * B := Nat.mul_le_mul_right B hx1
      have hp := writeSeg_pres B (x * B) a
        ((([d0] : List (List Nat)).getD 0 []).take B) hoff ha.2
      exact ⟨hp.1.trans ha.1, hp.2⟩
  · -- k >= 2
    have hk2 : 2 ≤ k := by omega
    obtain ⟨d0, d1, rest, rfl⟩ : ∃ d0 d1 t, data = d0 :: d1 :: t := by
      cases data with
      | nil => simp at hdlen; omega
      | cons d0 t =>
        cases t with
        | nil => simp at hdlen; omega
        | cons d1 t2 => exact ⟨d0, d1, t2, rfl⟩
    have hd0 : d0.length = B := hdB d0 (by simp)
    have hd1 : d1.length = B := hdB d1 (by simp)
    have hrest : rest.length = k - 2 := by
      have := hdlen
      simp at this
      omega
    set data := d0 :: d1 :: rest with hdata
    have hget0 : data.getD 0 [] = d0 := rfl
    have hget1 : data.getD 1 [] = d1 := rfl
    -- the first phase writes the XOR of all data blocks into block 0
    set r1 := memxor_set r0 0 (data.getD 0 []) (data.getD 1 []) B with hr1
    have hxs : (zipXor ((data.getD 0 []).take B) ((data.getD 1 []).take B))
        = zipXor d0 d1 := by
      rw [hget0, hget1, List.take_of_length_le (by omega),
        List.take_of_length_le (by omega)]
    have hxslen : (zipXor ((data.getD 0 []).take B) ((data.getD 1 []).take B)).length
        = B := by
      rw [hxs, length_zipXor]
      omega
    have hr1len : r1.length = r0.length := by
      rw [hr1]
      unfold memxor_set
      apply length_writeSeg
      rw [hxslen]
      have : 1 * B ≤ m * B := Nat.mul_le_mul_right B hm
      omega
    have hr1take : r1.take B = zipXor d0 d1 := by
      rw [hr1]
      unfold memxor_set
      have := take_writeSeg_zero r0
        (zipXor ((data.getD 0 []).take B) ((data.getD 1 []).take B))
      rw [hxslen] at this
      rw [this, hxs]
    have hr1drop : r1.drop B = r0.drop B := by
      rw [hr1]
      unfold memxor_set
      apply drop_writeSeg_zero
      rw [hxslen]
    have hBle : B ≤ r1.length := by
      rw [hr1len, hr0]
      calc B = 1 * B := by ring
        _ ≤ m * B := Nat.mul_le_mul_right B hm
    -- the guarded loop over the remaining blocks
    have hfold := encode_xor_fold B data hdB (k - 2) 2 r1 (by omega) hBle
    have hguard := encode_guard_fold k B data r1 hk2
    have hseg : (data.drop 2).take (k - 2) = rest := by
      show rest.take (k - 2) = rest
      apply List.take_of_length_le
      omega
    have hr2take : ((List.range k).foldl (fun b x =>
        if 2 ≤ x then memxor b 0 (data.getD x []) B else b) r1).take B
        = xorBlocks data := by
      rw [hguard, hfold.1, hr1take, hseg]
      rfl
    have hr2len : ((List.range k).foldl (fun b x =>
        if 2 ≤ x then memxor b 0 (data.getD x []) B else b) r1).length
        = r0.length := by
      rw [hguard, hfold.2.1, hr1len]
    unfold cauchy_256_encode
    rw [if_neg hk1]
    by_cases hm1 : m = 1
    · rw [if_pos hm1]
      exact ⟨rfl, hr2take⟩
    · rw [if_neg hm1]
      have hinval : ¬ (256 < k + m ∨ B % 8 ≠ 0) := by
        intro hcon
        rcases hcon with h | h
        · omega
        · exact h hB8
      rw [if_neg hinval]
      set r2 := (List.range k).foldl (fun b x =>
        if 2 ≤ x then memxor b 0 (data.getD x []) B else b) r1 with hr2
      have hr3 := writeSeg_pres B B r2 (List.replicate (B * (m - 1)) 0)
        (Nat.le_refl B) (by rw [hr2len, hr0]
                            calc B = 1 * B := by ring
                              _ ≤ m * B := Nat.mul_le_mul_right B hm)
      by_cases hm4 : 4 < m
      · rw [if_pos hm4]
        refine ⟨rfl, ?_⟩
        have hw := win_encode_pres B k m (B >>> 3) (cauchy_matrix k m).2
          (cauchy_matrix k m).1 data
          (writeSeg r2 B (List.replicate (B * (m - 1)) 0)) hs8 hr3.2
        show (win_encode k m (cauchy_matrix k m).1 (cauchy_matrix k m).2 data
          (writeSeg r2 B (List.replicate (B * (m - 1)) 0)) (B >>> 3)).take B
          = xorBlocks data
        rw [hw.1, hr3.1, hr2take]
      · rw [if_neg hm4]
        refine ⟨rfl, ?_⟩
        have hw := encode_row_loop_pres B k m (B >>> 3) (cauchy_matrix k m).2
          data (cauchy_matrix k m).1
          (writeSeg r2 B (List.replicate (B * (m - 1)) 0)) hs8 hr3.2
        show (encode_row_loop k m (B >>> 3) (cauchy_matrix k m).2 data
          (cauchy_matrix k m).1
          (writeSeg r2 B (List.replicate (B * (m - 1)) 0))).take B
          = xorBlocks data
        rw [hw.1, hr3.1, hr2take]

/-- C3 witness: a concrete encode whose first recovery block is the XOR of
the two data blocks. -/
theorem C3_witness :
    ((1 ≤ 2 ∧ 1 ≤ 2 ∧ 2 + 2 ≤ 256 ∧ 8 % 8 = 0) : Prop) ∧
    (cauchy_256_encode 2 2 [[1, 2, 3, 4, 5, 6, 7, 8],
      [16, 32, 48, 64, 80, 96, 112, 128]] (List.replicate 16 0) 8).2.take 8
      = xorBlocks [[1, 2, 3, 4, 5, 6, 7, 8], [16, 32, 48, 64, 80, 96, 112, 128]] :=
  ⟨⟨by decide, by decide, by decide, by decide⟩,
   (C3_first_recovery_block_is_xor 2 2 8
     [[1, 2, 3, 4, 5, 6, 7, 8], [16, 32, 48, 64, 80, 96, 112, 128]]
     (List.replicate 16 0) (by decide) (by decide) (by decide) (by decide)
     (by decide) (by decide) (by decide)).2⟩

/-- C2 (amended): parameter validation happens only on the general paths.
A decode call with `k >= 2`, `m != 1` and at least one recovery block
returns -1 on invalid `k + m` or block size and writes nothing; an encode
call with `k >= 2`, `m != 1` returns -1 on the same conditions but has by
then already overwritten the first recovery block with the XOR of the data
blocks, leaving the rest of the output buffer untouched. -/
theorem C2_amended (k m B : Nat) (blocks : List Block)
    (data : List (List Nat)) (r0 : List Nat)
    (hk : 2 ≤ k) (hm : m ≠ 1)
    (hinv : 256 < k + m ∨ B % 8 ≠ 0)
    (hrec : (sort_blocks k blocks).2.1.length ≠ 0)
    (hdlen : data.length = k) (hdB : ∀ d ∈ data, d.length = B)
    (hr0 : B ≤ r0.length) :
    cauchy_256_decode k m blocks B = (-1, blocks) ∧
    (cauchy_256_encode k m data r0 B).1 = -1 ∧
    (cauchy_256_encode k m data r0 B).2.take B = xorBlocks data ∧
    (cauchy_256_encode k m data r0 B).2.drop B = r0.drop B := by
  constructor
  · unfold cauchy_256_decode
    rw [if_neg (by omega), if_neg hm]
    simp [hrec, hinv]
  · have hr2 := encode_r2_spec k B data r0 hk hdlen hdB hr0
    unfold cauchy_256_encode
    rw [if_neg (by omega), if_neg hm, if_pos hinv]
    exact ⟨rfl, hr2.1, hr2.2.2⟩

/-- C2 counterexample: `cauchy_256_decode` with `k = 0` (rejected per the
claim) returns status 0 — not a nonzero status — and modifies the
caller-supplied block, setting its row id to 0. -/
theorem C2_counterexample :
    (cauchy_256_decode 0 2 [Block.mk [1, 2, 3, 4, 5, 6, 7, 8] 5] 8).1 = 0 ∧
    (cauchy_256_decode 0 2 [Block.mk [1, 2, 3, 4, 5, 6, 7, 8] 5] 8).2
      ≠ [Block.mk [1, 2, 3, 4, 5, 6, 7, 8] 5] := by
  decide

/-- C2 witness: a concrete invalid call pair (`k + m = 300 > 256`): decode
returns -1 without writes, and encode returns -1 having written only the
XOR block. -/
theorem C2_amended_witness :
    ((2 ≤ 2 ∧ (298 : Nat) ≠ 1 ∧ (256 < 2 + 298 ∨ 8 % 8 ≠ 0)) : Prop) ∧
    cauchy_256_decode 2 298 [Block.mk [1, 2, 3, 4, 5, 6, 7, 8] 2,
      Block.mk [9, 10, 11, 12, 13, 14, 15, 16] 0] 8
      = (-1, [Block.mk [1, 2, 3, 4, 5, 6, 7, 8] 2,
        Block.mk [9, 10, 11, 12, 13, 14, 15, 16] 0]) :=
  ⟨⟨by decide, by decide, Or.inl (by decide)⟩,
   (C2_amended 2 298 8
     [Block.mk [1, 2, 3, 4, 5, 6, 7, 8] 2,
      Block.mk [9, 10, 11, 12, 13, 14, 15, 16] 0]
     [[1, 2, 3, 4, 5, 6, 7, 8], [9, 10, 11, 12, 13, 14, 15, 16]]
     (List.replicate 16 0)
     (by decide) (by decide) (Or.inl (by decide)) (by decide) (by decide)
     (by decide) (by decide)).1⟩

/-! ## Frame lemmas: the decode phases write only recovery blocks and never
touch row ids outside `generate_bitmatrix` -/

theorem getBlk_set_ne (bs : List Block) (i j : Nat) (b : Block) (h : j ≠ i) :
    getBlk (bs.set i b) j = getBlk bs j := by
  unfold getBlk
  rw [List.getD_eq_getElem?_getD, List.getD_eq_getElem?_getD,
    List.getElem?_set_ne (fun hh => h hh.symm)]

theorem rows_set_same_row (bs : List Block) (i : Nat) (b : Block)
    (hb : b.row = (getBlk bs i).row) :
    (bs.set i b).map Block.row = bs.map Block.row := by
  apply List.ext_getElem?
  intro n
  rw [List.getElem?_map, List.getElem?_map]
  by_cases hn : n = i
  · subst hn
    rcases Nat.lt_or_ge n bs.length with h | h
    · rw [List.getElem?_set_self h, List.getElem?_eq_getElem h]
      have : getBlk bs n = bs[n] := by
        unfold getBlk
        rw [List.getD_eq_getElem?_getD, List.getElem?_eq_getElem h]
        rfl
      simp [hb, this]
    · rw [List.set_eq_of_length_le h]
  · rw [List.getElem?_set_ne (fun hh => hn hh.symm)]

theorem rows_setBlkData (bs : List Block) (i : Nat) (d : List Nat) :
    (setBlkData bs i d).map Block.row = bs.map Block.row := by
  unfold setBlkData
  exact rows_set_same_row bs i _ rfl

theorem rows_blkXorAt (bs : List Block) (i off : Nat) (src : List Nat)
    (n : Nat) : (blkXorAt bs i off src n).map Block.row = bs.map Block.row := by
  unfold blkXorAt
  exact rows_setBlkData bs i _

theorem rows_swapSub (bs : List Block) (rIdx : List Nat) (s p o : Nat) :
    (swapSub bs rIdx s p o).map Block.row = bs.map Block.row := by
  unfold swapSub
  rw [rows_setBlkData, rows_setBlkData]

theorem getBlk_setBlkData_ne (bs : List Block) (i : Nat) (d : List Nat)
    (j : Nat) (h : j ≠ i) : getBlk (setBlkData bs i d) j = getBlk bs j :=
  getBlk_set_ne bs i j _ h

theorem getBlk_blkXorAt_ne (bs : List Block) (i off : Nat) (src : List Nat)
    (n : Nat) (j : Nat) (h : j ≠ i) :
    getBlk (blkXorAt bs i off src n) j = getBlk bs j :=
  getBlk_setBlkData_ne bs i _ j h

theorem getBlk_swapSub_ne (bs : List Block) (rIdx : List Nat) (s p o : Nat)
    (j : Nat) (h1 : j ≠ pivIdx rIdx p) (h2 : j ≠ pivIdx rIdx o) :
    getBlk (swapSub bs rIdx s p o) j = getBlk bs j := by
  unfold swapSub
  rw [getBlk_setBlkData_ne _ _ _ _ h2, getBlk_setBlkData_ne _ _ _ _ h1]

theorem getD_mem_of_lt (l : List Nat) (i : Nat) (h : i < l.length) :
    l.getD i 0 ∈ l := by
  rw [List.getD_eq_getElem?_getD, List.getElem?_eq_getElem h]
  exact List.getElem_mem h

theorem mem_range'_lt (s n x : Nat) (h : x ∈ List.range' s n) : x < s + n := by
  rcases List.mem_range'.mp h with ⟨i, hi, hi2⟩
  omega

theorem getBlk_setBlkRow_ne (bs : List Block) (i r j : Nat) (h : j ≠ i) :
    getBlk (setBlkRow bs i r) j = getBlk bs j := by
  unfold setBlkRow
  exact getBlk_set_ne bs i j _ h

theorem getBlk_setBlkRow_self (bs : List Block) (i r : Nat)
    (h : i < bs.length) :
    getBlk (setBlkRow bs i r) i = ⟨(getBlk bs i).data, r⟩ := by
  unfold setBlkRow getBlk
  rw [List.getD_eq_getElem?_getD, List.getElem?_set_self h]
  rfl

theorem length_setBlkData (bs : List Block) (i : Nat) (d : List Nat) :
    (setBlkData bs i d).length = bs.length := by
  unfold setBlkData
  exact List.length_set bs i _

theorem length_setBlkRow (bs : List Block) (i r : Nat) :
    (setBlkRow bs i r).length = bs.length := by
  unfold setBlkRow
  exact List.length_set bs i _

theorem row_getBlk_eq_rows_getD (bs : List Block) (j : Nat) :
    (getBlk bs j).row = (bs.map Block.row).getD j 0 := by
  unfold getBlk
  rcases Nat.lt_or_ge j bs.length with hj | hj
  · rw [List.getD_eq_getElem?_getD, List.getElem?_eq_getElem hj,
      List.getD_eq_getElem?_getD,
      List.getElem?_eq_getElem (by simpa using hj)]
    simp
  · rw [List.getD_eq_getElem?_getD, List.getElem?_eq_none hj,
      List.getD_eq_getElem?_getD, List.getElem?_eq_none (by simpa using hj)]
    rfl

theorem rows_map_eq_row (a b : List Block)
    (h : a.map Block.row = b.map Block.row) (j : Nat) :
    (getBlk a j).row = (getBlk b j).row := by
  rw [row_getBlk_eq_rows_getD, row_getBlk_eq_rows_getD, h]

theorem nodup_getD_ne (R : List Nat) (hnd : R.Nodup) (i j : Nat)
    (hi : i < R.length) (hj : j < R.length) (hij : i ≠ j) :
    R.getD i 0 ≠ R.getD j 0 := by
  rw [List.getD_eq_getElem?_getD, List.getElem?_eq_getElem hi,
    List.getD_eq_getElem?_getD, List.getElem?_eq_getElem hj]
  simp only [Option.getD_some]
  intro h
  exact hij (hnd.getElem_inj_iff.mp h)

theorem pivIdx_mem (R : List Nat) (rows p : Nat) (hp : p < rows * 8)
    (hr : rows ≤ R.length) : pivIdx R p ∈ R := by
  unfold pivIdx
  apply getD_mem_of_lt
  rw [Nat.shiftRight_eq_div_pow]
  have h8 : (2 : Nat) ^ 3 = 8 := by norm_num
  rw [h8]
  omega

theorem foldl_snd {α β γ : Type} (f : α × β → γ → α × β) (h : β → γ → β)
    (hf : ∀ st x, (f st x).2 = h st.2 x) (l : List γ) :
    ∀ st0 : α × β, (l.foldl f st0).2 = l.foldl h st0.2 := by
  induction l with
  | nil => intro st0; rfl
  | cons x t ih =>
    intro st0
    rw [List.foldl_cons, List.foldl_cons, ← hf st0 x]
    exact ih _

theorem getD_set_self_any {α : Type} (l : List α) (i : Nat) (v d : α)
    (h : i < l.length) : (l.set i v).getD i d = v := by
  rw [List.getD_eq_getElem?_getD, List.getElem?_set_self h]
  rfl

theorem getD_set_ne_any {α : Type} (l : List α) (i j : Nat) (v d : α)
    (h : i ≠ j) : (l.set i v).getD j d = l.getD j d := by
  rw [List.getD_eq_getElem?_getD, List.getElem?_set_ne h,
    List.getD_eq_getElem?_getD]

theorem head?_eq_getD (l : List Nat) (h : l ≠ []) :
    l.head? = some (l.getD 0 0) := by
  cases l with
  | nil => exact absurd rfl h
  | cons a t => rfl

/-! ## FrameOK preservation through the decode write primitives -/

theorem FrameOK_refl (R : List Nat) (bs : List Block) : FrameOK R bs bs :=
  ⟨rfl, fun _ _ => rfl⟩

theorem FrameOK_length (R : List Nat) (bs0 bs : List Block)
    (h : FrameOK R bs0 bs) : bs.length = bs0.length := by
  have := congrArg List.length h.1
  simpa using this

theorem FrameOK_setBlkData (R : List Nat) (bs0 bs : List Block) (t : Nat)
    (d : List Nat) (ht : t ∈ R) (h : FrameOK R bs0 bs) :
    FrameOK R bs0 (setBlkData bs t d) := by
  refine ⟨(rows_setBlkData bs t d).trans h.1, fun j hj => ?_⟩
  rw [getBlk_setBlkData_ne bs t d j (fun he => hj (he ▸ ht))]
  exact h.2 j hj

theorem FrameOK_blkXorAt (R : List Nat) (bs0 bs : List Block) (t off : Nat)
    (src : List Nat) (n : Nat) (ht : t ∈ R) (h : FrameOK R bs0 bs) :
    FrameOK R bs0 (blkXorAt bs t off src n) :=
  FrameOK_setBlkData R bs0 bs t _ ht h

theorem FrameOK_swapSub (R : List Nat) (bs0 bs : List Block) (s p o : Nat)
    (hp : pivIdx R p ∈ R) (ho : pivIdx R o ∈ R) (h : FrameOK R bs0 bs) :
    FrameOK R bs0 (swapSub bs R s p o) := by
  refine ⟨(rows_swapSub bs R s p o).trans h.1, fun j hj => ?_⟩
  rw [getBlk_swapSub_ne bs R s p o j (fun he => hj (he ▸ hp))
    (fun he => hj (he ▸ ho))]
  exact h.2 j hj

/-! ## FrameOK preservation through the unwindowed decode phases -/

theorem eliminate_original_pres (s stride : Nat) (matrix : List Nat)
    (oIdx R : List Nat) (bs0 bs : List Block) (h : FrameOK R bs0 bs) :
    FrameOK R bs0 (eliminate_original s stride matrix oIdx R bs) := by
  unfold eliminate_original
  refine foldl_preserves (FrameOK R bs0) _ R ?_ bs h
  intro a ri hri ha
  dsimp only
  refine foldl_preserves (FrameOK R bs0) _ oIdx ?_ a ha
  intro a2 oi _ ha2
  dsimp only
  split
  · exact FrameOK_blkXorAt R bs0 a2 ri 0 _ _ hri ha2
  · exact FrameOK_setBlkData R bs0 a2 ri _ hri ha2

theorem gb_blocks_eq (k : Nat) (R matrix : List Nat) (stride : Nat)
    (E : List Nat) (bs : List Block) :
    (generate_bitmatrix k R matrix stride E bs).2.2
      = (List.range R.length).foldl
          (fun b ii => setBlkRow b (R.getD ii 0) (E.getD ii 0)) bs := by
  unfold generate_bitmatrix
  exact foldl_snd _ _ (fun st x => rfl) _ _

theorem setRow_fold_len (R E : List Nat) (bs : List Block) (n : Nat) :
    ((List.range n).foldl
      (fun b ii => setBlkRow b (R.getD ii 0) (E.getD ii 0)) bs).length
      = bs.length := by
  induction n with
  | zero => rfl
  | succ n ih =>
    rw [List.range_succ, List.foldl_append, List.foldl_cons, List.foldl_nil,
      length_setBlkRow, ih]

theorem setRow_fold_row (R E : List Nat) (bs : List Block) (hnd : R.Nodup)
    (hb : ∀ r ∈ R, r < bs.length) :
    ∀ n, n ≤ R.length → ∀ ii, ii < n →
    (getBlk ((List.range n).foldl
        (fun b i2 => setBlkRow b (R.getD i2 0) (E.getD i2 0)) bs)
      (R.getD ii 0)).row = E.getD ii 0 := by
  intro n
  induction n with
  | zero => intro _ ii hii; omega
  | succ n ih =>
    intro hn ii hii
    rw [List.range_succ, List.foldl_append, List.foldl_cons, List.foldl_nil]
    rcases Nat.lt_or_ge ii n with hlt | hge
    · have hne : R.getD ii 0 ≠ R.getD n 0 :=
        nodup_getD_ne R hnd ii n (by omega) (by omega) (by omega)
      rw [getBlk_setBlkRow_ne _ _ _ _ hne]
      exact ih (by omega) ii hlt
    · have hii_n : ii = n := by omega
      subst hii_n
      have hmem : R.getD ii 0 ∈ R := getD_mem_of_lt R ii (by omega)
      rw [getBlk_setBlkRow_self _ _ _
        (by rw [setRow_fold_len]; exact hb _ hmem)]

theorem setRow_fold_frame (R E : List Nat) (bs : List Block) (n : Nat)
    (hn : n ≤ R.length) (j : Nat) (hj : j ∉ R) :
    getBlk ((List.range n).foldl
      (fun b i2 => setBlkRow b (R.getD i2 0) (E.getD i2 0)) bs) j
      = getBlk bs j := by
  refine foldl_preserves (fun b => getBlk b j = getBlk bs j) _
    (List.range n) ?_ bs rfl
  intro a i2 hi2 ha
  have hi2n : i2 < n := List.mem_range.mp hi2
  have hmem : R.getD i2 0 ∈ R := getD_mem_of_lt R i2 (by omega)
  rw [getBlk_setBlkRow_ne a (R.getD i2 0) (E.getD i2 0) j
    (fun he => hj (he ▸ hmem))]
  exact ha

theorem generate_bitmatrix_frame (k : Nat) (R matrix : List Nat)
    (stride : Nat) (E : List Nat) (bs : List Block) (j : Nat) (hj : j ∉ R) :
    getBlk (generate_bitmatrix k R matrix stride E bs).2.2 j
      = getBlk bs j := by
  rw [gb_blocks_eq]
  exact setRow_fold_frame R E bs R.length (Nat.le_refl _) j hj

theorem generate_bitmatrix_rows (k : Nat) (R matrix : List Nat)
    (stride : Nat) (E : List Nat) (bs : List Block) (hnd : R.Nodup)
    (hb : ∀ r ∈ R, r < bs.length) (ii : Nat) (hii : ii < R.length) :
    (getBlk (generate_bitmatrix k R matrix stride E bs).2.2
      (R.getD ii 0)).row = E.getD ii 0 := by
  rw [gb_blocks_eq]
  exact setRow_fold_row R E bs hnd hb R.length (Nat.le_refl _) ii hii

theorem ge_elim_row_pres (R : List Nat) (s bitstride pivot rows : Nat)
    (bs0 : List Block) (hr : rows ≤ R.length)
    (st : List Nat × List Block) (o2 : Nat) (ho2 : o2 < rows * 8)
    (h : FrameOK R bs0 st.2) :
    FrameOK R bs0 (ge_elim_row R s bitstride pivot st o2).2 := by
  unfold ge_elim_row
  dsimp only
  split
  · exact FrameOK_blkXorAt R bs0 st.2 _ _ _ _ (pivIdx_mem R rows o2 ho2 hr) h
  · exact h

theorem gaussian_elimination_frame (rows : Nat) (R : List Nat)
    (bm0 : List Nat) (bitstride s : Nat) (bs0 bs : List Block)
    (hr : rows ≤ R.length) (h : FrameOK R bs0 bs) :
    FrameOK R bs0 (gaussian_elimination rows R bm0 bitstride s bs).2 := by
  unfold gaussian_elimination
  refine foldl_preserves
    (fun st : List Nat × List Block => FrameOK R bs0 st.2) _
    (List.range (rows * 8 - 1)) ?_ (bm0, bs) h
  intro st pivot hpiv hst
  have hpiv_lt : pivot < rows * 8 - 1 := List.mem_range.mp hpiv
  dsimp only
  split
  · exact hst
  · rename_i o hfind
    have ho_mem := List.mem_of_find?_eq_some hfind
    have ho_lt : o < rows * 8 := by
      have := mem_range'_lt pivot (rows * 8 - pivot) o ho_mem
      omega
    have hst1 : FrameOK R bs0
        (if o ≠ pivot then
          (memswap st.1 (o * bitstride + pivot >>> 6)
            (pivot * bitstride + pivot >>> 6) (bitstride - pivot >>> 6),
           swapSub st.2 R s pivot o)
        else st).2 := by
      split
      · exact FrameOK_swapSub R bs0 st.2 s pivot o
          (pivIdx_mem R rows pivot (by omega) hr)
          (pivIdx_mem R rows o ho_lt hr) hst
      · exact hst
    refine foldl_preserves
      (fun st2 : List Nat × List Block => FrameOK R bs0 st2.2) _
      (List.range' (o + 1) (rows * 8 - (o + 1))) ?_ _ hst1
    intro st2 o2 ho2 hst2
    have ho2_lt : o2 < rows * 8 := by
      have := mem_range'_lt (o + 1) (rows * 8 - (o + 1)) o2 ho2
      omega
    exact ge_elim_row_pres R s bitstride pivot rows bs0 hr st2 o2 ho2_lt hst2

theorem back_substitution_frame (rows : Nat) (R : List Nat) (bm : List Nat)
    (bitstride s : Nat) (bs0 bs : List Block) (hr : rows ≤ R.length)
    (h : FrameOK R bs0 bs) :
    FrameOK R bs0 (back_substitution rows R bm bitstride s bs) := by
  unfold back_substitution
  refine foldl_preserves (FrameOK R bs0) _ (List.range (rows * 8)).reverse
    ?_ bs h
  intro a pivot hpiv ha
  have hpiv_lt : pivot < rows * 8 :=
    List.mem_range.mp (List.mem_reverse.mp hpiv)
  refine foldl_preserves (FrameOK R bs0) _ (List.range pivot).reverse
    ?_ a ha
  intro a2 orow horow ha2
  have horow_lt : orow < rows * 8 := by
    have := List.mem_range.mp (List.mem_reverse.mp horow)
    omega
  split
  · exact FrameOK_blkXorAt R bs0 a2 _ _ _ _
      (pivIdx_mem R rows orow horow_lt hr) ha2
  · exact ha2

/-! ## FrameOK preservation through the windowed decode phases -/

theorem wwriteB_frame (R : List Nat) (bs0 : List Block) (s : Nat)
    (st : List Block × List (List Nat)) (bi bank base e : Nat) (v : List Nat)
    (hbi : bi ∈ R) (h : FrameOK R bs0 st.1) :
    FrameOK R bs0 (wwriteB s st bi bank base e v).1 := by
  unfold wwriteB
  split
  · exact FrameOK_setBlkData R bs0 st.1 bi _ hbi h
  · split
    · exact FrameOK_setBlkData R bs0 st.1 bi _ hbi h
    · split
      · exact FrameOK_setBlkData R bs0 st.1 bi _ hbi h
      · split
        · exact FrameOK_setBlkData R bs0 st.1 bi _ hbi h
        · exact h

theorem wXorTab_frame (R : List Nat) (bs0 : List Block) (s : Nat)
    (st : List Block × List (List Nat)) (bi bank base e a : Nat)
    (hbi : bi ∈ R) (h : FrameOK R bs0 st.1) :
    FrameOK R bs0 (wXorTab s st bi bank base e a).1 := by
  unfold wXorTab
  exact wwriteB_frame R bs0 s st bi bank base e _ hbi h

theorem wSetTab_frame (R : List Nat) (bs0 : List Block) (s : Nat)
    (st : List Block × List (List Nat)) (bi bank base e a b : Nat)
    (hbi : bi ∈ R) (h : FrameOK R bs0 st.1) :
    FrameOK R bs0 (wSetTab s st bi bank base e a b).1 := by
  unfold wSetTab
  exact wwriteB_frame R bs0 s st bi bank base e _ hbi h

theorem wGenTable_frame (R : List Nat) (bs0 : List Block) (s : Nat)
    (st : List Block × List (List Nat)) (bi bank base : Nat)
    (hbi : bi ∈ R) (h : FrameOK R bs0 st.1) :
    FrameOK R bs0 (wGenTable s st bi bank base).1 := by
  unfold wGenTable
  refine wSetTab_frame R bs0 s _ bi bank base 15 3 12 hbi ?_
  refine wSetTab_frame R bs0 s _ bi bank base 14 2 12 hbi ?_
  refine wSetTab_frame R bs0 s _ bi bank base 13 1 12 hbi ?_
  refine wSetTab_frame R bs0 s _ bi bank base 11 3 8 hbi ?_
  refine wSetTab_frame R bs0 s _ bi bank base 10 2 8 hbi ?_
  refine wSetTab_frame R bs0 s _ bi bank base 12 4 8 hbi ?_
  refine wSetTab_frame R bs0 s _ bi bank base 9 1 8 hbi ?_
  refine wSetTab_frame R bs0 s _ bi bank base 7 1 6 hbi ?_
  refine wSetTab_frame R bs0 s _ bi bank base 5 1 4 hbi ?_
  refine wSetTab_frame R bs0 s _ bi bank base 6 2 4 hbi ?_
  exact wSetTab_frame R bs0 s st bi bank base 3 1 2 hbi h

theorem wApplyNib_frame (R : List Nat) (bs0 : List Block) (s : Nat)
    (st : List Block × List (List Nat))
    (bi loBank loBase hiBank hiBase slice destBi dOff : Nat)
    (hd : destBi ∈ R) (h : FrameOK R bs0 st.1) :
    FrameOK R bs0
      (wApplyNib s st bi loBank loBase hiBank hiBase slice destBi dOff).1 := by
  unfold wApplyNib
  dsimp only
  split
  · exact FrameOK_setBlkData R bs0 st.1 destBi _ hd h
  · split
    · exact FrameOK_blkXorAt R bs0 st.1 destBi _ _ _ hd h
    · exact FrameOK_blkXorAt R bs0 st.1 destBi _ _ _ hd h

theorem wXorTab_ite_frame (R : List Nat) (bs0 : List Block) (s : Nat)
    (c : Prop) [inst : Decidable c] (st : List Block × List (List Nat))
    (bi bank base e a : Nat) (hbi : bi ∈ R) (h : FrameOK R bs0 st.1) :
    FrameOK R bs0 ((if c then wXorTab s st bi bank base e a else st)).1 := by
  split
  · exact wXorTab_frame R bs0 s st bi bank base e a hbi h
  · exact h

theorem win_ge_triangle_frame (R : List Nat) (bs0 : List Block) (s : Nat)
    (bm : List Nat) (bitstride : Nat) (st : List Block × List (List Nat))
    (bi bank base r0 w shift : Nat) (hbi : bi ∈ R) (h : FrameOK R bs0 st.1) :
    FrameOK R bs0
      (win_ge_triangle s bm bitstride st bi bank base r0 w shift).1 := by
  unfold win_ge_triangle
  refine wXorTab_ite_frame R bs0 s _ _ bi bank base 8 4 hbi ?_
  refine wXorTab_ite_frame R bs0 s _ _ bi bank base 8 2 hbi ?_
  refine wXorTab_ite_frame R bs0 s _ _ bi bank base 8 1 hbi ?_
  refine wXorTab_ite_frame R bs0 s _ _ bi bank base 4 2 hbi ?_
  refine wXorTab_ite_frame R bs0 s _ _ bi bank base 4 1 hbi ?_
  exact wXorTab_ite_frame R bs0 s _ st bi bank base 2 1 hbi h

theorem win_bs_triangle_frame (R : List Nat) (bs0 : List Block) (s : Nat)
    (bm : List Nat) (bitstride : Nat) (st : List Block × List (List Nat))
    (bi bank base r0 w shift : Nat) (hbi : bi ∈ R) (h : FrameOK R bs0 st.1) :
    FrameOK R bs0
      (win_bs_triangle s bm bitstride st bi bank base r0 w shift).1 := by
  unfold win_bs_triangle
  refine wXorTab_ite_frame R bs0 s _ _ bi bank base 1 2 hbi ?_
  refine wXorTab_ite_frame R bs0 s _ _ bi bank base 1 4 hbi ?_
  refine wXorTab_ite_frame R bs0 s _ _ bi bank base 1 8 hbi ?_
  refine wXorTab_ite_frame R bs0 s _ _ bi bank base 2 4 hbi ?_
  refine wXorTab_ite_frame R bs0 s _ _ bi bank base 2 8 hbi ?_
  exact wXorTab_ite_frame R bs0 s _ st bi bank base 4 8 hbi h

theorem win_ge_square_frame (R : List Nat) (bs0 : List Block) (s : Nat)
    (bm : List Nat) (bitstride : Nat) (st : List Block × List (List Nat))
    (bi x w shift : Nat) (hbi : bi ∈ R) (h : FrameOK R bs0 st.1) :
    FrameOK R bs0 (win_ge_square s bm bitstride st bi x w shift).1 := by
  unfold win_ge_square
  refine foldl_preserves
    (fun st2 : List Block × List (List Nat) => FrameOK R bs0 st2.1) _
    [(0, 1), (1, 2), (2, 4), (3, 8)] ?_ st h
  intro st2 p _ hst2
  dsimp only
  split
  · exact wwriteB_frame R bs0 s st2 bi 1 4 p.2 _ hbi hst2
  · exact hst2

theorem win_bs_square_frame (R : List Nat) (bs0 : List Block) (s : Nat)
    (bm : List Nat) (bitstride : Nat) (st : List Block × List (List Nat))
    (bi x w shift : Nat) (hbi : bi ∈ R) (h : FrameOK R bs0 st.1) :
    FrameOK R bs0 (win_bs_square s bm bitstride st bi x w shift).1 := by
  unfold win_bs_square
  refine foldl_preserves
    (fun st2 : List Block × List (List Nat) => FrameOK R bs0 st2.1) _
    [(3, 8), (2, 4), (1, 2), (0, 1)] ?_ st h
  intro st2 p _ hst2
  dsimp only
  split
  · exact wwriteB_frame R bs0 s st2 bi 1 0 p.2 _ hbi hst2
  · exact hst2

theorem win_ge_column_frame (rows : Nat) (R bm : List Nat)
    (bitstride s : Nat) (bs0 : List Block)
    (st : List Block × List (List Nat)) (x : Nat) (hx : x < rows)
    (hr : rows ≤ R.length) (h : FrameOK R bs0 st.1) :
    FrameOK R bs0 (win_ge_column rows R bm bitstride s st x).1 := by
  unfold win_ge_column
  have hbi : R.getD x 0 ∈ R := getD_mem_of_lt R x (by omega)
  refine foldl_preserves
    (fun stY : List Block × List (List Nat) => FrameOK R bs0 stY.1) _
    (List.range' (x + 1) (rows - (x + 1))) ?_ _ ?_
  · intro stY y hy hstY
    have hy_lt : y < rows := by
      have h1 := mem_range'_lt (x + 1) (rows - (x + 1)) y hy
      have h2 := mem_range'_ge (x + 1) (rows - (x + 1)) y hy
      omega
    have hdest : R.getD y 0 ∈ R := getD_mem_of_lt R y (by omega)
    refine foldl_preserves
      (fun stJ : List Block × List (List Nat) => FrameOK R bs0 stJ.1) _
      (List.range 8) ?_ _ hstY
    intro stJ jj _ hstJ
    exact wApplyNib_frame R bs0 s stJ _ 0 0 1 4 _ _ _ hdest hstJ
  · refine wGenTable_frame R bs0 s _ _ 1 4 hbi ?_
    refine win_ge_triangle_frame R bs0 s bm bitstride _ _ 1 4 _ _ _ hbi ?_
    refine win_ge_square_frame R bs0 s bm bitstride _ _ x _ _ hbi ?_
    refine wGenTable_frame R bs0 s _ _ 0 0 hbi ?_
    refine win_ge_triangle_frame R bs0 s bm bitstride _ _ 0 0 _ _ _ hbi ?_
    exact h

theorem win_ge_pivot_phase_frame (bit_rows bitstride s : Nat)
    (R : List Nat) (bs0 : List Block) (st0 : List Nat × List Block)
    (hbr : bit_rows ≤ R.length * 8) (h : FrameOK R bs0 st0.2) :
    FrameOK R bs0 (win_ge_pivot_phase bit_rows bitstride s R st0).2 := by
  unfold win_ge_pivot_phase
  refine foldl_preserves
    (fun st : List Nat × List Block => FrameOK R bs0 st.2) _
    (List.range (bit_rows - 1)) ?_ st0 h
  intro st pivot hpiv hst
  have hpiv_lt : pivot < bit_rows - 1 := List.mem_range.mp hpiv
  dsimp only
  split
  · exact hst
  · rename_i o hfind
    have ho_mem := List.mem_of_find?_eq_some hfind
    have ho_lt : o < bit_rows := by
      have h1 := mem_range'_lt pivot (bit_rows - pivot) o ho_mem
      have h2 := mem_range'_ge pivot (bit_rows - pivot) o ho_mem
      omega
    split
    · exact FrameOK_swapSub R bs0 st.2 s pivot o
        (pivIdx_mem R R.length pivot (by omega) (Nat.le_refl _))
        (pivIdx_mem R R.length o (by omega) (Nat.le_refl _)) hst
    · exact hst

theorem win_gaussian_elimination_frame (rows : Nat) (R bm0 : List Nat)
    (bitstride s : Nat) (bs0 : List Block)
    (st0 : List Block × List (List Nat)) (hr : rows ≤ R.length)
    (h5 : 5 ≤ rows) (h : FrameOK R bs0 st0.1) :
    FrameOK R bs0
      (win_gaussian_elimination rows R bm0 bitstride s st0).2.1 := by
  unfold win_gaussian_elimination
  refine foldl_preserves
    (fun st : List Block × List (List Nat) => FrameOK R bs0 st.1) _
    (List.range' (rows * 8 - 3 * 8) 23) ?_ _ ?_
  · intro st pivot hpiv hst
    have hpb := mem_range'_lt (rows * 8 - 3 * 8) 23 pivot hpiv
    refine foldl_preserves
      (fun st2 : List Block × List (List Nat) => FrameOK R bs0 st2.1) _
      (List.range' (pivot + 1) (rows * 8 - (pivot + 1))) ?_ _ hst
    intro st2 orow horow hst2
    have ho_lt : orow < rows * 8 := by
      have h1 := mem_range'_lt (pivot + 1) (rows * 8 - (pivot + 1)) orow horow
      have h2 := mem_range'_ge (pivot + 1) (rows * 8 - (pivot + 1)) orow horow
      omega
    split
    · exact FrameOK_blkXorAt R bs0 st2.1 _ _ _ _
        (pivIdx_mem R R.length orow (by omega) (Nat.le_refl _)) hst2
    · exact hst2
  · refine foldl_preserves
      (fun st : List Block × List (List Nat) => FrameOK R bs0 st.1) _
      (List.range (rows - 3)) ?_ _ ?_
    · intro st x hx hst
      exact win_ge_column_frame rows R _ bitstride s bs0 st x
        (by have := List.mem_range.mp hx; omega) hr hst
    · exact win_ge_pivot_phase_frame (rows * 8) bitstride s R bs0
        (bm0, st0.1) (by omega) h

theorem win_bs_column_frame (R bm : List Nat) (bitstride s : Nat)
    (bs0 : List Block) (st : List Block × List (List Nat)) (x : Nat)
    (hx : x < R.length) (h : FrameOK R bs0 st.1) :
    FrameOK R bs0 (win_bs_column R bm bitstride s st x).1 := by
  unfold win_bs_column
  have hbi : R.getD x 0 ∈ R := getD_mem_of_lt R x hx
  refine foldl_preserves
    (fun stY : List Block × List (List Nat) => FrameOK R bs0 stY.1) _
    (List.range x).reverse ?_ _ ?_
  · intro stY y hy hstY
    have hy_lt : y < x := List.mem_range.mp (List.mem_reverse.mp hy)
    have hdest : R.getD y 0 ∈ R := getD_mem_of_lt R y (by omega)
    refine foldl_preserves
      (fun stJ : List Block × List (List Nat) => FrameOK R bs0 stJ.1) _
      (List.range 8) ?_ _ hstY
    intro stJ jj _ hstJ
    exact wApplyNib_frame R bs0 s stJ _ 1 0 0 4 _ _ _ hdest hstJ
  · refine wGenTable_frame R bs0 s _ _ 1 0 hbi ?_
    refine win_bs_triangle_frame R bs0 s bm bitstride _ _ 1 0 _ _ _ hbi ?_
    refine win_bs_square_frame R bs0 s bm bitstride _ _ x _ _ hbi ?_
    refine wGenTable_frame R bs0 s _ _ 0 4 hbi ?_
    refine win_bs_triangle_frame R bs0 s bm bitstride _ _ 0 4 _ _ _ hbi ?_
    exact h

theorem win_back_substitution_frame (rows : Nat) (R bm : List Nat)
    (bitstride s : Nat) (bs0 : List Block)
    (st0 : List Block × List (List Nat)) (hr : rows ≤ R.length)
    (h3 : 3 ≤ R.length) (h : FrameOK R bs0 st0.1) :
    FrameOK R bs0 (win_back_substitution rows R bm bitstride s st0).1 := by
  unfold win_back_substitution
  refine foldl_preserves
    (fun st : List Block × List (List Nat) => FrameOK R bs0 st.1) _
    (List.range' 1 23).reverse ?_ _ ?_
  · intro st pivot hpiv hst
    refine foldl_preserves
      (fun st2 : List Block × List (List Nat) => FrameOK R bs0 st2.1) _
      (List.range pivot).reverse ?_ _ hst
    intro st2 orow horow hst2
    have hp_lt : pivot < 24 := by
      have := mem_range'_lt 1 23 pivot (List.mem_reverse.mp hpiv)
      omega
    have ho_lt : orow < 24 := by
      have := List.mem_range.mp (List.mem_reverse.mp horow)
      omega
    split
    · exact FrameOK_blkXorAt R bs0 st2.1 _ _ _ _
        (pivIdx_mem R R.length orow (by omega) (Nat.le_refl _)) hst2
    · exact hst2
  · refine foldl_preserves
      (fun st : List Block × List (List Nat) => FrameOK R bs0 st.1) _
      (List.range' 3 (rows - 3)).reverse ?_ st0 h
    intro st x hx hst
    have hx' : x ∈ List.range' 3 (rows - 3) := List.mem_reverse.mp hx
    have hx_lt : x < rows := by
      have h1 := mem_range'_lt 3 (rows - 3) x hx'
      have h2 := mem_range'_ge 3 (rows - 3) x hx'
      omega
    exact win_bs_column_frame R bm bitstride s bs0 st x (by omega) hst

theorem win_original_rows_frame (s stride : Nat) (matrix : List Nat)
    (R : List Nat) (row_offset orow : Nat) (odata : List Nat)
    (scratch : List (List Nat)) (bs0 bs : List Block)
    (h : FrameOK R bs0 bs) :
    FrameOK R bs0
      (win_original_rows s stride matrix R row_offset orow odata scratch bs) := by
  unfold win_original_rows
  refine foldl_preserves (FrameOK R bs0) _ R ?_ bs h
  intro a ri hri ha
  dsimp only
  split
  · exact FrameOK_blkXorAt R bs0 a ri 0 _ _ hri ha
  · exact FrameOK_setBlkData R bs0 a ri _ hri ha

theorem win_original_frame (s stride : Nat) (matrix : List Nat)
    (oIdx R : List Nat) (bs0 blocks : List Block)
    (scratch : List (List Nat)) (h : FrameOK R bs0 blocks) :
    FrameOK R bs0 (win_original s stride matrix oIdx R blocks scratch).1 := by
  unfold win_original
  refine foldl_preserves
    (fun st : List Block × List (List Nat) => FrameOK R bs0 st.1) _
    oIdx ?_ (blocks, scratch) h
  intro st oi _ hst
  exact win_original_rows_frame s stride matrix R _ _ _ _ bs0 st.1 hst

/-! ## Frame behaviour of the two full decode pipelines -/

theorem decode_plain_path_frame (k s stride : Nat) (matrix : List Nat)
    (oIdx R E : List Nat) (blocks : List Block) (j : Nat) (hj : j ∉ R) :
    getBlk (decode_plain_path k s stride matrix oIdx R E blocks) j
      = getBlk blocks j := by
  unfold decode_plain_path
  dsimp only
  generalize hst1 : (if oIdx.length ≠ 0 then
      eliminate_original s stride matrix oIdx R blocks else blocks) = st1
  have h1 : FrameOK R blocks st1 := by
    rw [← hst1]
    split
    · exact eliminate_original_pres s stride matrix oIdx R blocks blocks
        (FrameOK_refl R blocks)
    · exact FrameOK_refl R blocks
  generalize hgb : generate_bitmatrix k R matrix stride E st1 = gb
  have hG : getBlk gb.2.2 j = getBlk st1 j := by
    rw [← hgb]
    exact generate_bitmatrix_frame k R matrix stride E st1 j hj
  generalize hge : gaussian_elimination R.length R gb.1 gb.2.1 s gb.2.2 = ge
  have hE : FrameOK R gb.2.2 ge.2 := by
    rw [← hge]
    exact gaussian_elimination_frame R.length R gb.1 gb.2.1 s gb.2.2 gb.2.2
      (Nat.le_refl _) (FrameOK_refl R gb.2.2)
  have hB : FrameOK R gb.2.2
      (back_substitution R.length R ge.1 gb.2.1 s ge.2) :=
    back_substitution_frame R.length R ge.1 gb.2.1 s gb.2.2 ge.2
      (Nat.le_refl _) hE
  exact (hB.2 j hj).trans (hG.trans (h1.2 j hj))

theorem decode_win_path_frame (k s stride : Nat) (matrix : List Nat)
    (oIdx R E : List Nat) (blocks : List Block) (j : Nat) (hj : j ∉ R)
    (h5 : 5 ≤ R.length) :
    getBlk (decode_win_path k s stride matrix oIdx R E blocks) j
      = getBlk blocks j := by
  unfold decode_win_path
  dsimp only
  generalize hst1 : (if oIdx.length ≠ 0 then
      win_original s stride matrix oIdx R blocks (List.replicate 22 [])
    else (blocks, List.replicate 22 [])) = st1
  have h1 : FrameOK R blocks st1.1 := by
    rw [← hst1]
    split
    · exact win_original_frame s stride matrix oIdx R blocks blocks _
        (FrameOK_refl R blocks)
    · exact FrameOK_refl R blocks
  generalize hgb : generate_bitmatrix k R matrix stride E st1.1 = gb
  have hG : getBlk gb.2.2 j = getBlk st1.1 j := by
    rw [← hgb]
    exact generate_bitmatrix_frame k R matrix stride E st1.1 j hj
  generalize hge : win_gaussian_elimination R.length R gb.1 gb.2.1 s
    (gb.2.2, st1.2) = ge
  have hE : FrameOK R gb.2.2 ge.2.1 := by
    rw [← hge]
    exact win_gaussian_elimination_frame R.length R gb.1 gb.2.1 s gb.2.2
      (gb.2.2, st1.2) (Nat.le_refl _) h5 (FrameOK_refl R gb.2.2)
  have hB : FrameOK R gb.2.2
      (win_back_substitution R.length R ge.1 gb.2.1 s ge.2).1 :=
    win_back_substitution_frame R.length R ge.1 gb.2.1 s gb.2.2 ge.2
      (Nat.le_refl _) (by omega) hE
  exact (hB.2 j hj).trans (hG.trans (h1.2 j hj))

/-- The recovery-position component of `sort_blocks` (unconditionally). -/
theorem sort_blocks_snd_eq (k : Nat) (blocks : List Block) :
    (sort_blocks k blocks).2.1 = recovery_positions k blocks := by
  unfold sort_blocks recovery_positions
  dsimp only
  rw [sort_cls_snd k blocks (List.range k) [] [] (List.replicate 256 0)]
  simp

theorem cauchy_decode_m1_frame (k B : Nat) (blocks : List Block) (j : Nat)
    (hj : (getBlk blocks j).row < k) :
    getBlk (cauchy_decode_m1 k blocks B) j = getBlk blocks j := by
  unfold cauchy_decode_m1
  split
  · rfl
  · rename_i e hfind
    have he : k ≤ (getBlk blocks e).row := by
      have := List.find?_some hfind
      simpa using this
    have hje : j ≠ e := by
      intro h
      rw [h] at hj
      omega
    have hfold : getBlk ((List.range k).foldl (m1_step k e B)
        (blocks, List.replicate 256 false, none)).1 j = getBlk blocks j := by
      refine foldl_preserves
        (fun st2 : List Block × List Bool × Option Nat =>
          getBlk st2.1 j = getBlk blocks j) _ (List.range k) ?_ _ rfl
      intro st2 ii _ hst2
      unfold m1_step
      dsimp only
      split
      · exact hst2
      · split
        · exact hst2
        · rw [getBlk_setBlkData_ne st2.1 e _ j hje]
          exact hst2
    dsimp only
    split
    · rename_i ii _
      rw [getBlk_setBlkRow_ne _ e ii j hje]
      split
      · rw [getBlk_setBlkData_ne _ e _ j hje]
        exact hfold
      · exact hfold
    · split
      · rw [getBlk_setBlkData_ne _ e _ j hje]
        exact hfold
      · exact hfold

/-! ## The m = 1 decoder: erased-row reconstruction -/

theorem find?_congr_mem {α : Type} (l : List α) (p q : α → Bool)
    (h : ∀ x ∈ l, p x = q x) : l.find? p = l.find? q := by
  induction l with
  | nil => rfl
  | cons x t ih =>
    have hx := h x (List.mem_cons_self x t)
    cases hq : q x with
    | true =>
      rw [List.find?_cons_of_pos _ (by rw [hx, hq]),
        List.find?_cons_of_pos _ hq]
    | false =>
      rw [List.find?_cons_of_neg _ (by simp [hx, hq]),
        List.find?_cons_of_neg _ (by simp [hq])]
      exact ih (fun y hy => h y (List.mem_cons_of_mem _ hy))

theorem getD_replicate {α : Type} (n : Nat) (a : α) (i : Nat) :
    (List.replicate n a).getD i a = a := by
  rw [List.getD_eq_getElem?_getD, List.getElem?_replicate]
  split
  · rfl
  · rfl

theorem m1_step_fst_frame (k e B : Nat)
    (st : List Block × List Bool × Option Nat) (x j2 : Nat) (hj2 : j2 ≠ e) :
    getBlk (m1_step k e B st x).1 j2 = getBlk st.1 j2 := by
  unfold m1_step
  dsimp only
  split
  · rfl
  · split
    · rfl
    · exact getBlk_setBlkData_ne st.1 e _ j2 hj2

theorem m1_step_fst_len (k e B : Nat)
    (st : List Block × List Bool × Option Nat) (x : Nat) :
    (m1_step k e B st x).1.length = st.1.length := by
  unfold m1_step
  dsimp only
  split
  · rfl
  · split
    · rfl
    · exact length_setBlkData st.1 e _

theorem m1_step_flags_skip (k e B : Nat)
    (st : List Block × List Bool × Option Nat) (x : Nat) (hxe : x = e) :
    (m1_step k e B st x).2.1 = st.2.1 := by
  unfold m1_step
  rw [if_pos hxe]

theorem m1_step_flags (k e B : Nat)
    (st : List Block × List Bool × Option Nat) (x : Nat) (hxe : x ≠ e) :
    (m1_step k e B st x).2.1
      = (if (getBlk st.1 x).row < k then
           st.2.1.set (getBlk st.1 x).row true
         else st.2.1) := by
  unfold m1_step
  rw [if_neg hxe]
  dsimp only
  cases st.2.2 with
  | none => rfl
  | some j2 => rfl

/-- Invariants of the pairing loop of `cauchy_decode_m1`: blocks other than
the erased one `e` are untouched, lengths are preserved, and a seen flag at
an original position `r` is set exactly when a block other than `e` carries
row `r`. -/
theorem m1_fold_spec (k e B : Nat) (blocks : List Block) (hk256 : k ≤ 256) :
    ∀ (l : List Nat) (st : List Block × List Bool × Option Nat),
    (∀ j2, j2 ≠ e → getBlk st.1 j2 = getBlk blocks j2) →
    st.1.length = blocks.length →
    st.2.1.length = 256 →
    ((∀ j2, j2 ≠ e →
        getBlk (l.foldl (m1_step k e B) st).1 j2 = getBlk blocks j2) ∧
     (l.foldl (m1_step k e B) st).1.length = blocks.length ∧
     (l.foldl (m1_step k e B) st).2.1.length = 256 ∧
     ∀ r, r < k →
       ((l.foldl (m1_step k e B) st).2.1.getD r false = true ↔
        (st.2.1.getD r false = true ∨
         ∃ ii ∈ l, ii ≠ e ∧ (getBlk blocks ii).row = r))) := by
  intro l
  induction l with
  | nil =>
    intro st hfr hl1 hl2
    refine ⟨hfr, hl1, hl2, ?_⟩
    intro r hr
    simp
  | cons x t ih =>
    intro st hfr hl1 hl2
    rw [List.foldl_cons]
    have hfr2 : ∀ j2, j2 ≠ e →
        getBlk (m1_step k e B st x).1 j2 = getBlk blocks j2 :=
      fun j2 hj2 => (m1_step_fst_frame k e B st x j2 hj2).trans (hfr j2 hj2)
    have hl1x : (m1_step k e B st x).1.length = blocks.length :=
      (m1_step_fst_len k e B st x).trans hl1
    by_cases hxe : x = e
    · have hfl := m1_step_flags_skip k e B st x hxe
      obtain ⟨f1, f2, f3, f4⟩ := ih (m1_step k e B st x) hfr2 hl1x
        (by rw [hfl]; exact hl2)
      refine ⟨f1, f2, f3, ?_⟩
      intro r hr
      rw [f4 r hr, hfl]
      constructor
      · rintro (h | ⟨ii, hii, hine, hrow⟩)
        · exact Or.inl h
        · exact Or.inr ⟨ii, List.mem_cons_of_mem _ hii, hine, hrow⟩
      · rintro (h | ⟨ii, hii, hine, hrow⟩)
        · exact Or.inl h
        · rcases List.mem_cons.mp hii with rfl | hii2
          · exact absurd hxe hine
          · exact Or.inr ⟨ii, hii2, hine, hrow⟩
    · have hbx : getBlk st.1 x = getBlk blocks x := hfr x hxe
      have hfl := m1_step_flags k e B st x hxe
      rw [hbx] at hfl
      have hl2x : (m1_step k e B st x).2.1.length = 256 := by
        rw [hfl]
        split
        · rw [List.length_set]
          exact hl2
        · exact hl2
      obtain ⟨f1, f2, f3, f4⟩ := ih (m1_step k e B st x) hfr2 hl1x hl2x
      refine ⟨f1, f2, f3, ?_⟩
      intro r hr
      rw [f4 r hr, hfl]
      by_cases hrowlt : (getBlk blocks x).row < k
      · rw [if_pos hrowlt]
        by_cases hreq : (getBlk blocks x).row = r
        · rw [hreq, getD_set_self_any st.2.1 r true false (by omega)]
          constructor
          · intro _
            exact Or.inr ⟨x, List.mem_cons_self x t, hxe, hreq⟩
          · intro _
            exact Or.inl rfl
        · rw [getD_set_ne_any st.2.1 _ r true false hreq]
          constructor
          · rintro (h | ⟨ii, hii, hine, hrow⟩)
            · exact Or.inl h
            · exact Or.inr ⟨ii, List.mem_cons_of_mem _ hii, hine, hrow⟩
          · rintro (h | ⟨ii, hii, hine, hrow⟩)
            · exact Or.inl h
            · rcases List.mem_cons.mp hii with rfl | hii2
              · exact absurd hrow hreq
              · exact Or.inr ⟨ii, hii2, hine, hrow⟩
      · rw [if_neg hrowlt]
        constructor
        · rintro (h | ⟨ii, hii, hine, hrow⟩)
          · exact Or.inl h
          · exact Or.inr ⟨ii, List.mem_cons_of_mem _ hii, hine, hrow⟩
        · rintro (h | ⟨ii, hii, hine, hrow⟩)
          · exact Or.inl h
          · rcases List.mem_cons.mp hii with rfl | hii2
            · exact absurd hrow (by omega)
            · exact Or.inr ⟨ii, hii2, hine, hrow⟩

/-- With exactly one erased block, `cauchy_decode_m1` sets its row id to the
unique original position missing from the other blocks. -/
theorem cauchy_decode_m1_spec (k B : Nat) (blocks : List Block)
    (hk256 : k ≤ 256) (hlen : blocks.length = k)
    (hrec : recovery_positions k blocks ≠ []) :
    (getBlk (cauchy_decode_m1 k blocks B)
        ((recovery_positions k blocks).getD 0 0)).row
      = (erasedPositions k (blocks.map Block.row)).getD 0 0 := by
  have hRpos : 0 < (recovery_positions k blocks).length :=
    List.length_pos.mpr hrec
  have he_mem : (recovery_positions k blocks).getD 0 0
      ∈ recovery_positions k blocks :=
    getD_mem_of_lt _ 0 hRpos
  have he_row : k ≤ (getBlk blocks
      ((recovery_positions k blocks).getD 0 0)).row := by
    have := (List.mem_filter.mp he_mem).2
    simpa using this
  have he_lt : (recovery_positions k blocks).getD 0 0 < k :=
    List.mem_range.mp (List.mem_filter.mp he_mem).1
  have hfind : (List.range k).find?
      (fun ii => k ≤ (getBlk blocks ii).row)
      = some ((recovery_positions k blocks).getD 0 0) := by
    rw [← List.filter_head?]
    exact head?_eq_getD _ hrec
  obtain ⟨f1, f2, f3, f4⟩ := m1_fold_spec k
    ((recovery_positions k blocks).getD 0 0) B blocks hk256
    (List.range k) (blocks, List.replicate 256 false, none)
    (fun _ _ => rfl) rfl (List.length_replicate 256 false)
  have hptwise : ∀ r ∈ List.range k,
      (!(((List.range k).foldl
          (m1_step k ((recovery_positions k blocks).getD 0 0) B)
          (blocks, List.replicate 256 false, none)).2.1.getD r false))
        = (!((blocks.map Block.row).contains r)) := by
    intro r hrmem
    have hr : r < k := List.mem_range.mp hrmem
    congr 1
    apply Bool.coe_iff_coe.mp
    rw [f4 r hr, getD_replicate 256 false r]
    have hcont : ((blocks.map Block.row).contains r = true)
        ↔ r ∈ blocks.map Block.row :=
      ⟨fun h => List.elem_iff.mp h, fun h => List.elem_iff.mpr h⟩
    rw [hcont, mem_rows_iff k blocks hlen r]
    constructor
    · rintro (h | ⟨ii, hii, hine, hrow⟩)
      · exact absurd h (by simp)
      · exact ⟨ii, hii, hrow⟩
    · rintro ⟨a, ha, harow⟩
      refine Or.inr ⟨a, ha, ?_, harow⟩
      intro hae
      rw [hae] at harow
      omega
  have hcount : (recovery_positions k blocks).length
      ≤ (erasedPositions k (blocks.map Block.row)).length :=
    erasedPositions_count k blocks hlen
  have hEne : erasedPositions k (blocks.map Block.row) ≠ [] :=
    List.length_pos.mp (by omega)
  have hfind2 : (List.range k).find?
      (fun ii => !(((List.range k).foldl
          (m1_step k ((recovery_positions k blocks).getD 0 0) B)
          (blocks, List.replicate 256 false, none)).2.1.getD ii false))
      = some ((erasedPositions k (blocks.map Block.row)).getD 0 0) := by
    rw [find?_congr_mem (List.range k) _
      (fun r => !((blocks.map Block.row).contains r)) hptwise]
    rw [← List.filter_head?]
    exact head?_eq_getD _ hEne
  unfold cauchy_decode_m1
  rw [hfind]
  dsimp only
  rw [hfind2]
  dsimp only
  split
  · rw [getBlk_setBlkRow_self _ _ _
      (by rw [length_setBlkData, f2, hlen]; exact he_lt)]
  · rw [getBlk_setBlkRow_self _ _ _ (by rw [f2, hlen]; exact he_lt)]

/-- With `m = 1` and pairwise-distinct row ids below `k + 1`, at most one of
the `k` supplied blocks is a recovery block. -/
theorem m1_recovery_count (k : Nat) (blocks : List Block)
    (hlen : blocks.length = k)
    (hrows : ∀ b ∈ blocks, b.row < k + 1)
    (hnd : (blocks.map Block.row).Nodup)
    (hrec : recovery_positions k blocks ≠ []) :
    (recovery_positions k blocks).length = 1 := by
  have hpos : 0 < (recovery_positions k blocks).length :=
    List.length_pos.mpr hrec
  by_contra hne
  have h2 : 2 ≤ (recovery_positions k blocks).length := by omega
  have hndR : (recovery_positions k blocks).Nodup :=
    (List.nodup_range k).filter _
  have row_k : ∀ a ∈ recovery_positions k blocks,
      (getBlk blocks a).row = k := by
    intro a ha
    have halt : a < k := List.mem_range.mp (List.mem_filter.mp ha).1
    have hage : k ≤ (getBlk blocks a).row := by
      have := (List.mem_filter.mp ha).2
      simpa using this
    have hmem : getBlk blocks a ∈ blocks := getBlk_mem blocks a (by omega)
    have := hrows _ hmem
    omega
  have ha : (recovery_positions k blocks).getD 0 0
      ∈ recovery_positions k blocks := getD_mem_of_lt _ 0 (by omega)
  have hb : (recovery_positions k blocks).getD 1 0
      ∈ recovery_positions k blocks := getD_mem_of_lt _ 1 (by omega)
  have hane : (recovery_positions k blocks).getD 0 0
      ≠ (recovery_positions k blocks).getD 1 0 :=
    nodup_getD_ne _ hndR 0 1 (by omega) (by omega) (by omega)
  have hma := nodup_getD_ne (blocks.map Block.row) hnd
    ((recovery_positions k blocks).getD 0 0)
    ((recovery_positions k blocks).getD 1 0)
    (by rw [List.length_map, hlen]
        exact List.mem_range.mp (List.mem_filter.mp ha).1)
    (by rw [List.length_map, hlen]
        exact List.mem_range.mp (List.mem_filter.mp hb).1)
    hane
  apply hma
  rw [← row_getBlk_eq_rows_getD, ← row_getBlk_eq_rows_getD,
    row_k _ ha, row_k _ hb]

/-- Row ids produced by the unwindowed decode pipeline: the `i`-th recovery
block receives the `i`-th entry of the erasure list. -/
theorem decode_plain_path_rows (k s stride : Nat) (matrix : List Nat)
    (oIdx R E : List Nat) (blocks : List Block)
    (hnd : R.Nodup) (hb : ∀ r ∈ R, r < blocks.length)
    (i : Nat) (hi : i < R.length) :
    (getBlk (decode_plain_path k s stride matrix oIdx R E blocks)
      (R.getD i 0)).row = E.getD i 0 := by
  unfold decode_plain_path
  dsimp only
  generalize hst1 : (if oIdx.length ≠ 0 then
      eliminate_original s stride matrix oIdx R blocks else blocks) = st1
  have h1 : FrameOK R blocks st1 := by
    rw [← hst1]
    split
    · exact eliminate_original_pres s stride matrix oIdx R blocks blocks
        (FrameOK_refl R blocks)
    · exact FrameOK_refl R blocks
  have hb1 : ∀ r ∈ R, r < st1.length := by
    rw [FrameOK_length R blocks st1 h1]
    exact hb
  generalize hgb : generate_bitmatrix k R matrix stride E st1 = gb
  have hrow_gb : (getBlk gb.2.2 (R.getD i 0)).row = E.getD i 0 := by
    rw [← hgb]
    exact generate_bitmatrix_rows k R matrix stride E st1 hnd hb1 i hi
  generalize hge : gaussian_elimination R.length R gb.1 gb.2.1 s gb.2.2 = ge
  have hE : FrameOK R gb.2.2 ge.2 := by
    rw [← hge]
    exact gaussian_elimination_frame R.length R gb.1 gb.2.1 s gb.2.2 gb.2.2
      (Nat.le_refl _) (FrameOK_refl R gb.2.2)
  have hB : FrameOK R gb.2.2
      (back_substitution R.length R ge.1 gb.2.1 s ge.2) :=
    back_substitution_frame R.length R ge.1 gb.2.1 s gb.2.2 ge.2
      (Nat.le_refl _) hE
  rw [rows_map_eq_row _ _ hB.1 (R.getD i 0)]
  exact hrow_gb

/-- Row ids produced by the windowed decode pipeline. -/
theorem decode_win_path_rows (k s stride : Nat) (matrix : List Nat)
    (oIdx R E : List Nat) (blocks : List Block)
    (hnd : R.Nodup) (hb : ∀ r ∈ R, r < blocks.length) (h5 : 5 ≤ R.length)
    (i : Nat) (hi : i < R.length) :
    (getBlk (decode_win_path k s stride matrix oIdx R E blocks)
      (R.getD i 0)).row = E.getD i 0 := by
  unfold decode_win_path
  dsimp only
  generalize hst1 : (if oIdx.length ≠ 0 then
      win_original s stride matrix oIdx R blocks (List.replicate 22 [])
    else (blocks, List.replicate 22 [])) = st1
  have h1 : FrameOK R blocks st1.1 := by
    rw [← hst1]
    split
    · exact win_original_frame s stride matrix oIdx R blocks blocks _
        (FrameOK_refl R blocks)
    · exact FrameOK_refl R blocks
  have hb1 : ∀ r ∈ R, r < st1.1.length := by
    rw [FrameOK_length R blocks st1.1 h1]
    exact hb
  generalize hgb : generate_bitmatrix k R matrix stride E st1.1 = gb
  have hrow_gb : (getBlk gb.2.2 (R.getD i 0)).row = E.getD i 0 := by
    rw [← hgb]
    exact generate_bitmatrix_rows k R matrix stride E st1.1 hnd hb1 i hi
  generalize hge : win_gaussian_elimination R.length R gb.1 gb.2.1 s
    (gb.2.2, st1.2) = ge
  have hE : FrameOK R gb.2.2 ge.2.1 := by
    rw [← hge]
    exact win_gaussian_elimination_frame R.length R gb.1 gb.2.1 s gb.2.2
      (gb.2.2, st1.2) (Nat.le_refl _) h5 (FrameOK_refl R gb.2.2)
  have hB : FrameOK R gb.2.2
      (win_back_substitution R.length R ge.1 gb.2.1 s ge.2).1 :=
    win_back_substitution_frame R.length R ge.1 gb.2.1 s gb.2.2 ge.2
      (Nat.le_refl _) (by omega) hE
  rw [rows_map_eq_row _ _ hB.1 (R.getD i 0)]
  exact hrow_gb

/-- C9: every supplied block whose row id is an original position
(`row < k`) is returned completely unchanged by `cauchy_256_decode` -
payload bytes and row id; only blocks with recovery row ids are ever
written. -/
theorem C9_originals_untouched (k m block_bytes : Nat) (blocks : List Block)
    (j : Nat) (hj : (getBlk blocks j).row < k) :
    getBlk (cauchy_256_decode k m blocks block_bytes).2 j
      = getBlk blocks j := by
  unfold cauchy_256_decode
  split
  · rename_i hk1
    dsimp only
    rcases eq_or_ne j 0 with hj0 | hj0
    · subst hj0
      rcases Nat.lt_or_ge 0 blocks.length with hlen | hlen
      · rw [getBlk_setBlkRow_self blocks 0 0 hlen]
        have hrow : (getBlk blocks 0).row = 0 := by omega
        have hblk : getBlk blocks 0
            = ⟨(getBlk blocks 0).data, (getBlk blocks 0).row⟩ := rfl
        rw [hrow] at hblk
        exact hblk.symm
      · have hnil : blocks = [] := by
          cases blocks with
          | nil => rfl
          | cons a t => simp at hlen
        rw [hnil]
        rfl
    · rw [getBlk_setBlkRow_ne blocks 0 0 j hj0]
  · split
    · exact cauchy_decode_m1_frame k block_bytes blocks j hj
    · dsimp only
      have hnotin : j ∉ (sort_blocks k blocks).2.1 := by
        rw [sort_blocks_snd_eq]
        intro hmem
        have := (List.mem_filter.mp hmem).2
        simp at this
        omega
      split
      · rfl
      · split
        · rfl
        · split
          · rename_i hwin
            have h5 : 5 ≤ (sort_blocks k blocks).2.1.length := by
              have hthr : PRECOMP_TABLE_THRESH
                  < (sort_blocks k blocks).2.1.length := by
                simpa [decodeUsesWindow] using hwin
              unfold PRECOMP_TABLE_THRESH at hthr
              omega
            exact decode_win_path_frame k (block_bytes / 8)
              (cauchy_matrix k m).2 (cauchy_matrix k m).1
              (sort_blocks k blocks).1 (sort_blocks k blocks).2.1
              (sort_blocks k blocks).2.2 blocks j hnotin h5
          · exact decode_plain_path_frame k (block_bytes / 8)
              (cauchy_matrix k m).2 (cauchy_matrix k m).1
              (sort_blocks k blocks).1 (sort_blocks k blocks).2.1
              (sort_blocks k blocks).2.2 blocks j hnotin

/-- Witness for C9: decoding a concrete two-block instance (data block at
position 0, recovery block row 2 at position 1) leaves block 0 untouched. -/
theorem C9_witness :
    getBlk (cauchy_256_decode 2 2
      [⟨[1, 2, 3, 4, 5, 6, 7, 8], 0⟩,
       ⟨[9, 10, 11, 12, 13, 14, 15, 16], 2⟩] 8).2 0
      = getBlk [⟨[1, 2, 3, 4, 5, 6, 7, 8], 0⟩,
       ⟨[9, 10, 11, 12, 13, 14, 15, 16], 2⟩] 0 :=
  C9_originals_untouched 2 2 8
    [⟨[1, 2, 3, 4, 5, 6, 7, 8], 0⟩,
     ⟨[9, 10, 11, 12, 13, 14, 15, 16], 2⟩] 0 (by decide)

/-- C8: on a successful decode with `k >= 2` and at least one recovery block
supplied, the `i`-th recovery block (in input-descriptor order) has its row
id set to the `i`-th smallest original position absent from the supplied
original blocks: the final recovery row ids are exactly the erased original
positions in ascending order. -/
theorem C8_recovered_row_ids (k m block_bytes : Nat) (blocks : List Block)
    (hk : 2 ≤ k) (hm : 1 ≤ m) (hkm : k + m ≤ 256)
    (hbb : block_bytes % 8 = 0) (hlen : blocks.length = k)
    (hnd : (blocks.map Block.row).Nodup)
    (hrows : ∀ b ∈ blocks, b.row < k + m)
    (hrec : recovery_positions k blocks ≠ []) :
    (cauchy_256_decode k m blocks block_bytes).1 = 0 ∧
    ∀ i, i < (recovery_positions k blocks).length →
      (getBlk (cauchy_256_decode k m blocks block_bytes).2
        ((recovery_positions k blocks).getD i 0)).row
        = (erasedPositions k (blocks.map Block.row)).getD i 0 := by
  have hk256 : k ≤ 256 := by omega
  have hsb := sort_blocks_spec k blocks hk256 hlen
  have hndR : (recovery_positions k blocks).Nodup :=
    (List.nodup_range k).filter _
  have hbR : ∀ r ∈ recovery_positions k blocks, r < blocks.length := by
    intro r hr
    rw [hlen]
    exact List.mem_range.mp (List.mem_filter.mp hr).1
  unfold cauchy_256_decode
  rw [if_neg (by omega : ¬ k ≤ 1)]
  by_cases hm1 : m = 1
  · rw [if_pos hm1]
    refine ⟨rfl, ?_⟩
    intro i hi
    have hrows1 : ∀ b ∈ blocks, b.row < k + 1 := by
      intro b hb
      have := hrows b hb
      omega
    have hrc1 : (recovery_positions k blocks).length = 1 :=
      m1_recovery_count k blocks hlen hrows1 hnd hrec
    have hi0 : i = 0 := by omega
    subst hi0
    exact cauchy_decode_m1_spec k block_bytes blocks hk256 hlen hrec
  · rw [if_neg hm1]
    dsimp only
    rw [hsb.2.1]
    rw [if_neg (by
      intro h0
      exact hrec (List.length_eq_zero.mp h0))]
    rw [if_neg (by
      intro hbad
      rcases hbad with hbad | hbad
      · omega
      · exact hbad hbb)]
    split
    · rename_i hwin
      have h5 : 5 ≤ (recovery_positions k blocks).length := by
        have hthr : PRECOMP_TABLE_THRESH
            < (recovery_positions k blocks).length := by
          simpa [decodeUsesWindow] using hwin
        unfold PRECOMP_TABLE_THRESH at hthr
        omega
      refine ⟨rfl, ?_⟩
      intro i hi
      rw [decode_win_path_rows k (block_bytes / 8) (cauchy_matrix k m).2
        (cauchy_matrix k m).1 (sort_blocks k blocks).1
        (recovery_positions k blocks) (sort_blocks k blocks).2.2 blocks
        hndR hbR h5 i hi]
      exact hsb.2.2 i hi
    · refine ⟨rfl, ?_⟩
      intro i hi
      rw [decode_plain_path_rows k (block_bytes / 8) (cauchy_matrix k m).2
        (cauchy_matrix k m).1 (sort_blocks k blocks).1
        (recovery_positions k blocks) (sort_blocks k blocks).2.2 blocks
        hndR hbR i hi]
      exact hsb.2.2 i hi

/-- Witness for C8: on a concrete two-block instance (original row 0 present,
original row 1 erased, recovery block row 3 supplied at position 1) the
decode succeeds and the recovery block's row id becomes the erased
position. -/
theorem C8_witness :
    (cauchy_256_decode 2 2 [⟨[1, 2, 3, 4, 5, 6, 7, 8], 0⟩,
       ⟨[9, 10, 11, 12, 13, 14, 15, 16], 3⟩] 8).1 = 0 ∧
    ∀ i, i < (recovery_positions 2 [⟨[1, 2, 3, 4, 5, 6, 7, 8], 0⟩,
       ⟨[9, 10, 11, 12, 13, 14, 15, 16], 3⟩]).length →
      (getBlk (cauchy_256_decode 2 2 [⟨[1, 2, 3, 4, 5, 6, 7, 8], 0⟩,
        ⟨[9, 10, 11, 12, 13, 14, 15, 16], 3⟩] 8).2
        ((recovery_positions 2 [⟨[1, 2, 3, 4, 5, 6, 7, 8], 0⟩,
          ⟨[9, 10, 11, 12, 13, 14, 15, 16], 3⟩]).getD i 0)).row
        = (erasedPositions 2 ([⟨[1, 2, 3, 4, 5, 6, 7, 8], 0⟩,
            ⟨[9, 10, 11, 12, 13, 14, 15, 16], 3⟩].map Block.row)).getD i 0 :=
  C8_recovered_row_ids 2 2 8 [⟨[1, 2, 3, 4, 5, 6, 7, 8], 0⟩,
      ⟨[9, 10, 11, 12, 13, 14, 15, 16], 3⟩]
    (by decide) (by decide) (by decide) (by decide) (by decide) (by decide)
    (by decide) (by decide)

/-! ## GF(2)-linearity of the encoder: XOR-algebra of the buffer primitives -/

theorem zipXor_append (a b c d : List Nat) (h : a.length = b.length) :
    zipXor (a ++ c) (b ++ d) = zipXor a b ++ zipXor c d := by
  unfold zipXor
  exact List.zipWith_append _ a c b d h

theorem zipXor_exchange : ∀ (u w : List Nat), u.length = w.length →
    ∀ (v z : List Nat),
    zipXor (zipXor u v) (zipXor w z) = zipXor (zipXor u w) (zipXor v z) := by
  intro u
  induction u with
  | nil =>
    intro w hw v z
    have hwnil : w = [] := by
      cases w with
      | nil => rfl
      | cons x t => simp at hw
    subst hwnil
    simp [zipXor]
  | cons a u ih =>
    intro w hw v z
    cases w with
    | nil => simp at hw
    | cons b w =>
      cases v with
      | nil => simp [zipXor]
      | cons c v =>
        cases z with
        | nil => simp [zipXor]
        | cons d z =>
          simp only [zipXor, List.zipWith_cons_cons]
          congr 1
          · show (a ^^^ c) ^^^ (b ^^^ d) = (a ^^^ b) ^^^ (c ^^^ d)
            rw [Nat.xor_assoc, Nat.xor_assoc]
            congr 1
            rw [← Nat.xor_assoc, ← Nat.xor_assoc]
            congr 1
            exact Nat.xor_comm c b
          · have := ih w (by simpa using hw) v z
            simpa [zipXor] using this

theorem readSeg_zipXor (a b : List Nat) (off n : Nat) :
    readSeg (zipXor a b) off n = zipXor (readSeg a off n) (readSeg b off n) := by
  unfold readSeg
  rw [drop_zipXor, take_zipXor]

theorem zipXor_writeSeg (a b xs ys : List Nat) (off : Nat)
    (hab : a.length = b.length) (hxy : xs.length = ys.length) :
    zipXor (writeSeg a off xs) (writeSeg b off ys)
      = writeSeg (zipXor a b) off (zipXor xs ys) := by
  unfold writeSeg
  rw [zipXor_append _ _ _ _ (by simp [List.length_take, hab, hxy]),
    zipXor_append _ _ _ _ (by rw [List.length_take, List.length_take, hab]),
    take_zipXor, length_zipXor, ← hxy, Nat.min_self, drop_zipXor]

theorem length_writeSeg_pair (bP bQ xsP xsQ : List Nat) (off : Nat)
    (hb : bP.length = bQ.length) (hx : xsP.length = xsQ.length) :
    (writeSeg bP off xsP).length = (writeSeg bQ off xsQ).length := by
  unfold writeSeg
  simp [hb, hx]

theorem memxor_pair (aP aQ sP sQ : List Nat) (off n : Nat)
    (hab : aP.length = aQ.length) (hs : sP.length = sQ.length) :
    zipXor (memxor aP off sP n) (memxor aQ off sQ n)
      = memxor (zipXor aP aQ) off (zipXor sP sQ) n ∧
    (memxor aP off sP n).length = (memxor aQ off sQ n).length := by
  have hxy : (zipXor (readSeg aP off n) (sP.take n)).length
      = (zipXor (readSeg aQ off n) (sQ.take n)).length := by
    rw [length_zipXor, length_zipXor, length_readSeg, length_readSeg,
      List.length_take, List.length_take, hab, hs]
  constructor
  · unfold memxor
    rw [zipXor_writeSeg _ _ _ _ off hab hxy]
    congr 1
    rw [zipXor_exchange (readSeg aP off n) (readSeg aQ off n)
      (by rw [length_readSeg, length_readSeg, hab]) (sP.take n) (sQ.take n),
      ← readSeg_zipXor, ← take_zipXor]
  · unfold memxor
    exact length_writeSeg_pair _ _ _ _ off hab hxy

theorem memxor_set_pair (dP dQ aP aQ bP bQ : List Nat) (off n : Nat)
    (hd : dP.length = dQ.length) (ha : aP.length = aQ.length)
    (hb : bP.length = bQ.length) :
    zipXor (memxor_set dP off aP bP n) (memxor_set dQ off aQ bQ n)
      = memxor_set (zipXor dP dQ) off (zipXor aP aQ) (zipXor bP bQ) n ∧
    (memxor_set dP off aP bP n).length
      = (memxor_set dQ off aQ bQ n).length := by
  have hxy : (zipXor (aP.take n) (bP.take n)).length
      = (zipXor (aQ.take n) (bQ.take n)).length := by
    rw [length_zipXor, length_zipXor, List.length_take, List.length_take,
      List.length_take, List.length_take, ha, hb]
  constructor
  · unfold memxor_set
    rw [zipXor_writeSeg _ _ _ _ off hd hxy]
    congr 1
    rw [zipXor_exchange (aP.take n) (aQ.take n)
      (by rw [List.length_take, List.length_take, ha]) (bP.take n) (bQ.take n),
      ← take_zipXor, ← take_zipXor]
  · unfold memxor_set
    exact length_writeSeg_pair _ _ _ _ off hd hxy

theorem memxor_add_pair (dP dQ aP aQ bP bQ : List Nat) (off n : Nat)
    (hd : dP.length = dQ.length) (ha : aP.length = aQ.length)
    (hb : bP.length = bQ.length) :
    zipXor (memxor_add dP off aP bP n) (memxor_add dQ off aQ bQ n)
      = memxor_add (zipXor dP dQ) off (zipXor aP aQ) (zipXor bP bQ) n ∧
    (memxor_add dP off aP bP n).length
      = (memxor_add dQ off aQ bQ n).length := by
  have hsrc : (zipXor (aP.take n) (bP.take n)).length
      = (zipXor (aQ.take n) (bQ.take n)).length := by
    rw [length_zipXor, length_zipXor, List.length_take, List.length_take,
      List.length_take, List.length_take, ha, hb]
  have hmx := memxor_pair dP dQ (zipXor (aP.take n) (bP.take n))
    (zipXor (aQ.take n) (bQ.take n)) off n hd hsrc
  constructor
  · unfold memxor_add
    rw [hmx.1]
    congr 1
    rw [zipXor_exchange (aP.take n) (aQ.take n)
      (by rw [List.length_take, List.length_take, ha]) (bP.take n) (bQ.take n),
      ← take_zipXor, ← take_zipXor]
  · unfold memxor_add
    exact hmx.2

theorem getD_eq_default_of_le {α : Type} (l : List α) (i : Nat) (d : α)
    (h : l.length ≤ i) : l.getD i d = d := by
  rw [List.getD_eq_getElem?_getD, List.getElem?_eq_none h]
  rfl

theorem zipXor_replicate_zero (n : Nat) :
    zipXor (List.replicate n 0) (List.replicate n 0) = List.replicate n 0 := by
  induction n with
  | zero => rfl
  | succ n ih =>
    simp only [List.replicate_succ, zipXor, List.zipWith_cons_cons]
    simp only [zipXor] at ih
    rw [ih]
    rfl

theorem getD_zipWith_zipXor (a b : List (List Nat))
    (h : a.length = b.length) (i : Nat) :
    (List.zipWith zipXor a b).getD i [] = zipXor (a.getD i []) (b.getD i []) := by
  rcases Nat.lt_or_ge i a.length with hi | hi
  · rw [List.getD_eq_getElem?_getD,
      List.getElem?_eq_getElem (by rw [List.length_zipWith]; omega),
      List.getD_eq_getElem?_getD, List.getElem?_eq_getElem hi,
      List.getD_eq_getElem?_getD, List.getElem?_eq_getElem (by omega)]
    simp [List.getElem_zipWith]
  · rw [List.getD_eq_getElem?_getD,
      List.getElem?_eq_none (by rw [List.length_zipWith]; omega),
      List.getD_eq_getElem?_getD, List.getElem?_eq_none hi,
      List.getD_eq_getElem?_getD, List.getElem?_eq_none (by omega)]
    simp [zipXor]

theorem zipWith_zipXor_set : ∀ (a b : List (List Nat)) (i : Nat)
    (vP vQ : List Nat), a.length = b.length →
    List.zipWith zipXor (a.set i vP) (b.set i vQ)
      = (List.zipWith zipXor a b).set i (zipXor vP vQ) := by
  intro a
  induction a with
  | nil =>
    intro b i vP vQ h
    have hbnil : b = [] := by
      cases b with
      | nil => rfl
      | cons x t => simp at h
    subst hbnil
    simp
  | cons x t ih =>
    intro b i vP vQ h
    cases b with
    | nil => simp at h
    | cons y u =>
      cases i with
      | zero => simp [List.set_cons_zero]
      | succ i =>
        simp only [List.set_cons_succ, List.zipWith_cons_cons]
        rw [ih u i vP vQ (by simpa using h)]

/-! ## Linearity of the unwindowed encoder loops -/

theorem slice_bitx_fold_pair (s : Nat) (srcP srcQ : List Nat)
    (slice dOff : Nat) (hsrc : srcP.length = srcQ.length) :
    ∀ (l : List Nat) (bufP bufQ : List Nat), bufP.length = bufQ.length →
    (zipXor
        (l.foldl (fun b bx => if slice &&& (1 <<< bx) ≠ 0 then
          memxor b dOff (readSeg srcP (bx * s) s) s else b) bufP)
        (l.foldl (fun b bx => if slice &&& (1 <<< bx) ≠ 0 then
          memxor b dOff (readSeg srcQ (bx * s) s) s else b) bufQ)
      = l.foldl (fun b bx => if slice &&& (1 <<< bx) ≠ 0 then
          memxor b dOff (readSeg (zipXor srcP srcQ) (bx * s) s) s else b)
          (zipXor bufP bufQ)) ∧
    (l.foldl (fun b bx => if slice &&& (1 <<< bx) ≠ 0 then
          memxor b dOff (readSeg srcP (bx * s) s) s else b) bufP).length
      = (l.foldl (fun b bx => if slice &&& (1 <<< bx) ≠ 0 then
          memxor b dOff (readSeg srcQ (bx * s) s) s else b) bufQ).length := by
  intro l
  induction l with
  | nil =>
    intro bufP bufQ hbuf
    exact ⟨rfl, hbuf⟩
  | cons bx t ih =>
    intro bufP bufQ hbuf
    rw [List.foldl_cons, List.foldl_cons, List.foldl_cons]
    by_cases hc : slice &&& (1 <<< bx) ≠ 0
    · rw [if_pos hc, if_pos hc, if_pos hc]
      have hrlen : (readSeg srcP (bx * s) s).length
          = (readSeg srcQ (bx * s) s).length := by
        rw [length_readSeg, length_readSeg, hsrc]
      have hmx := memxor_pair bufP bufQ _ _ dOff s hbuf hrlen
      have hih := ih (memxor bufP dOff (readSeg srcP (bx * s) s) s)
        (memxor bufQ dOff (readSeg srcQ (bx * s) s) s) hmx.2
      refine ⟨?_, hih.2⟩
      rw [hih.1, hmx.1, ← readSeg_zipXor]
    · rw [if_neg hc, if_neg hc, if_neg hc]
      exact ih bufP bufQ hbuf

theorem slice_bitx_loop_pair (s : Nat) (srcP srcQ : List Nat)
    (slice : Nat) (bufP bufQ : List Nat) (dOff : Nat)
    (hsrc : srcP.length = srcQ.length) (hbuf : bufP.length = bufQ.length) :
    zipXor (slice_bitx_loop s srcP slice bufP dOff)
        (slice_bitx_loop s srcQ slice bufQ dOff)
      = slice_bitx_loop s (zipXor srcP srcQ) slice (zipXor bufP bufQ) dOff ∧
    (slice_bitx_loop s srcP slice bufP dOff).length
      = (slice_bitx_loop s srcQ slice bufQ dOff).length := by
  unfold slice_bitx_loop
  exact slice_bitx_fold_pair s srcP srcQ slice dOff hsrc (List.range 8)
    bufP bufQ hbuf

theorem slice_bity_fold_pair (s : Nat) (srcP srcQ : List Nat) (dOff0 : Nat)
    (hsrc : srcP.length = srcQ.length) :
    ∀ (l : List Nat) (bufP bufQ : List Nat) (slice : Nat),
    bufP.length = bufQ.length →
    (zipXor
        (l.foldl (fun st bit_y => (slice_bitx_loop s srcP st.2 st.1
          (dOff0 + bit_y * s), GFC256Multiply st.2 2)) (bufP, slice)).1
        (l.foldl (fun st bit_y => (slice_bitx_loop s srcQ st.2 st.1
          (dOff0 + bit_y * s), GFC256Multiply st.2 2)) (bufQ, slice)).1
      = (l.foldl (fun st bit_y => (slice_bitx_loop s (zipXor srcP srcQ)
          st.2 st.1 (dOff0 + bit_y * s), GFC256Multiply st.2 2))
          (zipXor bufP bufQ, slice)).1) ∧
    (l.foldl (fun st bit_y => (slice_bitx_loop s srcP st.2 st.1
        (dOff0 + bit_y * s), GFC256Multiply st.2 2)) (bufP, slice)).1.length
      = (l.foldl (fun st bit_y => (slice_bitx_loop s srcQ st.2 st.1
        (dOff0 + bit_y * s), GFC256Multiply st.2 2)) (bufQ, slice)).1.length := by
  intro l
  induction l with
  | nil =>
    intro bufP bufQ slice hbuf
    exact ⟨rfl, hbuf⟩
  | cons bity t ih =>
    intro bufP bufQ slice hbuf
    rw [List.foldl_cons, List.foldl_cons, List.foldl_cons]
    have hbx := slice_bitx_loop_pair s srcP srcQ slice bufP bufQ
      (dOff0 + bity * s) hsrc hbuf
    have hih := ih (slice_bitx_loop s srcP slice bufP (dOff0 + bity * s))
      (slice_bitx_loop s srcQ slice bufQ (dOff0 + bity * s))
      (GFC256Multiply slice 2) hbx.2
    refine ⟨?_, hih.2⟩
    rw [hih.1, hbx.1]

theorem slice_bity_loop_pair (s : Nat) (srcP srcQ : List Nat)
    (slice : Nat) (bufP bufQ : List Nat) (dOff0 : Nat)
    (hsrc : srcP.length = srcQ.length) (hbuf : bufP.length = bufQ.length) :
    zipXor (slice_bity_loop s srcP slice bufP dOff0)
        (slice_bity_loop s srcQ slice bufQ dOff0)
      = slice_bity_loop s (zipXor srcP srcQ) slice (zipXor bufP bufQ) dOff0 ∧
    (slice_bity_loop s srcP slice bufP dOff0).length
      = (slice_bity_loop s srcQ slice bufQ dOff0).length := by
  unfold slice_bity_loop
  exact slice_bity_fold_pair s srcP srcQ dOff0 hsrc (List.range 8)
    bufP bufQ slice hbuf

theorem encode_col_fold_pair (s stride y : Nat) (matrix : List Nat)
    (dataP dataQ : List (List Nat)) (hdl : dataP.length = dataQ.length)
    (hplen : ∀ i, (dataP.getD i []).length = (dataQ.getD i []).length) :
    ∀ (l : List Nat) (bufP bufQ : List Nat), bufP.length = bufQ.length →
    (zipXor
        (l.foldl (fun b x => slice_bity_loop s (dataP.getD x [])
          (matrix.getD ((y - 1) * stride + x) 0) b (y * 8 * s)) bufP)
        (l.foldl (fun b x => slice_bity_loop s (dataQ.getD x [])
          (matrix.getD ((y - 1) * stride + x) 0) b (y * 8 * s)) bufQ)
      = l.foldl (fun b x => slice_bity_loop s
          ((List.zipWith zipXor dataP dataQ).getD x [])
          (matrix.getD ((y - 1) * stride + x) 0) b (y * 8 * s))
          (zipXor bufP bufQ)) ∧
    (l.foldl (fun b x => slice_bity_loop s (dataP.getD x [])
        (matrix.getD ((y - 1) * stride + x) 0) b (y * 8 * s)) bufP).length
      = (l.foldl (fun b x => slice_bity_loop s (dataQ.getD x [])
        (matrix.getD ((y - 1) * stride + x) 0) b (y * 8 * s)) bufQ).length := by
  intro l
  induction l with
  | nil =>
    intro bufP bufQ hbuf
    exact ⟨rfl, hbuf⟩
  | cons x t ih =>
    intro bufP bufQ hbuf
    rw [List.foldl_cons, List.foldl_cons, List.foldl_cons]
    have hby := slice_bity_loop_pair s (dataP.getD x []) (dataQ.getD x [])
      (matrix.getD ((y - 1) * stride + x) 0) bufP bufQ (y * 8 * s)
      (hplen x) hbuf
    have hih := ih _ _ hby.2
    refine ⟨?_, hih.2⟩
    rw [hih.1, hby.1, getD_zipWith_zipXor dataP dataQ hdl x]

theorem encode_col_loop_pair (k s stride : Nat) (matrix : List Nat)
    (dataP dataQ : List (List Nat)) (y : Nat) (bufP bufQ : List Nat)
    (hdl : dataP.length = dataQ.length)
    (hplen : ∀ i, (dataP.getD i []).length = (dataQ.getD i []).length)
    (hbuf : bufP.length = bufQ.length) :
    zipXor (encode_col_loop k s stride dataP matrix y bufP)
        (encode_col_loop k s stride dataQ matrix y bufQ)
      = encode_col_loop k s stride (List.zipWith zipXor dataP dataQ) matrix y
          (zipXor bufP bufQ) ∧
    (encode_col_loop k s stride dataP matrix y bufP).length
      = (encode_col_loop k s stride dataQ matrix y bufQ).length := by
  unfold encode_col_loop
  exact encode_col_fold_pair s stride y matrix dataP dataQ hdl hplen
    (List.range k) bufP bufQ hbuf

theorem encode_row_fold_pair (k s stride : Nat) (matrix : List Nat)
    (dataP dataQ : List (List Nat)) (hdl : dataP.length = dataQ.length)
    (hplen : ∀ i, (dataP.getD i []).length = (dataQ.getD i []).length) :
    ∀ (l : List Nat) (bufP bufQ : List Nat), bufP.length = bufQ.length →
    (zipXor
        (l.foldl (fun b y0 => encode_col_loop k s stride dataP matrix
          (y0 + 1) b) bufP)
        (l.foldl (fun b y0 => encode_col_loop k s stride dataQ matrix
          (y0 + 1) b) bufQ)
      = l.foldl (fun b y0 => encode_col_loop k s stride
          (List.zipWith zipXor dataP dataQ) matrix (y0 + 1) b)
          (zipXor bufP bufQ)) ∧
    (l.foldl (fun b y0 => encode_col_loop k s stride dataP matrix
        (y0 + 1) b) bufP).length
      = (l.foldl (fun b y0 => encode_col_loop k s stride dataQ matrix
        (y0 + 1) b) bufQ).length := by
  intro l
  induction l with
  | nil =>
    intro bufP bufQ hbuf
    exact ⟨rfl, hbuf⟩
  | cons y0 t ih =>
    intro bufP bufQ hbuf
    rw [List.foldl_cons, List.foldl_cons, List.foldl_cons]
    have hcol := encode_col_loop_pair k s stride matrix dataP dataQ (y0 + 1)
      bufP bufQ hdl hplen hbuf
    have hih := ih _ _ hcol.2
    refine ⟨?_, hih.2⟩
    rw [hih.1, hcol.1]

theorem encode_row_loop_pair (k m s stride : Nat) (matrix : List Nat)
    (dataP dataQ : List (List Nat)) (bufP bufQ : List Nat)
    (hdl : dataP.length = dataQ.length)
    (hplen : ∀ i, (dataP.getD i []).length = (dataQ.getD i []).length)
    (hbuf : bufP.length = bufQ.length) :
    zipXor (encode_row_loop k m s stride dataP matrix bufP)
        (encode_row_loop k m s stride dataQ matrix bufQ)
      = encode_row_loop k m s stride (List.zipWith zipXor dataP dataQ)
          matrix (zipXor bufP bufQ) ∧
    (encode_row_loop k m s stride dataP matrix bufP).length
      = (encode_row_loop k m s stride dataQ matrix bufQ).length := by
  unfold encode_row_loop
  exact encode_row_fold_pair k s stride matrix dataP dataQ hdl hplen
    (List.range (m - 1)) bufP bufQ hbuf

/-! ## Linearity of the windowed encoder -/

theorem zipXor_exchange_free : ∀ (u w v z : List Nat),
    zipXor (zipXor u v) (zipXor w z) = zipXor (zipXor u w) (zipXor v z) := by
  intro u
  induction u with
  | nil =>
    intro w v z
    simp [zipXor]
  | cons a u ih =>
    intro w v z
    cases w with
    | nil => simp [zipXor]
    | cons b w =>
      cases v with
      | nil => simp [zipXor]
      | cons c v =>
        cases z with
        | nil => simp [zipXor]
        | cons d z =>
          simp only [zipXor, List.zipWith_cons_cons]
          congr 1
          · show (a ^^^ c) ^^^ (b ^^^ d) = (a ^^^ b) ^^^ (c ^^^ d)
            rw [Nat.xor_assoc, Nat.xor_assoc]
            congr 1
            rw [← Nat.xor_assoc, ← Nat.xor_assoc]
            congr 1
            exact Nat.xor_comm c b
          · have := ih w v z
            simpa [zipXor] using this

theorem zipWith_zipXor_replicate_nil (n : Nat) :
    List.zipWith zipXor (List.replicate n ([] : List Nat))
      (List.replicate n ([] : List Nat)) = List.replicate n [] := by
  induction n with
  | zero => rfl
  | succ n ih =>
    simp only [List.replicate_succ, List.zipWith_cons_cons]
    rw [ih]
    rfl

theorem winRead_pair (s : Nat) (srcP srcQ : List Nat)
    (scP scQ : List (List Nat)) (t e : Nat)
    (hsrc : srcP.length = srcQ.length) (hsl : scP.length = scQ.length)
    (hslot : ∀ i, (scP.getD i []).length = (scQ.getD i []).length) :
    (winRead s srcP scP t e).length = (winRead s srcQ scQ t e).length ∧
    winRead s (zipXor srcP srcQ) (List.zipWith zipXor scP scQ) t e
      = zipXor (winRead s srcP scP t e) (winRead s srcQ scQ t e) := by
  unfold winRead
  split
  · exact ⟨rfl, rfl⟩
  · split
    · exact ⟨by rw [length_readSeg, length_readSeg, hsrc],
        readSeg_zipXor _ _ _ _⟩
    · split
      · exact ⟨by rw [length_readSeg, length_readSeg, hsrc],
          readSeg_zipXor _ _ _ _⟩
      · split
        · exact ⟨by rw [length_readSeg, length_readSeg, hsrc],
            readSeg_zipXor _ _ _ _⟩
        · split
          · exact ⟨by rw [length_readSeg, length_readSeg, hsrc],
              readSeg_zipXor _ _ _ _⟩
          · exact ⟨hslot _, getD_zipWith_zipXor scP scQ hsl _⟩

theorem winFillStep_pair (s : Nat) (srcP srcQ : List Nat) (t : Nat)
    (scP scQ : List (List Nat)) (e a b : Nat)
    (hsrc : srcP.length = srcQ.length) (hsl : scP.length = scQ.length)
    (hslot : ∀ i, (scP.getD i []).length = (scQ.getD i []).length) :
    (winFillStep s srcP t scP e a b).length
      = (winFillStep s srcQ t scQ e a b).length ∧
    (∀ i, ((winFillStep s srcP t scP e a b).getD i []).length
      = ((winFillStep s srcQ t scQ e a b).getD i []).length) ∧
    winFillStep s (zipXor srcP srcQ) t (List.zipWith zipXor scP scQ) e a b
      = List.zipWith zipXor (winFillStep s srcP t scP e a b)
          (winFillStep s srcQ t scQ e a b) := by
  have hra := winRead_pair s srcP srcQ scP scQ t a hsrc hsl hslot
  have hrb := winRead_pair s srcP srcQ scP scQ t b hsrc hsl hslot
  unfold winFillStep
  refine ⟨?_, ?_, ?_⟩
  · rw [List.length_set, List.length_set, hsl]
  · intro i
    rcases Nat.lt_or_ge (t * 11 + winSlot e) scP.length with hidx | hidx
    · by_cases hi : t * 11 + winSlot e = i
      · subst hi
        rw [getD_set_self_any _ _ _ _ hidx,
          getD_set_self_any _ _ _ _ (by omega)]
        rw [length_zipXor, length_zipXor, List.length_take,
          List.length_take, List.length_take, List.length_take,
          hra.1, hrb.1]
      · rw [getD_set_ne_any _ _ _ _ _ hi, getD_set_ne_any _ _ _ _ _ hi]
        exact hslot i
    · rw [List.set_eq_of_length_le hidx,
        List.set_eq_of_length_le (by omega)]
      exact hslot i
  · rw [zipWith_zipXor_set scP scQ _ _ _ hsl]
    congr 1
    rw [hra.2, hrb.2, take_zipXor, take_zipXor,
      zipXor_exchange_free ((winRead s srcP scP t a).take s)
        ((winRead s srcQ scQ t a).take s)
        ((winRead s srcP scP t b).take s)
        ((winRead s srcQ scQ t b).take s)]

theorem winFill_fold_pair (s : Nat) (srcP srcQ : List Nat) (t : Nat)
    (hsrc : srcP.length = srcQ.length) :
    ∀ (steps : List (Nat × Nat × Nat)) (scP scQ : List (List Nat)),
    scP.length = scQ.length →
    (∀ i, (scP.getD i []).length = (scQ.getD i []).length) →
    ((steps.foldl (fun sc p => winFillStep s srcP t sc p.1 p.2.1 p.2.2)
        scP).length
      = (steps.foldl (fun sc p => winFillStep s srcQ t sc p.1 p.2.1 p.2.2)
        scQ).length) ∧
    (∀ i, ((steps.foldl (fun sc p => winFillStep s srcP t sc p.1 p.2.1 p.2.2)
        scP).getD i []).length
      = ((steps.foldl (fun sc p => winFillStep s srcQ t sc p.1 p.2.1 p.2.2)
        scQ).getD i []).length) ∧
    steps.foldl (fun sc p => winFillStep s (zipXor srcP srcQ) t sc
        p.1 p.2.1 p.2.2) (List.zipWith zipXor scP scQ)
      = List.zipWith zipXor
          (steps.foldl (fun sc p => winFillStep s srcP t sc p.1 p.2.1 p.2.2)
            scP)
          (steps.foldl (fun sc p => winFillStep s srcQ t sc p.1 p.2.1 p.2.2)
            scQ) := by
  intro steps
  induction steps with
  | nil =>
    intro scP scQ hsl hslot
    exact ⟨hsl, hslot, rfl⟩
  | cons p rest ih =>
    intro scP scQ hsl hslot
    rw [List.foldl_cons, List.foldl_cons, List.foldl_cons]
    have hstep := winFillStep_pair s srcP srcQ t scP scQ p.1 p.2.1 p.2.2
      hsrc hsl hslot
    have hih := ih _ _ hstep.1 hstep.2.1
    refine ⟨hih.1, hih.2.1, ?_⟩
    rw [hstep.2.2, hih.2.2]

theorem winFillTable_pair (s : Nat) (srcP srcQ : List Nat) (t : Nat)
    (scP scQ : List (List Nat)) (hsrc : srcP.length = srcQ.length)
    (hsl : scP.length = scQ.length)
    (hslot : ∀ i, (scP.getD i []).length = (scQ.getD i []).length) :
    (winFillTable s srcP t scP).length
      = (winFillTable s srcQ t scQ).length ∧
    (∀ i, ((winFillTable s srcP t scP).getD i []).length
      = ((winFillTable s srcQ t scQ).getD i []).length) ∧
    winFillTable s (zipXor srcP srcQ) t (List.zipWith zipXor scP scQ)
      = List.zipWith zipXor (winFillTable s srcP t scP)
          (winFillTable s srcQ t scQ) :=
  winFill_fold_pair s srcP srcQ t hsrc
    [(3, 1, 2), (6, 2, 4), (5, 1, 4), (7, 1, 6), (9, 1, 8), (12, 4, 8),
     (10, 2, 8), (11, 3, 8), (13, 1, 12), (14, 2, 12), (15, 3, 12)]
    scP scQ hsl hslot

theorem winFillTables_pair (s : Nat) (srcP srcQ : List Nat)
    (scP scQ : List (List Nat)) (hsrc : srcP.length = srcQ.length)
    (hsl : scP.length = scQ.length)
    (hslot : ∀ i, (scP.getD i []).length = (scQ.getD i []).length) :
    (winFillTables s srcP scP).length
      = (winFillTables s srcQ scQ).length ∧
    (∀ i, ((winFillTables s srcP scP).getD i []).length
      = ((winFillTables s srcQ scQ).getD i []).length) ∧
    winFillTables s (zipXor srcP srcQ) (List.zipWith zipXor scP scQ)
      = List.zipWith zipXor (winFillTables s srcP scP)
          (winFillTables s srcQ scQ) := by
  unfold winFillTables
  have h0 := winFillTable_pair s srcP srcQ 0 scP scQ hsrc hsl hslot
  have h1 := winFillTable_pair s srcP srcQ 1 (winFillTable s srcP 0 scP)
    (winFillTable s srcQ 0 scQ) hsrc h0.1 h0.2.1
  refine ⟨h1.1, h1.2.1, ?_⟩
  rw [h0.2.2, h1.2.2]

theorem winApplySlice_pair (s : Nat) (srcP srcQ : List Nat)
    (scP scQ : List (List Nat)) (slice : Nat) (bufP bufQ : List Nat)
    (dOff : Nat) (hsrc : srcP.length = srcQ.length)
    (hsl : scP.length = scQ.length)
    (hslot : ∀ i, (scP.getD i []).length = (scQ.getD i []).length)
    (hbuf : bufP.length = bufQ.length) :
    zipXor (winApplySlice s srcP scP slice bufP dOff)
        (winApplySlice s srcQ scQ slice bufQ dOff)
      = winApplySlice s (zipXor srcP srcQ) (List.zipWith zipXor scP scQ)
          slice (zipXor bufP bufQ) dOff ∧
    (winApplySlice s srcP scP slice bufP dOff).length
      = (winApplySlice s srcQ scQ slice bufQ dOff).length := by
  have hrl := winRead_pair s srcP srcQ scP scQ 0 (slice &&& 15) hsrc hsl hslot
  have hrh := winRead_pair s srcP srcQ scP scQ 1 (slice >>> 4) hsrc hsl hslot
  unfold winApplySlice
  dsimp only
  split
  · have hmx := memxor_add_pair bufP bufQ _ _ _ _ dOff s hbuf hrl.1 hrh.1
    refine ⟨?_, hmx.2⟩
    rw [hmx.1, ← hrl.2, ← hrh.2]
  · split
    · have hmx := memxor_pair bufP bufQ _ _ dOff s hbuf hrl.1
      refine ⟨?_, hmx.2⟩
      rw [hmx.1, ← hrl.2]
    · have hmx := memxor_pair bufP bufQ _ _ dOff s hbuf hrh.1
      refine ⟨?_, hmx.2⟩
      rw [hmx.1, ← hrh.2]

theorem winApply8_fold_pair (s : Nat) (srcP srcQ : List Nat)
    (scP scQ : List (List Nat)) (dOff0 : Nat)
    (hsrc : srcP.length = srcQ.length) (hsl : scP.length = scQ.length)
    (hslot : ∀ i, (scP.getD i []).length = (scQ.getD i []).length) :
    ∀ (l : List Nat) (bufP bufQ : List Nat) (slice : Nat),
    bufP.length = bufQ.length →
    (zipXor
        (l.foldl (fun st bit_y => (winApplySlice s srcP scP st.2 st.1
          (dOff0 + bit_y * s), GFC256Multiply st.2 2)) (bufP, slice)).1
        (l.foldl (fun st bit_y => (winApplySlice s srcQ scQ st.2 st.1
          (dOff0 + bit_y * s), GFC256Multiply st.2 2)) (bufQ, slice)).1
      = (l.foldl (fun st bit_y => (winApplySlice s (zipXor srcP srcQ)
          (List.zipWith zipXor scP scQ) st.2 st.1
          (dOff0 + bit_y * s), GFC256Multiply st.2 2))
          (zipXor bufP bufQ, slice)).1) ∧
    (l.foldl (fun st bit_y => (winApplySlice s srcP scP st.2 st.1
        (dOff0 + bit_y * s), GFC256Multiply st.2 2)) (bufP, slice)).1.length
      = (l.foldl (fun st bit_y => (winApplySlice s srcQ scQ st.2 st.1
        (dOff0 + bit_y * s), GFC256Multiply st.2 2)) (bufQ, slice)).1.length := by
  intro l
  induction l with
  | nil =>
    intro bufP bufQ slice hbuf
    exact ⟨rfl, hbuf⟩
  | cons bity t ih =>
    intro bufP bufQ slice hbuf
    rw [List.foldl_cons, List.foldl_cons, List.foldl_cons]
    have hap := winApplySlice_pair s srcP srcQ scP scQ slice bufP bufQ
      (dOff0 + bity * s) hsrc hsl hslot hbuf
    have hih := ih _ _ (GFC256Multiply slice 2) hap.2
    refine ⟨?_, hih.2⟩
    rw [hih.1, hap.1]

theorem winApply8_pair (s : Nat) (srcP srcQ : List Nat)
    (scP scQ : List (List Nat)) (slice : Nat) (bufP bufQ : List Nat)
    (dOff0 : Nat) (hsrc : srcP.length = srcQ.length)
    (hsl : scP.length = scQ.length)
    (hslot : ∀ i, (scP.getD i []).length = (scQ.getD i []).length)
    (hbuf : bufP.length = bufQ.length) :
    zipXor (winApply8 s srcP scP slice bufP dOff0)
        (winApply8 s srcQ scQ slice bufQ dOff0)
      = winApply8 s (zipXor srcP srcQ) (List.zipWith zipXor scP scQ)
          slice (zipXor bufP bufQ) dOff0 ∧
    (winApply8 s srcP scP slice bufP dOff0).length
      = (winApply8 s srcQ scQ slice bufQ dOff0).length := by
  unfold winApply8
  exact winApply8_fold_pair s srcP srcQ scP scQ dOff0 hsrc hsl hslot
    (List.range 8) bufP bufQ slice hbuf

theorem win_encode_rows_fold_pair (s stride x : Nat) (matrix : List Nat)
    (srcP srcQ : List Nat) (scP scQ : List (List Nat))
    (hsrc : srcP.length = srcQ.length) (hsl : scP.length = scQ.length)
    (hslot : ∀ i, (scP.getD i []).length = (scQ.getD i []).length) :
    ∀ (l : List Nat) (bufP bufQ : List Nat), bufP.length = bufQ.length →
    (zipXor
        (l.foldl (fun b y0 => winApply8 s srcP scP
          (matrix.getD (y0 * stride + x) 0) b ((y0 + 1) * 8 * s)) bufP)
        (l.foldl (fun b y0 => winApply8 s srcQ scQ
          (matrix.getD (y0 * stride + x) 0) b ((y0 + 1) * 8 * s)) bufQ)
      = l.foldl (fun b y0 => winApply8 s (zipXor srcP srcQ)
          (List.zipWith zipXor scP scQ)
          (matrix.getD (y0 * stride + x) 0) b ((y0 + 1) * 8 * s))
          (zipXor bufP bufQ)) ∧
    (l.foldl (fun b y0 => winApply8 s srcP scP
        (matrix.getD (y0 * stride + x) 0) b ((y0 + 1) * 8 * s)) bufP).length
      = (l.foldl (fun b y0 => winApply8 s srcQ scQ
        (matrix.getD (y0 * stride + x) 0) b ((y0 + 1) * 8 * s)) bufQ).length := by
  intro l
  induction l with
  | nil =>
    intro bufP bufQ hbuf
    exact ⟨rfl, hbuf⟩
  | cons y0 t ih =>
    intro bufP bufQ hbuf
    rw [List.foldl_cons, List.foldl_cons, List.foldl_cons]
    have hap := winApply8_pair s srcP srcQ scP scQ
      (matrix.getD (y0 * stride + x) 0) bufP bufQ ((y0 + 1) * 8 * s)
      hsrc hsl hslot hbuf
    have hih := ih _ _ hap.2
    refine ⟨?_, hih.2⟩
    rw [hih.1, hap.1]

theorem win_encode_rows_pair (m s stride : Nat) (matrix : List Nat)
    (x : Nat) (srcP srcQ : List Nat) (scP scQ : List (List Nat))
    (bufP bufQ : List Nat) (hsrc : srcP.length = srcQ.length)
    (hsl : scP.length = scQ.length)
    (hslot : ∀ i, (scP.getD i []).length = (scQ.getD i []).length)
    (hbuf : bufP.length = bufQ.length) :
    zipXor (win_encode_rows m s stride matrix x srcP scP bufP)
        (win_encode_rows m s stride matrix x srcQ scQ bufQ)
      = win_encode_rows m s stride matrix x (zipXor srcP srcQ)
          (List.zipWith zipXor scP scQ) (zipXor bufP bufQ) ∧
    (win_encode_rows m s stride matrix x srcP scP bufP).length
      = (win_encode_rows m s stride matrix x srcQ scQ bufQ).length := by
  unfold win_encode_rows
  exact win_encode_rows_fold_pair s stride x matrix srcP srcQ scP scQ
    hsrc hsl hslot (List.range (m - 1)) bufP bufQ hbuf

theorem win_encode_fold_pair (m s stride : Nat) (matrix : List Nat)
    (dataP dataQ : List (List Nat)) (hdl : dataP.length = dataQ.length)
    (hplen : ∀ i, (dataP.getD i []).length = (dataQ.getD i []).length) :
    ∀ (l : List Nat) (bufP bufQ : List Nat) (scP scQ : List (List Nat)),
    bufP.length = bufQ.length → scP.length = scQ.length →
    (∀ i, (scP.getD i []).length = (scQ.getD i []).length) →
    (zipXor
        (l.foldl (fun (st : List Nat × List (List Nat)) x =>
          (win_encode_rows m s stride matrix x (dataP.getD x [])
            (winFillTables s (dataP.getD x []) st.2) st.1,
           winFillTables s (dataP.getD x []) st.2)) (bufP, scP)).1
        (l.foldl (fun (st : List Nat × List (List Nat)) x =>
          (win_encode_rows m s stride matrix x (dataQ.getD x [])
            (winFillTables s (dataQ.getD x []) st.2) st.1,
           winFillTables s (dataQ.getD x []) st.2)) (bufQ, scQ)).1
      = (l.foldl (fun (st : List Nat × List (List Nat)) x =>
          (win_encode_rows m s stride matrix x
            ((List.zipWith zipXor dataP dataQ).getD x [])
            (winFillTables s ((List.zipWith zipXor dataP dataQ).getD x [])
              st.2) st.1,
           winFillTables s ((List.zipWith zipXor dataP dataQ).getD x [])
             st.2)) (zipXor bufP bufQ, List.zipWith zipXor scP scQ)).1) ∧
    (l.foldl (fun (st : List Nat × List (List Nat)) x =>
        (win_encode_rows m s stride matrix x (dataP.getD x [])
          (winFillTables s (dataP.getD x []) st.2) st.1,
         winFillTables s (dataP.getD x []) st.2)) (bufP, scP)).1.length
      = (l.foldl (fun (st : List Nat × List (List Nat)) x =>
        (win_encode_rows m s stride matrix x (dataQ.getD x [])
          (winFillTables s (dataQ.getD x []) st.2) st.1,
         winFillTables s (dataQ.getD x []) st.2)) (bufQ, scQ)).1.length := by
  intro l
  induction l with
  | nil =>
    intro bufP bufQ scP scQ hbuf hsl hslot
    exact ⟨rfl, hbuf⟩
  | cons x t ih =>
    intro bufP bufQ scP scQ hbuf hsl hslot
    rw [List.foldl_cons, List.foldl_cons, List.foldl_cons]
    have hft := winFillTables_pair s (dataP.getD x []) (dataQ.getD x [])
      scP scQ (hplen x) hsl hslot
    have hrows := win_encode_rows_pair m s stride matrix x
      (dataP.getD x []) (dataQ.getD x [])
      (winFillTables s (dataP.getD x []) scP)
      (winFillTables s (dataQ.getD x []) scQ) bufP bufQ
      (hplen x) hft.1 hft.2.1 hbuf
    have hih := ih _ _ (winFillTables s (dataP.getD x []) scP)
      (winFillTables s (dataQ.getD x []) scQ) hrows.2 hft.1 hft.2.1
    refine ⟨?_, hih.2⟩
    rw [hih.1, hrows.1, getD_zipWith_zipXor dataP dataQ hdl x, hft.2.2]

theorem win_encode_pair (k m : Nat) (matrix : List Nat) (stride : Nat)
    (dataP dataQ : List (List Nat)) (bufP bufQ : List Nat) (s : Nat)
    (hdl : dataP.length = dataQ.length)
    (hplen : ∀ i, (dataP.getD i []).length = (dataQ.getD i []).length)
    (hbuf : bufP.length = bufQ.length) :
    zipXor (win_encode k m matrix stride dataP bufP s)
        (win_encode k m matrix stride dataQ bufQ s)
      = win_encode k m matrix stride (List.zipWith zipXor dataP dataQ)
          (zipXor bufP bufQ) s := by
  unfold win_encode
  have h := win_encode_fold_pair m s stride matrix dataP dataQ hdl hplen
    (List.range k) bufP bufQ (List.replicate 22 []) (List.replicate 22 [])
    hbuf rfl (fun _ => rfl)
  rw [h.1, zipWith_zipXor_replicate_nil]

/-! ## Linearity of the full encoder -/

theorem enc_k1_fold_pair (B : Nat) (dP0 dQ0 : List Nat)
    (hp : dP0.length = dQ0.length) :
    ∀ (l : List Nat) (bufP bufQ : List Nat), bufP.length = bufQ.length →
    (zipXor (l.foldl (fun b ii => writeSeg b (ii * B) (dP0.take B)) bufP)
        (l.foldl (fun b ii => writeSeg b (ii * B) (dQ0.take B)) bufQ)
      = l.foldl (fun b ii => writeSeg b (ii * B) ((zipXor dP0 dQ0).take B))
          (zipXor bufP bufQ)) ∧
    (l.foldl (fun b ii => writeSeg b (ii * B) (dP0.take B)) bufP).length
      = (l.foldl (fun b ii => writeSeg b (ii * B) (dQ0.take B)) bufQ).length := by
  intro l
  induction l with
  | nil =>
    intro bufP bufQ hbuf
    exact ⟨rfl, hbuf⟩
  | cons ii t ih =>
    intro bufP bufQ hbuf
    rw [List.foldl_cons, List.foldl_cons, List.foldl_cons]
    have hx : (dP0.take B).length = (dQ0.take B).length := by
      rw [List.length_take, List.length_take, hp]
    have hih := ih (writeSeg bufP (ii * B) (dP0.take B))
      (writeSeg bufQ (ii * B) (dQ0.take B))
      (length_writeSeg_pair bufP bufQ _ _ (ii * B) hbuf hx)
    refine ⟨?_, hih.2⟩
    rw [hih.1, zipXor_writeSeg _ _ _ _ (ii * B) hbuf hx, take_zipXor]

theorem enc_r2_fold_pair (B : Nat) (dataP dataQ : List (List Nat))
    (hdl : dataP.length = dataQ.length)
    (hplen : ∀ i, (dataP.getD i []).length = (dataQ.getD i []).length) :
    ∀ (l : List Nat) (bufP bufQ : List Nat), bufP.length = bufQ.length →
    (zipXor
        (l.foldl (fun b x => if 2 ≤ x then
          memxor b 0 (dataP.getD x []) B else b) bufP)
        (l.foldl (fun b x => if 2 ≤ x then
          memxor b 0 (dataQ.getD x []) B else b) bufQ)
      = l.foldl (fun b x => if 2 ≤ x then
          memxor b 0 ((List.zipWith zipXor dataP dataQ).getD x []) B else b)
          (zipXor bufP bufQ)) ∧
    (l.foldl (fun b x => if 2 ≤ x then
        memxor b 0 (dataP.getD x []) B else b) bufP).length
      = (l.foldl (fun b x => if 2 ≤ x then
        memxor b 0 (dataQ.getD x []) B else b) bufQ).length := by
  intro l
  induction l with
  | nil =>
    intro bufP bufQ hbuf
    exact ⟨rfl, hbuf⟩
  | cons x t ih =>
    intro bufP bufQ hbuf
    rw [List.foldl_cons, List.foldl_cons, List.foldl_cons]
    by_cases hc : 2 ≤ x
    · rw [if_pos hc, if_pos hc, if_pos hc]
      have hmx := memxor_pair bufP bufQ _ _ 0 B hbuf (hplen x)
      have hih := ih _ _ hmx.2
      refine ⟨?_, hih.2⟩
      rw [hih.1, hmx.1, getD_zipWith_zipXor dataP dataQ hdl x]
    · rw [if_neg hc, if_neg hc, if_neg hc]
      exact ih bufP bufQ hbuf

theorem enc_r2_pair (k B : Nat) (dataP dataQ : List (List Nat))
    (r0 : List Nat) (hz : zipXor r0 r0 = r0)
    (hdl : dataP.length = dataQ.length)
    (hplen : ∀ i, (dataP.getD i []).length = (dataQ.getD i []).length) :
    (zipXor
        ((List.range k).foldl (fun b x => if 2 ≤ x then
          memxor b 0 (dataP.getD x []) B else b)
          (memxor_set r0 0 (dataP.getD 0 []) (dataP.getD 1 []) B))
        ((List.range k).foldl (fun b x => if 2 ≤ x then
          memxor b 0 (dataQ.getD x []) B else b)
          (memxor_set r0 0 (dataQ.getD 0 []) (dataQ.getD 1 []) B))
      = (List.range k).foldl (fun b x => if 2 ≤ x then
          memxor b 0 ((List.zipWith zipXor dataP dataQ).getD x []) B else b)
          (memxor_set r0 0 ((List.zipWith zipXor dataP dataQ).getD 0 [])
            ((List.zipWith zipXor dataP dataQ).getD 1 []) B)) ∧
    ((List.range k).foldl (fun b x => if 2 ≤ x then
        memxor b 0 (dataP.getD x []) B else b)
        (memxor_set r0 0 (dataP.getD 0 []) (dataP.getD 1 []) B)).length
      = ((List.range k).foldl (fun b x => if 2 ≤ x then
        memxor b 0 (dataQ.getD x []) B else b)
        (memxor_set r0 0 (dataQ.getD 0 []) (dataQ.getD 1 []) B)).length := by
  have h1 := memxor_set_pair r0 r0 (dataP.getD 0 []) (dataQ.getD 0 [])
    (dataP.getD 1 []) (dataQ.getD 1 []) 0 B rfl (hplen 0) (hplen 1)
  rw [hz] at h1
  have haux := enc_r2_fold_pair B dataP dataQ hdl hplen (List.range k)
    (memxor_set r0 0 (dataP.getD 0 []) (dataP.getD 1 []) B)
    (memxor_set r0 0 (dataQ.getD 0 []) (dataQ.getD 1 []) B) h1.2
  refine ⟨?_, haux.2⟩
  rw [haux.1, h1.1, getD_zipWith_zipXor dataP dataQ hdl 0,
    getD_zipWith_zipXor dataP dataQ hdl 1]

/-- C6: `cauchy_256_encode` is GF(2)-linear in the payload: with
zero-initialized recovery buffers, the byte-wise XOR of the outputs on
payloads `P` and `Q` equals the output on the byte-wise XOR `P ⊕ Q`, and
the status codes agree (the guards depend only on the shape). -/
theorem C6_encode_linear (k m block_bytes : Nat)
    (dataP dataQ : List (List Nat))
    (hdl : dataP.length = dataQ.length)
    (hplen0 : ∀ i, i < dataP.length →
      (dataP.getD i []).length = (dataQ.getD i []).length) :
    (cauchy_256_encode k m dataP
        (List.replicate (m * block_bytes) 0) block_bytes).1
      = (cauchy_256_encode k m (List.zipWith zipXor dataP dataQ)
          (List.replicate (m * block_bytes) 0) block_bytes).1 ∧
    zipXor
        (cauchy_256_encode k m dataP
          (List.replicate (m * block_bytes) 0) block_bytes).2
        (cauchy_256_encode k m dataQ
          (List.replicate (m * block_bytes) 0) block_bytes).2
      = (cauchy_256_encode k m (List.zipWith zipXor dataP dataQ)
          (List.replicate (m * block_bytes) 0) block_bytes).2 := by
  have hplen : ∀ i, (dataP.getD i []).length = (dataQ.getD i []).length := by
    intro i
    rcases Nat.lt_or_ge i dataP.length with h | h
    · exact hplen0 i h
    · rw [getD_eq_default_of_le dataP i [] h,
        getD_eq_default_of_le dataQ i [] (by omega)]
  have hz : zipXor (List.replicate (m * block_bytes) 0)
      (List.replicate (m * block_bytes) 0)
      = List.replicate (m * block_bytes) 0 :=
    zipXor_replicate_zero (m * block_bytes)
  unfold cauchy_256_encode
  by_cases hk1 : k ≤ 1
  · rw [if_pos hk1, if_pos hk1, if_pos hk1]
    refine ⟨rfl, ?_⟩
    have haux := enc_k1_fold_pair block_bytes (dataP.getD 0 [])
      (dataQ.getD 0 []) (hplen 0) (List.range m)
      (List.replicate (m * block_bytes) 0)
      (List.replicate (m * block_bytes) 0) rfl
    rw [haux.1, hz, getD_zipWith_zipXor dataP dataQ hdl 0]
  · rw [if_neg hk1, if_neg hk1, if_neg hk1]
    dsimp only
    have hr2 := enc_r2_pair k block_bytes dataP dataQ
      (List.replicate (m * block_bytes) 0) hz hdl hplen
    by_cases hm1 : m = 1
    · rw [if_pos hm1, if_pos hm1, if_pos hm1]
      exact ⟨rfl, hr2.1⟩
    · rw [if_neg hm1, if_neg hm1, if_neg hm1]
      by_cases hval : 256 < k + m ∨ block_bytes % 8 ≠ 0
      · rw [if_pos hval, if_pos hval, if_pos hval]
        exact ⟨rfl, hr2.1⟩
      · rw [if_neg hval, if_neg hval, if_neg hval]
        have hzrep : zipXor (List.replicate (block_bytes * (m - 1)) 0)
            (List.replicate (block_bytes * (m - 1)) 0)
            = List.replicate (block_bytes * (m - 1)) 0 :=
          zipXor_replicate_zero (block_bytes * (m - 1))
        have hr3 : zipXor
            (writeSeg ((List.range k).foldl (fun b x => if 2 ≤ x then
                memxor b 0 (dataP.getD x []) block_bytes else b)
                (memxor_set (List.replicate (m * block_bytes) 0) 0
                  (dataP.getD 0 []) (dataP.getD 1 []) block_bytes))
              block_bytes (List.replicate (block_bytes * (m - 1)) 0))
            (writeSeg ((List.range k).foldl (fun b x => if 2 ≤ x then
                memxor b 0 (dataQ.getD x []) block_bytes else b)
                (memxor_set (List.replicate (m * block_bytes) 0) 0
                  (dataQ.getD 0 []) (dataQ.getD 1 []) block_bytes))
              block_bytes (List.replicate (block_bytes * (m - 1)) 0))
            = writeSeg ((List.range k).foldl (fun b x => if 2 ≤ x then
                memxor b 0 ((List.zipWith zipXor dataP dataQ).getD x [])
                  block_bytes else b)
                (memxor_set (List.replicate (m * block_bytes) 0) 0
                  ((List.zipWith zipXor dataP dataQ).getD 0 [])
                  ((List.zipWith zipXor dataP dataQ).getD 1 [])
                  block_bytes))
              block_bytes (List.replicate (block_bytes * (m - 1)) 0) := by
          rw [zipXor_writeSeg _ _ _ _ block_bytes hr2.2 rfl, hzrep, hr2.1]
        have hr3len : (writeSeg ((List.range k).foldl (fun b x =>
              if 2 ≤ x then memxor b 0 (dataP.getD x []) block_bytes else b)
              (memxor_set (List.replicate (m * block_bytes) 0) 0
                (dataP.getD 0 []) (dataP.getD 1 []) block_bytes))
            block_bytes (List.replicate (block_bytes * (m - 1)) 0)).length
            = (writeSeg ((List.range k).foldl (fun b x =>
              if 2 ≤ x then memxor b 0 (dataQ.getD x []) block_bytes else b)
              (memxor_set (List.replicate (m * block_bytes) 0) 0
                (dataQ.getD 0 []) (dataQ.getD 1 []) block_bytes))
            block_bytes (List.replicate (block_bytes * (m - 1)) 0)).length :=
          length_writeSeg_pair _ _ _ _ block_bytes hr2.2 rfl
        by_cases hwin : 4 < m
        · rw [if_pos hwin, if_pos hwin, if_pos hwin]
          refine ⟨rfl, ?_⟩
          rw [win_encode_pair k m (cauchy_matrix k m).1 (cauchy_matrix k m).2
            dataP dataQ _ _ (block_bytes >>> 3) hdl hplen hr3len, hr3]
        · rw [if_neg hwin, if_neg hwin, if_neg hwin]
          refine ⟨rfl, ?_⟩
          rw [(encode_row_loop_pair k m (block_bytes >>> 3)
            (cauchy_matrix k m).2 (cauchy_matrix k m).1 dataP dataQ _ _
            hdl hplen hr3len).1, hr3]

/-- Witness for C6: linearity at a concrete `k = 2`, `m = 2`, 8-byte
instance. -/
theorem C6_witness :
    (cauchy_256_encode 2 2
        [[1, 2, 3, 4, 5, 6, 7, 8], [9, 10, 11, 12, 13, 14, 15, 16]]
        (List.replicate (2 * 8) 0) 8).1
      = (cauchy_256_encode 2 2 (List.zipWith zipXor
          [[1, 2, 3, 4, 5, 6, 7, 8], [9, 10, 11, 12, 13, 14, 15, 16]]
          [[17, 18, 19, 20, 21, 22, 23, 24],
           [25, 26, 27, 28, 29, 30, 31, 32]])
          (List.replicate (2 * 8) 0) 8).1 ∧
    zipXor
        (cauchy_256_encode 2 2
          [[1, 2, 3, 4, 5, 6, 7, 8], [9, 10, 11, 12, 13, 14, 15, 16]]
          (List.replicate (2 * 8) 0) 8).2
        (cauchy_256_encode 2 2
          [[17, 18, 19, 20, 21, 22, 23, 24],
           [25, 26, 27, 28, 29, 30, 31, 32]]
          (List.replicate (2 * 8) 0) 8).2
      = (cauchy_256_encode 2 2 (List.zipWith zipXor
          [[1, 2, 3, 4, 5, 6, 7, 8], [9, 10, 11, 12, 13, 14, 15, 16]]
          [[17, 18, 19, 20, 21, 22, 23, 24],
           [25, 26, 27, 28, 29, 30, 31, 32]])
          (List.replicate (2 * 8) 0) 8).2 :=
  C6_encode_linear 2 2 8
    [[1, 2, 3, 4, 5, 6, 7, 8], [9, 10, 11, 12, 13, 14, 15, 16]]
    [[17, 18, 19, 20, 21, 22, 23, 24], [25, 26, 27, 28, 29, 30, 31, 32]]
    (by decide) (by decide)

end Longhair
